import Mathlib

/-! # DrawbotMkII: line parser, SCARA inverse kinematics and joints

A shallow embedding of `Joint.h`, `ScaraArm.h` and `Parser.h`.

Conventions of the embedding.

* C `int` is modelled by `Int` (no wrap-around: signed overflow has no defined
  behaviour in the source language, and the width of `int` depends on the board).
* C `float`/`double` is modelled by `FVal`: an exact real number, an infinity or
  NaN.  Arithmetic on finite values is exact (no rounding); division by zero,
  comparisons with NaN and `acos` outside `[-1, 1]` follow IEEE-754.  Zero is
  unsigned and is treated as `+0`.
* The namespace `Rounded` repeats `Joint::setPosition` and `ScaraArm::setPosition(int,int)`
  with the result of every operation rounded to its type: `float` is IEEE-754 binary32,
  `double` is binary64, rounding is to nearest, ties to even.
* A `char` is modelled by its integer value.  The cursor `iter` of the parser, an `int`
  that never goes below zero, is modelled by `Nat`.
* Calls into the board support library (`Servo::writeMicroseconds`, `delay`,
  `Serial.print`) are recorded, in order, in a log carried by the state.
* `none` as the result of an operation means that the call has no defined result:
  it does not return, or it converts a non-finite float to `int`.
-/

noncomputable section

open Classical

/-! ## Floating point values -/

/-- A value of type `float`: a real number, plus or minus infinity, or NaN. -/
inductive FVal where
  | fin (r : ℝ)
  | inf (neg : Bool)
  | nan

namespace FVal

/-- Conversion `(float) i` of an `int`. -/
def ofInt (i : Int) : FVal := fin (i : ℝ)

/-- The constant `PI`. -/
def pi : FVal := fin Real.pi

/-- Unary minus. -/
def neg : FVal → FVal
  | fin a => fin (-a)
  | inf s => inf (!s)
  | nan => nan

/-- Addition `a + b`. -/
def add : FVal → FVal → FVal
  | fin a, fin b => fin (a + b)
  | fin _, inf s => inf s
  | inf s, fin _ => inf s
  | inf s, inf t => if s = t then inf s else nan
  | _, _ => nan

/-- Subtraction `a - b`. -/
def sub (a b : FVal) : FVal := add a (neg b)

/-- Multiplication `a * b`. -/
def mul : FVal → FVal → FVal
  | fin a, fin b => fin (a * b)
  | fin a, inf s => if a = 0 then nan else inf (xor s (decide (a < 0)))
  | inf s, fin a => if a = 0 then nan else inf (xor s (decide (a < 0)))
  | inf s, inf t => inf (xor s t)
  | _, _ => nan

/-- Division `a / b`: a finite non-zero value over zero is an infinity, `0 / 0` is NaN. -/
def div : FVal → FVal → FVal
  | fin a, fin b =>
      if b = 0 then (if a = 0 then nan else inf (decide (a < 0))) else fin (a / b)
  | fin _, inf _ => fin 0
  | inf s, fin b => inf (xor s (decide (b < 0)))
  | _, _ => nan

/-- Comparison `a < b`; false as soon as one side is NaN. -/
def lt : FVal → FVal → Prop
  | fin a, fin b => a < b
  | fin _, inf s => s = false
  | inf s, fin _ => s = true
  | inf s, inf t => s = true ∧ t = false
  | _, _ => False

/-- Comparison `a > b`. -/
def gt (a b : FVal) : Prop := lt b a

/-- Comparison `a >= b`; false as soon as one side is NaN. -/
def ge : FVal → FVal → Prop
  | fin a, fin b => b ≤ a
  | fin _, inf s => s = true
  | inf s, fin _ => s = false
  | inf s, inf t => s = false ∨ t = true
  | _, _ => False

/-- Library function `sqrt`. -/
def sqrt : FVal → FVal
  | fin a => if a < 0 then nan else fin (Real.sqrt a)
  | inf s => if s then nan else inf false
  | nan => nan

/-- Library function `acos`: NaN outside `[-1, 1]`. -/
def acos : FVal → FVal
  | fin a => if -1 ≤ a ∧ a ≤ 1 then fin (Real.arccos a) else nan
  | _ => nan

/-- Library function `atan2(y, x)` on finite arguments: the angle of the point `(x, y)`
in `(-PI, PI]`, and `0` at the origin. -/
def atan2 (y x : ℝ) : FVal := fin (Complex.arg ⟨x, y⟩)

/-- Conversion `(int) v`: truncation toward zero; not defined on infinities and NaN. -/
def toInt : FVal → Option Int
  | fin a => some (if 0 ≤ a then ⌊a⌋ else ⌈a⌉)
  | _ => none

end FVal

/-! ## Joint.h -/

/-- The fti macro of `Joint.h`:
`#define fti(x) ((x) >= 0 ? (int)((x)+0.5) : (int)((x)-0.5))`. -/
def fti (x : FVal) : Option Int :=
  if FVal.ge x (FVal.fin 0) then FVal.toInt (FVal.add x (FVal.fin (1/2)))
  else FVal.toInt (FVal.sub x (FVal.fin (1/2)))

/-- A call into the board support library, or the entry of `ScaraArm::setPosition(int,int)`. -/
inductive Event where
  | writeMicroseconds (servo : Nat) (pulseWidth : Option Int)
  | delay (ms : Int)
  | setPosition (x y : Int)

/-- Class `Joint`: the data members; `_servo` identifies the servo object. -/
structure Joint where
  _angle : FVal
  _center : Int
  _widthPerRadian : FVal
  _servo : Nat

namespace Joint

/-- Method `Joint::setParameters`. -/
def setParameters (j : Joint) (servo : Nat) (center : Int) (widthPerRadian : FVal) : Joint :=
  { j with _center := center, _widthPerRadian := widthPerRadian, _servo := servo }

/-- The pulse width computed by `Joint::setPosition`:
`_center + fti(_widthPerRadian * angle)`. -/
def pulseWidth (j : Joint) (angle : FVal) : Option Int :=
  (fti (FVal.mul j._widthPerRadian angle)).map (fun r => j._center + r)

/-- Method `Joint::setPosition`: stores the angle and writes the pulse width to the servo. -/
def setPosition (j : Joint) (angle : FVal) : Joint × Event :=
  ({ j with _angle := angle }, Event.writeMicroseconds j._servo (j.pulseWidth angle))

/-- Method `Joint::getPosition`. -/
def getPosition (j : Joint) : FVal := j._angle

end Joint

/-! ## ScaraArm.h -/

/-- Class `ScaraArm`: the data members, and the log of library calls. -/
structure ScaraArm where
  _shoulder : Joint
  _elbow : Joint
  _humerus : Int
  _ulna : Int
  _humerusSq : Int
  _ulnaSq : Int
  _x : Int
  _y : Int
  _xOffset : Int
  _yOffset : Int
  _feedRateDelay : Int
  log : List Event

namespace ScaraArm

/-- Constant `STRAIGHT_ANGLE = PI`. -/
def STRAIGHT_ANGLE : FVal := FVal.pi

/-- Constant `FULL_ROTATION = 2.0 * PI`. -/
def FULL_ROTATION : FVal := FVal.mul (FVal.fin 2) FVal.pi

/-- The constructor `ScaraArm(humerus, ulna, xOffset, yOffset, feedRateDelay)`; the members
it leaves uninitialised (joints, `_x`, `_y`) are taken from `init`. -/
def mk0 (init : ScaraArm) (humerus ulna xOffset yOffset feedRateDelay : Int) : ScaraArm :=
  { init with
    _humerus := humerus, _ulna := ulna,
    _humerusSq := humerus * humerus, _ulnaSq := ulna * ulna,
    _xOffset := xOffset, _yOffset := yOffset, _feedRateDelay := feedRateDelay }

/-- Method `ScaraArm::setShoulder`. -/
def setShoulder (arm : ScaraArm) (shoulderAngleRads : FVal) : ScaraArm :=
  let r := arm._shoulder.setPosition shoulderAngleRads
  { arm with _shoulder := r.1, log := arm.log ++ [r.2] }

/-- Method `ScaraArm::setElbow`: the joint receives `elbowAngle - STRAIGHT_ANGLE`. -/
def setElbow (arm : ScaraArm) (elbowAngle : FVal) : ScaraArm :=
  let r := arm._elbow.setPosition (FVal.sub elbowAngle STRAIGHT_ANGLE)
  { arm with _elbow := r.1, log := arm.log ++ [r.2] }

/-- The local `s_w` of `setPosition(int,int)` (lines 111-115): the squared distance of the
target from the shoulder, after the offset. -/
def s_w (arm : ScaraArm) (x y : Int) : Int :=
  let x := x + arm._xOffset
  let y := y + arm._yOffset
  (x * x) + (y * y)

/-- The local `s_w_sqrt` of `setPosition(int,int)` (line 116). -/
def s_w_sqrt (arm : ScaraArm) (x y : Int) : FVal := FVal.sqrt (FVal.ofInt (arm.s_w x y))

/-- The local `a1` of `setPosition(int,int)` (line 119). -/
def a1 (arm : ScaraArm) (x y : Int) : FVal :=
  FVal.atan2 ((y + arm._yOffset : Int) : ℝ) ((x + arm._xOffset : Int) : ℝ)

/-- The local `q` of `setPosition(int,int)` (line 122):
`(float)(_humerusSq - _ulnaSq + s_w) / (2.0 * _humerus * s_w_sqrt)`. -/
def q (arm : ScaraArm) (x y : Int) : FVal :=
  FVal.div (FVal.ofInt (arm._humerusSq - arm._ulnaSq + arm.s_w x y))
    (FVal.mul (FVal.mul (FVal.fin 2) (FVal.ofInt arm._humerus)) (arm.s_w_sqrt x y))

/-- The reachability check of `setPosition(int,int)` (line 125): `q > 1 || q < -1`. -/
def outOfRange (arm : ScaraArm) (x y : Int) : Prop :=
  FVal.gt (arm.q x y) (FVal.fin 1) ∨ FVal.lt (arm.q x y) (FVal.fin (-1))

/-- The argument of the second `acos` of `setPosition(int,int)` (line 140):
`(float)(_humerusSq + _ulnaSq - s_w) / (2.0 * _humerus * _ulna)`. -/
def elbowCos (arm : ScaraArm) (x y : Int) : FVal :=
  FVal.div (FVal.ofInt (arm._humerusSq + arm._ulnaSq - arm.s_w x y))
    (FVal.mul (FVal.mul (FVal.fin 2) (FVal.ofInt arm._humerus)) (FVal.ofInt arm._ulna))

/-- Method `ScaraArm::setPosition(int x, int y)`. -/
def setPosition (arm : ScaraArm) (x y : Int) : ScaraArm :=
  -- Save the Cartesian space coordinates.
  let arm := { arm with _x := x, _y := y, log := arm.log ++ [Event.setPosition x y] }
  if arm.outOfRange x y then
    arm
  else
    let a2 := FVal.acos (arm.q x y)
    let shoulderRads := FVal.sub (arm.a1 x y) a2
    let arm := arm.setShoulder shoulderRads
    let elb_angle_r := FVal.acos (arm.elbowCos x y)
    let elb_angle_r := FVal.sub FULL_ROTATION elb_angle_r
    arm.setElbow elb_angle_r

/-- Method `ScaraArm::getX`. -/
def getX (arm : ScaraArm) : FVal := FVal.ofInt arm._x

/-- Method `ScaraArm::getY`. -/
def getY (arm : ScaraArm) : FVal := FVal.ofInt arm._y

end ScaraArm

/-! ## Loops -/

/-- A `while (cond) body` loop run for at most `fuel` iterations; `none` when the fuel does
not suffice or an iteration has no defined result. -/
def loopFuel {σ : Type} (cond : σ → Prop) (body : σ → Option σ) : Nat → σ → Option σ
  | 0, s => if cond s then none else some s
  | n + 1, s => if cond s then (body s).bind (loopFuel cond body n) else some s

/-- A `while (cond) body` loop: the state at exit when the loop exits after finitely many
iterations, `none` when it never does. -/
def whileLoop {σ : Type} (cond : σ → Prop) (body : σ → Option σ) (s : σ) : Option σ :=
  if h : ∃ n, (loopFuel cond body n s).isSome then loopFuel cond body (Nat.find h) s else none

/-! ## ScaraArm.h: moves -/

namespace ScaraArm

/-- The call `delay(_feedRateDelay)`. -/
def delay (arm : ScaraArm) : ScaraArm :=
  { arm with log := arm.log ++ [Event.delay arm._feedRateDelay] }

/-- Method `ScaraArm::park`. -/
def park (arm : ScaraArm) : ScaraArm := arm.setPosition 50 50

/-- Method `ScaraArm::setFeedrate`: `_feedRateDelay = f/60000`, converted to `int`. -/
def setFeedrate (arm : ScaraArm) (f : FVal) : Option ScaraArm :=
  (FVal.toInt (FVal.div f (FVal.fin 60000))).map (fun d => { arm with _feedRateDelay := d })

/-- Method `ScaraArm::setHome`. -/
def setHome (arm : ScaraArm) (x y : FVal) : Option ScaraArm :=
  (FVal.toInt x).bind (fun xi => (FVal.toInt y).map (fun yi =>
    { arm with _xOffset := xi, _yOffset := yi }))

/-- Method `ScaraArm::setPosition(float x, float y, float z, float a, float b, float c)`:
`setPosition((int)x, (int)y)`. -/
def setPositionF (arm : ScaraArm) (x y : FVal) : Option ScaraArm :=
  (FVal.toInt x).bind (fun xi => (FVal.toInt y).map (fun yi => arm.setPosition xi yi))

/-- Method `ScaraArm::moveY`. -/
def moveY (arm : ScaraArm) (y : Int) : Option ScaraArm :=
  let inc : Int := if y > arm._y then 1 else -1
  whileLoop (fun a : ScaraArm => a._y ≠ y)
    (fun a => some (a.setPosition a._x (a._y + inc)).delay) arm

/-- Method `ScaraArm::getSlope(int x, int y)`. -/
def getSlope (arm : ScaraArm) (x y : Int) : FVal :=
  let deltaY := FVal.ofInt (y - arm._y)
  let deltaX := FVal.ofInt |x - arm._x|
  FVal.div deltaY deltaX

/-- Method `ScaraArm::movePosition`.  The state of its loop is the arm together with the local
accumulator `a`. -/
def movePosition (arm : ScaraArm) (x y : FVal) : Option ScaraArm :=
  (FVal.toInt x).bind (fun xLimit =>
    (FVal.toInt y).bind (fun yi =>
      if xLimit = arm._x then
        arm.moveY yi
      else
        let slope := arm.getSlope xLimit yi
        let inc : Int := if xLimit > arm._x then 1 else -1
        (whileLoop (fun s : ScaraArm × FVal => s.1._x ≠ xLimit)
          (fun s =>
            let a := FVal.add s.2 slope
            (FVal.toInt a).map (fun ai => ((s.1.setPosition (s.1._x + inc) ai).delay, a)))
          (arm, FVal.ofInt arm._y)).map Prod.fst))

end ScaraArm

/-! ## Parser.h -/

/-- Constant `LINE_BUFFER_SIZE`. -/
def LINE_BUFFER_SIZE : Nat := 64

/-- Constant `STATUS_OK`. -/
def STATUS_OK : Int := 0
/-- Constant `STATUS_OVERFLOW`. -/
def STATUS_OVERFLOW : Int := 13
/-- Constant `STATUS_VERSION`. -/
def STATUS_VERSION : Int := 14

/-- Class `GCodeProcessor`: the virtual methods, over the state `σ` of the object that
implements them.  A getter reads the state; another method gives the state after the call,
or `none` when the call has no defined result. -/
structure GCodeProcessor (σ : Type) where
  park : σ → Option σ
  getX : σ → FVal
  getY : σ → FVal
  getZ : σ → FVal
  getA : σ → FVal
  getB : σ → FVal
  getC : σ → FVal
  setFeedrate : σ → FVal → Option σ
  setHome : σ → FVal → FVal → FVal → FVal → FVal → FVal → Option σ
  setPosition : σ → FVal → FVal → FVal → FVal → FVal → FVal → Option σ
  movePosition : σ → FVal → FVal → FVal → FVal → FVal → FVal → Option σ
  enableVacuum : σ → Bool → Option σ

/-- Class `ScaraArm` as a `GCodeProcessor`. -/
def ScaraArm.processor : GCodeProcessor ScaraArm where
  park := fun arm => some arm.park
  getX := ScaraArm.getX
  getY := ScaraArm.getY
  getZ := fun _ => FVal.fin 0
  getA := fun _ => FVal.fin 0
  getB := fun _ => FVal.fin 0
  getC := fun _ => FVal.fin 0
  setFeedrate := ScaraArm.setFeedrate
  setHome := fun arm x y _ _ _ _ => arm.setHome x y
  setPosition := fun arm x y _ _ _ _ => arm.setPositionF x y
  movePosition := fun arm x y _ _ _ _ => arm.movePosition x y
  enableVacuum := fun arm _ => some arm

/-- What the program sends to the outside, in order: a text or a number printed on `Serial`,
or a call `delay(ms)` made by the parser. -/
inductive SerialEvent where
  | text (s : String)
  | num (v : FVal)
  | delay (ms : FVal)

/-- Class `Parser`: the processor object it is bound to, the line buffer and its cursor.
Three logs are carried along: `serial`, what was printed; `dispatched`, the line
`buffer[0..iter)` at each call of `processCommand`; `stores`, the index of each write into
`buffer`. -/
structure Parser (σ : Type) where
  _processor : σ
  buffer : List Int
  iter : Nat
  serial : List SerialEvent
  dispatched : List (List Int)
  stores : List Nat

namespace Parser

variable {σ : Type}

/-- The call `Serial.print(F(s))`. -/
def print (p : Parser σ) (s : String) : Parser σ :=
  { p with serial := p.serial ++ [SerialEvent.text s] }

/-- The call `Serial.print(v)` of a float. -/
def printNum (p : Parser σ) (v : FVal) : Parser σ :=
  { p with serial := p.serial ++ [SerialEvent.num v] }

/-- Method `Parser::reset`. -/
def reset (p : Parser σ) : Parser σ :=
  { p with iter := 0 }.print "> "

/-- The message that the `switch` of `Parser::reportMessage` prints for an error code;
nothing for a code without a case. -/
def errorText (status_code : Int) : Option String :=
  if status_code = 1 then some "Bad number format"
  else if status_code = 2 then some "Expected command letter"
  else if status_code = 3 then some "Unsupported statement"
  else if status_code = 4 then some "Invalid radius"
  else if status_code = 5 then some "Modal group violation"
  else if status_code = 6 then some "Invalid statement"
  else if status_code = 7 then some "Setting disabled"
  else if status_code = 8 then some "Value < 0.0"
  else if status_code = 9 then some "Value < 3 usec"
  else if status_code = 10 then some "EEPROM read fail. Using defaults"
  else if status_code = 11 then some "Busy or queued"
  else if status_code = 12 then some "Alarm lock"
  else if status_code = 13 then some "Line overflow"
  else none

/-- Method `Parser::reportMessage`. -/
def reportMessage (p : Parser σ) (status_code : Int) : Parser σ :=
  let p :=
    if status_code = 0 then
      p.print "ok\r\n"
    else if status_code = STATUS_VERSION then
      p.print "Grbl v0.8c [\x27$\x27 for help]\r\n"
    else
      let p := p.print "error: "
      match errorText status_code with
      | some msg => p.print msg
      | none => p
  p.print "\r\n"

/-- Method `Parser::deg2Rad`. -/
def deg2Rad (degValue : FVal) : FVal :=
  FVal.div (FVal.mul degValue FVal.pi) (FVal.fin 180)

/-- Method `Parser::rad2Deg`. -/
def rad2Deg (degValue : FVal) : FVal :=
  FVal.div (FVal.mul degValue (FVal.fin 180)) FVal.pi

/-- The C string that starts at a pointer: the chars before the first NUL. -/
def cString (cs : List Int) : List Int := cs.takeWhile (fun c => c ≠ 0)

/-- The loop of `Parser::getArgument`: `cs` holds the chars from `ptr` on and `n` is
`buffer + iter - ptr`.  The library function `atof` is a parameter. -/
def getArgumentLoop (atof : List Int → FVal) (code : Int) (val : FVal) :
    Nat → List Int → FVal
  | 0, _ => val
  | _ + 1, [] => val
  | n + 1, c :: cs =>
      if c = 0 then val
      else if c = code then atof (cString cs)
      else getArgumentLoop atof code val n cs

/-- Method `Parser::getArgument`. -/
def getArgument (atof : List Int → FVal) (p : Parser σ) (code : Int) (val : FVal) : FVal :=
  getArgumentLoop atof code val p.iter p.buffer

/-- The six arguments that `processCommand` hands to `setPosition`, `movePosition` and
`setHome`: X, Y, Z as given or the current value, A, B, C converted from degrees. -/
def axisArgs (P : GCodeProcessor σ) (atof : List Int → FVal) (p : Parser σ) :
    FVal × FVal × FVal × FVal × FVal × FVal :=
  (getArgument atof p 88 (P.getX p._processor),
   getArgument atof p 89 (P.getY p._processor),
   getArgument atof p 90 (P.getZ p._processor),
   deg2Rad (getArgument atof p 65 (rad2Deg (P.getA p._processor))),
   deg2Rad (getArgument atof p 66 (rad2Deg (P.getB p._processor))),
   deg2Rad (getArgument atof p 67 (rad2Deg (P.getC p._processor))))

/-- The first `switch` of `Parser::processCommand`, on the G code. -/
def processG (P : GCodeProcessor σ) (atof : List Int → FVal) (p : Parser σ) (cmd : Int) :
    Option (Parser σ) :=
  let args := axisArgs P atof p
  if cmd = 0 then
    (P.setPosition p._processor args.1 args.2.1 args.2.2.1 args.2.2.2.1 args.2.2.2.2.1
      args.2.2.2.2.2).map (fun s => { p with _processor := s })
  else if cmd = 1 then
    (P.movePosition p._processor args.1 args.2.1 args.2.2.1 args.2.2.2.1 args.2.2.2.2.1
      args.2.2.2.2.2).map (fun s => { p with _processor := s })
  else if cmd = 4 then
    some { p with serial := p.serial ++
      [SerialEvent.delay (FVal.mul (getArgument atof p 80 (FVal.fin 0)) (FVal.fin 1000))] }
  else if cmd = 28 then
    (P.park p._processor).map (fun s => { p with _processor := s })
  else
    some p

/-- The prints of case 114 of the second `switch` of `Parser::processCommand`, in order; the
last one is a `println`. -/
def printPosition (P : GCodeProcessor σ) (p : Parser σ) : Parser σ :=
  let s := p._processor
  { p with serial := p.serial ++
      [SerialEvent.text "X=", SerialEvent.num (P.getX s),
       SerialEvent.text ", Y=", SerialEvent.num (P.getY s),
       SerialEvent.text ", Z=", SerialEvent.num (P.getZ s),
       SerialEvent.text ", A=", SerialEvent.num (rad2Deg (P.getA s)),
       SerialEvent.text ", B=", SerialEvent.num (rad2Deg (P.getB s)),
       SerialEvent.text ", C=", SerialEvent.num (rad2Deg (P.getC s)),
       SerialEvent.text "\r\n"] }

/-- The second `switch` of `Parser::processCommand`, on the M code. -/
def processM (P : GCodeProcessor σ) (atof : List Int → FVal) (p : Parser σ) (cmd : Int) :
    Option (Parser σ) :=
  if cmd = 10 then
    (P.enableVacuum p._processor true).map (fun s => { p with _processor := s })
  else if cmd = 11 then
    (P.enableVacuum p._processor false).map (fun s => { p with _processor := s })
  else if cmd = 114 then
    some (printPosition P p)
  else if cmd = 206 then
    let args := axisArgs P atof p
    (P.setHome p._processor args.1 args.2.1 args.2.2.1 args.2.2.2.1 args.2.2.2.2.1
      args.2.2.2.2.2).map (fun s => { p with _processor := s })
  else
    some p

/-- Method `Parser::processCommand`: the parser after the call, and the status returned. -/
def processCommand (P : GCodeProcessor σ) (atof : List Int → FVal) (p : Parser σ) :
    Option (Parser σ × Int) :=
  -- int cmd = getArgument('G', -1);
  (FVal.toInt (getArgument atof p 71 (FVal.fin (-1)))).bind (fun cmd =>
  (processG P atof p cmd).bind (fun p =>
  -- cmd = getArgument('F', -1);
  (FVal.toInt (getArgument atof p 70 (FVal.fin (-1)))).bind (fun cmd =>
  (if cmd ≠ -1 then
     (P.setFeedrate p._processor (FVal.ofInt cmd)).map (fun s => { p with _processor := s })
   else some p).bind (fun p =>
  -- cmd = getArgument('M', -1);
  (FVal.toInt (getArgument atof p 77 (FVal.fin (-1)))).bind (fun cmd =>
  (processM P atof p cmd).bind (fun p =>
  some (p, STATUS_OK)))))))

/-- The statement `buffer[iter++] = c`. -/
def store (p : Parser σ) (c : Int) : Parser σ :=
  { p with buffer := p.buffer.set p.iter c, iter := p.iter + 1, stores := p.stores ++ [p.iter] }

/-- The statement `buffer[iter] = 0` before the call of `processCommand`; the line handed
over is recorded. -/
def terminate (p : Parser σ) : Parser σ :=
  { p with buffer := p.buffer.set p.iter 0, stores := p.stores ++ [p.iter],
           dispatched := p.dispatched ++ [(p.buffer.set p.iter 0).take p.iter] }

/-- One iteration of the loop of `Parser::listen`, on the char `c` just read: the local
`iscomment` and the parser after the iteration. -/
def listenStep (P : GCodeProcessor σ) (atof : List Int → FVal) (iscomment : Bool)
    (p : Parser σ) (c : Int) : Option (Bool × Parser σ) :=
  if c = 10 ∨ c = 13 then
    -- end of line reached
    (if p.iter > 0 then
      (processCommand P atof (terminate p)).map (fun r => reportMessage r.1 r.2)
    else
      some (reportMessage p STATUS_OK)).map (fun p => (iscomment, reset p))
  else if iscomment then
    if c = 41 then some (false, p) else some (iscomment, p)
  else if c ≤ 32 then
    if c = 24 then some (iscomment, reportMessage p STATUS_VERSION) else some (iscomment, p)
  else if c = 47 then
    some (iscomment, p)
  else if c = 40 then
    some (true, p)
  else if p.iter ≥ LINE_BUFFER_SIZE - 1 then
    some (iscomment, reset (reportMessage p STATUS_OVERFLOW))
  else if c ≥ 97 ∧ c ≤ 122 then
    some (iscomment, store p (c - 97 + 65))
  else
    some (iscomment, store p c)

/-- The loop of `Parser::listen` over the chars that `Serial.read()` delivers. -/
def listenLoop (P : GCodeProcessor σ) (atof : List Int → FVal) :
    Bool → Parser σ → List Int → Option (Bool × Parser σ)
  | iscomment, p, [] => some (iscomment, p)
  | iscomment, p, c :: cs =>
      (listenStep P atof iscomment p c).bind (fun r => listenLoop P atof r.1 r.2 cs)

/-- Method `Parser::listen`, called when `input` is what the serial port holds: `iscomment` starts as
`false`, and is dropped on return. -/
def listen (P : GCodeProcessor σ) (atof : List Int → FVal) (p : Parser σ) (input : List Int) :
    Option (Parser σ) :=
  (listenLoop P atof false p input).map Prod.snd

end Parser

/-! ## Auxiliary definitions -/

/-- The invariant set up by the constructor and kept by every method: the two squares are
the squares of the bone lengths. -/
def ScaraArm.Constructed (arm : ScaraArm) : Prop :=
  arm._humerusSq = arm._humerus * arm._humerus ∧ arm._ulnaSq = arm._ulna * arm._ulna

/-- An arm with two bones of length 50, no offset, resting at (50, 50). -/
def armEqualBones : ScaraArm :=
  ScaraArm.mk0
    { _shoulder := ⟨FVal.fin 0, 1500, FVal.fin 600, 0⟩,
      _elbow := ⟨FVal.fin 0, 1500, FVal.fin 600, 1⟩,
      _humerus := 0, _ulna := 0, _humerusSq := 0, _ulnaSq := 0,
      _x := 50, _y := 50, _xOffset := 0, _yOffset := 0, _feedRateDelay := 0, log := [] }
    50 50 0 0 10

/-- Successive calls of `Parser::listen`, one for each chunk of input. -/
def Parser.listenAll {σ : Type} (P : GCodeProcessor σ) (atof : List Int → FVal) :
    Parser σ → List (List Int) → Option (Parser σ)
  | p, [] => some p
  | p, chunk :: rest => (Parser.listen P atof p chunk).bind (fun q => Parser.listenAll P atof q rest)

/-- The part of the parser that only line assembly changes: buffer, cursor and the two logs
of line assembly. -/
def Parser.SameLine {σ : Type} (p q : Parser σ) : Prop :=
  q.buffer = p.buffer ∧ q.iter = p.iter ∧ q.stores = p.stores ∧ q.dispatched = p.dispatched

/-- A parser after construction and a first `reset()`: empty line, prompt printed; the 64
cells of the buffer hold zeros. -/
def Parser.start {σ : Type} (s : σ) : Parser σ :=
  { _processor := s, buffer := List.replicate 64 0, iter := 0,
    serial := [SerialEvent.text "> "], dispatched := [], stores := [] }

/-- The upper case letter for a lower case one, any other char as it is. -/
def upcase (c : Int) : Int := if 97 ≤ c ∧ c ≤ 122 then c - 32 else c

/-- Whether a text ends inside a parenthesised comment: `(` opens a comment outside of one,
`)` closes it. -/
def unclosedComment : Bool → List Int → Bool
  | b, [] => b
  | true, c :: cs => unclosedComment (c ≠ 41) cs
  | false, c :: cs => unclosedComment (c = 40) cs

/-- The content of a line as the specification describes it: comments, whitespace, control
chars and `/` removed, letters in upper case.  The flag tells whether the text starts inside
a comment. -/
def lineContent : Bool → List Int → List Int
  | _, [] => []
  | true, c :: cs => if c = 41 then lineContent false cs else lineContent true cs
  | false, c :: cs =>
      if c ≤ 32 ∨ c = 47 then lineContent false cs
      else if c = 40 then lineContent true cs
      else upcase c :: lineContent false cs

/-- A processor that does nothing, as a stand-in to run the parser on its own. -/
def nullProcessor : GCodeProcessor Unit where
  park := fun _ => some ()
  getX := fun _ => FVal.fin 0
  getY := fun _ => FVal.fin 0
  getZ := fun _ => FVal.fin 0
  getA := fun _ => FVal.fin 0
  getB := fun _ => FVal.fin 0
  getC := fun _ => FVal.fin 0
  setFeedrate := fun _ _ => some ()
  setHome := fun _ _ _ _ _ _ _ => some ()
  setPosition := fun _ _ _ _ _ _ _ => some ()
  movePosition := fun _ _ _ _ _ _ _ => some ()
  enableVacuum := fun _ _ => some ()

/-- The digits at the head of a text, read as a decimal number on top of `acc`; the count of
digits read and the rest of the text. -/
def readDigits : Nat → Nat → List Int → Nat × Nat × List Int
  | acc, k, [] => (acc, k, [])
  | acc, k, c :: cs =>
      if 48 ≤ c ∧ c ≤ 57 then readDigits (acc * 10 + (c - 48).toNat) (k + 1) cs
      else (acc, k, c :: cs)

/-- The library function `atof` on a text that starts with a plain decimal literal (sign,
digits, fraction; no exponent): its value, and 0 when no digit is found. -/
def atofDecimal (cs : List Int) : FVal :=
  let neg : Bool := cs.head? = some 45
  let cs := if cs.head? = some 45 ∨ cs.head? = some 43 then cs.tail else cs
  let ip := readDigits 0 0 cs
  let fp := if ip.2.2.head? = some 46 then readDigits ip.1 0 ip.2.2.tail else (ip.1, 0, ip.2.2)
  let v : ℝ := (fp.1 : ℝ) / (10 : ℝ) ^ fp.2.1
  FVal.fin (if neg then -v else v)

/-- Line-buffer invariant: the cursor is at most 63 and every write so far was at an index
below 64. -/
def Parser.CursorOk {σ : Type} (p : Parser σ) : Prop :=
  p.iter ≤ LINE_BUFFER_SIZE - 1 ∧ ∀ i ∈ p.stores, i < LINE_BUFFER_SIZE

/-- The parser of the example: bound to the arm with bones 50/50, started, and fed the chars
of `G0 X0 Y150`; the buffer holds the line `G0X0Y150`. -/
def parserG0Far : Parser ScaraArm :=
  { _processor := armEqualBones,
    buffer := [71, 48, 88, 48, 89, 49, 53, 48] ++ List.replicate 56 0,
    iter := 8, serial := [SerialEvent.text "> "], dispatched := [],
    stores := [0, 1, 2, 3, 4, 5, 6, 7] }

/-- Every method of the processor returns. -/
def GCodeProcessor.Returns {σ : Type} (P : GCodeProcessor σ) : Prop :=
  (∀ s, (P.park s).isSome) ∧
  (∀ s f, (P.setFeedrate s f).isSome) ∧
  (∀ s x y z a b c, (P.setHome s x y z a b c).isSome) ∧
  (∀ s x y z a b c, (P.setPosition s x y z a b c).isSome) ∧
  (∀ s x y z a b c, (P.movePosition s x y z a b c).isSome) ∧
  (∀ s e, (P.enableVacuum s e).isSome)

/-- The function `atof` gives finite values only. -/
def FiniteAtof (atof : List Int → FVal) : Prop := ∀ cs, ∃ r, atof cs = FVal.fin r

/-- Rounding half away from zero, as the specification words it: `n` is the integer nearest
to `v`, and when `v` is halfway between two integers `n` is the one of larger absolute
value. -/
def IsRoundHalfAway (v : ℝ) (n : Int) : Prop :=
  |(n : ℝ) - v| < 1 / 2 ∨ (|(n : ℝ) - v| = 1 / 2 ∧ |v| < |(n : ℝ)|)

/-- Conversion of a real number to `int`: truncation toward zero. -/
def truncToInt (a : ℝ) : Int := if 0 ≤ a then ⌊a⌋ else ⌈a⌉

/-- Whether an entry of the log of the arm is a servo write. -/
def Event.isWrite : Event → Bool
  | Event.writeMicroseconds _ _ => true
  | _ => false

/-- The steps in a log of the arm: the calls of `setPosition(int,int)` and of `delay`, the
servo writes left out. -/
def stepEvents (l : List Event) : List Event := l.filter (fun e => !e.isWrite)

/-- The steps of `n` iterations of the loop of `moveY` from `(x0, y0)`: a call of
`setPosition` one unit further in y and a call of `delay(d)`, `n` times. -/
def moveYTrace (x0 inc d : Int) : Int → Nat → List Event
  | _, 0 => []
  | y0, n + 1 =>
      Event.setPosition x0 (y0 + inc) :: Event.delay d :: moveYTrace x0 inc d (y0 + inc) n

/-- The steps of `n` iterations of the loop of `movePosition` from the column `x0` with the
accumulator at `r` and the slope `s`: a call of `setPosition` one unit further in x, at the
truncated accumulator, and a call of `delay(d)`, `n` times. -/
def movePositionTrace (inc d : Int) (s : ℝ) : Int → ℝ → Nat → List Event
  | _, _, 0 => []
  | x0, r, n + 1 =>
      Event.setPosition (x0 + inc) (truncToInt (r + s)) :: Event.delay d ::
        movePositionTrace inc d s (x0 + inc) (r + s) n

/-- The arm of the examples, resting at (0, 100), the edge of its reach. -/
def armAtEdge : ScaraArm := { armEqualBones with _x := 0, _y := 100 }

/-- The bytes that a list of prints sends to the transport: the texts, one after the other
(a printed number or a delay adds no text here). -/
def textWritten : List SerialEvent → String
  | [] => ""
  | SerialEvent.text s :: rest => s ++ textWritten rest
  | _ :: rest => textWritten rest

/-- Whether a print is a terminal status response: the `ok` line or the start of an `error:`
line. -/
def SerialEvent.isStatus : SerialEvent → Bool
  | SerialEvent.text s => s == "ok\r\n" || s == "error: "
  | _ => false

/-- Whether a print is the ready prompt. -/
def SerialEvent.isPrompt : SerialEvent → Bool
  | SerialEvent.text s => s == "> "
  | _ => false

/-! ## IEEE-754 rounding -/

/-- Rounding of a real number to an integer: to nearest, a tie to the even neighbour. -/
def roundHalfEven (t : ℝ) : Int :=
  if Int.fract t < 1 / 2 then ⌊t⌋
  else if 1 / 2 < Int.fract t then ⌊t⌋ + 1
  else if Even ⌊t⌋ then ⌊t⌋ else ⌊t⌋ + 1

/-- Rounding of a real number to the binary floating-point format with a significand of `p`
bits: to nearest, ties to even.  The unit in the last place of `x` is
`2 ^ (floor (log2 |x|) - (p - 1))`.  The exponent range is not bounded (no overflow to an
infinity, no subnormal numbers). -/
def roundTo (p : Nat) (x : ℝ) : ℝ :=
  if x = 0 then 0
  else
    let u : ℝ := (2 : ℝ) ^ (Int.log 2 |x| - ((p : Int) - 1))
    (roundHalfEven (x / u) : ℝ) * u

namespace FVal

/-- Rounding of a value to a significand of `p` bits; infinities and NaN stay. -/
def round (p : Nat) : FVal → FVal
  | fin r => fin (roundTo p r)
  | v => v

/-- Conversion to `float` (binary32: a significand of 24 bits), as done by a cast, by a store
into a `float` variable and by an operation on two `float` operands. -/
def toFloat (v : FVal) : FVal := round 24 v

/-- Conversion to `double` (binary64: a significand of 53 bits), as done by an operation with
a `double` operand and by the library functions. -/
def toDouble (v : FVal) : FVal := round 53 v

end FVal

/-! ## Joint.h and ScaraArm.h with rounding

The same methods with the result of every operation rounded to the type it has in the source:
`float` is binary32 and `double` is binary64 (a literal such as `2.0` or `0.5` and the result of
`sqrt`, `acos` and `atan2` are `double`).  The library functions are taken to return the
correctly rounded value. -/

namespace Rounded

/-- The fti macro of `Joint.h` on a `float` argument: `(x) + 0.5` and `(x) - 0.5` are
operations on `double`. -/
def fti (x : FVal) : Option Int :=
  if FVal.ge x (FVal.fin 0) then FVal.toInt (FVal.toDouble (FVal.add x (FVal.fin (1/2))))
  else FVal.toInt (FVal.toDouble (FVal.sub x (FVal.fin (1/2))))

/-- The pulse width computed by `Joint::setPosition`:
`_center + fti(_widthPerRadian * angle)`, the product being a `float`. -/
def Joint.pulseWidth (j : Joint) (angle : FVal) : Option Int :=
  (fti (FVal.toFloat (FVal.mul j._widthPerRadian angle))).map (fun r => j._center + r)

/-- Method `Joint::setPosition`. -/
def Joint.setPosition (j : Joint) (angle : FVal) : Joint × Event :=
  ({ j with _angle := angle }, Event.writeMicroseconds j._servo (Joint.pulseWidth j angle))

/-- Constant `STRAIGHT_ANGLE = PI`, a `float` initialised from the `double` literal `PI`. -/
def STRAIGHT_ANGLE : FVal := FVal.toFloat (FVal.toDouble FVal.pi)

/-- Constant `FULL_ROTATION = 2.0 * PI`, a `float`. -/
def FULL_ROTATION : FVal :=
  FVal.toFloat (FVal.toDouble (FVal.mul (FVal.fin 2) (FVal.toDouble FVal.pi)))

/-- Method `ScaraArm::setShoulder`. -/
def setShoulder (arm : ScaraArm) (shoulderAngleRads : FVal) : ScaraArm :=
  let r := Joint.setPosition arm._shoulder shoulderAngleRads
  { arm with _shoulder := r.1, log := arm.log ++ [r.2] }

/-- Method `ScaraArm::setElbow`: the joint receives the `float` `elbowAngle - STRAIGHT_ANGLE`. -/
def setElbow (arm : ScaraArm) (elbowAngle : FVal) : ScaraArm :=
  let r := Joint.setPosition arm._elbow (FVal.toFloat (FVal.sub elbowAngle STRAIGHT_ANGLE))
  { arm with _elbow := r.1, log := arm.log ++ [r.2] }

/-- The local `s_w_sqrt` of `setPosition(int,int)` (line 116): `float s_w_sqrt = sqrt( s_w )`. -/
def s_w_sqrt (arm : ScaraArm) (x y : Int) : FVal :=
  FVal.toFloat (FVal.toDouble (FVal.sqrt (FVal.toDouble (FVal.ofInt (arm.s_w x y)))))

/-- The local `a1` of `setPosition(int,int)` (line 119): `float a1 = atan2( y, x )`. -/
def a1 (arm : ScaraArm) (x y : Int) : FVal :=
  FVal.toFloat (FVal.toDouble
    (FVal.atan2 (roundTo 53 ((y + arm._yOffset : Int) : ℝ))
      (roundTo 53 ((x + arm._xOffset : Int) : ℝ))))

/-- The local `q` of `setPosition(int,int)` (line 122):
`float q = (float)(_humerusSq - _ulnaSq + s_w) / (2.0 * _humerus * s_w_sqrt)`. -/
def q (arm : ScaraArm) (x y : Int) : FVal :=
  FVal.toFloat (FVal.toDouble
    (FVal.div (FVal.toFloat (FVal.ofInt (arm._humerusSq - arm._ulnaSq + arm.s_w x y)))
      (FVal.toDouble (FVal.mul
        (FVal.toDouble (FVal.mul (FVal.fin 2) (FVal.toDouble (FVal.ofInt arm._humerus))))
        (s_w_sqrt arm x y)))))

/-- The reachability check of `setPosition(int,int)` (line 125): `q > 1 || q < -1`. -/
def outOfRange (arm : ScaraArm) (x y : Int) : Prop :=
  FVal.gt (q arm x y) (FVal.fin 1) ∨ FVal.lt (q arm x y) (FVal.fin (-1))

/-- The argument of the second `acos` of `setPosition(int,int)` (line 140), a `double`:
`(float)(_humerusSq + _ulnaSq - s_w) / ( 2.0 * _humerus * _ulna )`. -/
def elbowCos (arm : ScaraArm) (x y : Int) : FVal :=
  FVal.toDouble
    (FVal.div (FVal.toFloat (FVal.ofInt (arm._humerusSq + arm._ulnaSq - arm.s_w x y)))
      (FVal.toDouble (FVal.mul
        (FVal.toDouble (FVal.mul (FVal.fin 2) (FVal.toDouble (FVal.ofInt arm._humerus))))
        (FVal.toDouble (FVal.ofInt arm._ulna)))))

/-- Method `ScaraArm::setPosition(int x, int y)`. -/
def setPosition (arm : ScaraArm) (x y : Int) : ScaraArm :=
  -- Save the Cartesian space coordinates.
  let arm := { arm with _x := x, _y := y, log := arm.log ++ [Event.setPosition x y] }
  if outOfRange arm x y then
    arm
  else
    let a2 := FVal.toFloat (FVal.toDouble (FVal.acos (q arm x y)))
    let shoulderRads := FVal.toFloat (FVal.sub (a1 arm x y) a2)
    let arm := setShoulder arm shoulderRads
    let elb_angle_r := FVal.toFloat (FVal.toDouble (FVal.acos (elbowCos arm x y)))
    let elb_angle_r := FVal.toFloat (FVal.sub FULL_ROTATION elb_angle_r)
    setElbow arm elb_angle_r

end Rounded

/-- An arm with two bones of length 2000, no offset, resting at (50, 50). -/
def armLongBones : ScaraArm := ScaraArm.mk0 armEqualBones 2000 2000 0 0 10

/-- An arm with bones of lengths 4097 and 4099, no offset, resting at (50, 50). -/
def armUnequalBones : ScaraArm := ScaraArm.mk0 armEqualBones 4097 4099 0 0 10

/-! # Theorems -/

/-! ## Loops -/

theorem loopFuel_succ {σ : Type} (cond : σ → Prop) (body : σ → Option σ) (n : Nat) :
    ∀ (s r : σ), loopFuel cond body n s = some r → loopFuel cond body (n + 1) s = some r := by
  induction n with
  | zero =>
    intro s r h
    simp only [loopFuel] at h ⊢
    split_ifs at h with hc
    rw [if_neg hc]
    exact h
  | succ n ih =>
    intro s r h
    rw [loopFuel] at h ⊢
    split_ifs at h with hc
    · rw [if_pos hc]
      simp only [Option.bind_eq_some] at h ⊢
      obtain ⟨s1, h1, h2⟩ := h
      exact ⟨s1, h1, ih s1 r h2⟩
    · rw [if_neg hc]
      exact h

theorem loopFuel_mono {σ : Type} (cond : σ → Prop) (body : σ → Option σ) (n m : Nat)
    (hnm : n ≤ m) (s r : σ) (h : loopFuel cond body n s = some r) :
    loopFuel cond body m s = some r := by
  induction hnm with
  | refl => exact h
  | step _ ih => exact loopFuel_succ cond body _ s r ih

/-- Enough fuel gives the result of the loop. -/
theorem whileLoop_of_fuel {σ : Type} (cond : σ → Prop) (body : σ → Option σ) (n : Nat)
    (s r : σ) (h : loopFuel cond body n s = some r) : whileLoop cond body s = some r := by
  have hex : ∃ n, (loopFuel cond body n s).isSome := ⟨n, by rw [h]; rfl⟩
  unfold whileLoop
  rw [dif_pos hex]
  obtain ⟨r1, h1⟩ := Option.isSome_iff_exists.1 (Nat.find_spec hex)
  have h2 := loopFuel_mono cond body _ n (Nat.find_min' hex (by rw [h]; rfl)) s r1 h1
  rw [h1]
  rw [h] at h2
  exact h2.symm

theorem whileLoop_none {σ : Type} (cond : σ → Prop) (body : σ → Option σ) (s : σ)
    (h : ∀ n, loopFuel cond body n s = none) : whileLoop cond body s = none := by
  unfold whileLoop
  rw [dif_neg]
  rintro ⟨n, hn⟩
  rw [h n] at hn
  cases hn

theorem whileLoop_fuel {σ : Type} (cond : σ → Prop) (body : σ → Option σ) (s r : σ)
    (h : whileLoop cond body s = some r) : ∃ n, loopFuel cond body n s = some r := by
  unfold whileLoop at h
  split_ifs at h with hex
  exact ⟨_, h⟩

/-- The loop unfolds as `while` does: test, one iteration, and the loop again. -/
theorem whileLoop_unfold {σ : Type} (cond : σ → Prop) (body : σ → Option σ) (s : σ) :
    whileLoop cond body s =
      if cond s then (body s).bind (whileLoop cond body) else some s := by
  by_cases hc : cond s
  · rw [if_pos hc]
    cases hb : body s with
    | none =>
      apply whileLoop_none
      intro n
      cases n with
      | zero => simp only [loopFuel, if_pos hc]
      | succ n => simp only [loopFuel, if_pos hc, hb, Option.none_bind]
    | some s1 =>
      rw [Option.some_bind]
      cases h1 : whileLoop cond body s1 with
      | none =>
        apply whileLoop_none
        intro n
        cases n with
        | zero => simp only [loopFuel, if_pos hc]
        | succ n =>
          simp only [loopFuel, if_pos hc, hb, Option.some_bind]
          cases h2 : loopFuel cond body n s1 with
          | none => rfl
          | some r =>
            rw [whileLoop_of_fuel cond body n s1 r h2] at h1
            cases h1
      | some r =>
        obtain ⟨n, hn⟩ := whileLoop_fuel cond body s1 r h1
        apply whileLoop_of_fuel cond body (n + 1)
        simp only [loopFuel, if_pos hc, hb, Option.some_bind, hn]
  · rw [if_neg hc]
    apply whileLoop_of_fuel cond body 0
    simp only [loopFuel, if_neg hc]

/-! ## Arithmetic of finite values -/

theorem FVal.sub_fin (a b : ℝ) : FVal.sub (FVal.fin a) (FVal.fin b) = FVal.fin (a - b) := by
  simp only [FVal.sub, FVal.neg, FVal.add, sub_eq_add_neg]

theorem FVal.acos_fin (a : ℝ) (h1 : -1 ≤ a) (h2 : a ≤ 1) :
    FVal.acos (FVal.fin a) = FVal.fin (Real.arccos a) := by
  simp only [FVal.acos, if_pos (And.intro h1 h2)]

/-! ## Kinematics: the reachability check -/

theorem ScaraArm.outOfRange_saved (arm : ScaraArm) (x y x0 y0 : Int) (l : List Event) :
    ({ arm with _x := x0, _y := y0, log := l } : ScaraArm).outOfRange x y ↔ arm.outOfRange x y :=
  Iff.rfl

theorem ScaraArm.setPosition_of_outOfRange (arm : ScaraArm) (x y : Int)
    (h : arm.outOfRange x y) :
    arm.setPosition x y =
      { arm with _x := x, _y := y, log := arm.log ++ [Event.setPosition x y] } := by
  unfold ScaraArm.setPosition
  simp only []
  rw [if_pos ((ScaraArm.outOfRange_saved arm x y x y _).2 h)]

theorem armEqualBones_far : armEqualBones.outOfRange 150 0 := by
  left
  have h : Real.sqrt 22500 = 150 := by
    rw [show (22500 : ℝ) = 150 ^ 2 by norm_num]
    exact Real.sqrt_sq (by norm_num)
  simp [ScaraArm.q, ScaraArm.s_w, ScaraArm.s_w_sqrt, armEqualBones, ScaraArm.mk0, FVal.ofInt,
    FVal.sqrt, FVal.mul, FVal.div, FVal.gt, FVal.lt, h]
  norm_num

/-- C1, as stated, fails: the arm with bones 50/50 resting at (50, 50) rejects the target
(150, 0), yet the stored position read back by getX is then 150 and no longer 50. -/
theorem setPosition_rejected_overwrites_position :
    armEqualBones.outOfRange 150 0 ∧
      (armEqualBones.setPosition 150 0).getX = FVal.fin 150 ∧
      armEqualBones.getX = FVal.fin 50 ∧
      (armEqualBones.setPosition 150 0).getX ≠ armEqualBones.getX := by
  have h := armEqualBones_far
  rw [ScaraArm.setPosition_of_outOfRange _ _ _ h]
  refine ⟨h, ?_, ?_, ?_⟩ <;> simp [ScaraArm.getX, FVal.ofInt, armEqualBones, ScaraArm.mk0]

/-- C1 (amended): when the reachability check of setPosition(int,int) fails, both joint
angles (and both joints altogether) are exactly as before and nothing is written to a servo;
the stored position read by getX/getY is the requested target. -/
theorem setPosition_rejected_keeps_joints (arm : ScaraArm) (x y : Int)
    (h : arm.outOfRange x y) :
    (arm.setPosition x y)._shoulder.getPosition = arm._shoulder.getPosition ∧
      (arm.setPosition x y)._elbow.getPosition = arm._elbow.getPosition ∧
      (arm.setPosition x y)._shoulder = arm._shoulder ∧
      (arm.setPosition x y)._elbow = arm._elbow ∧
      (arm.setPosition x y).log = arm.log ++ [Event.setPosition x y] ∧
      (arm.setPosition x y).getX = FVal.ofInt x ∧
      (arm.setPosition x y).getY = FVal.ofInt y := by
  rw [ScaraArm.setPosition_of_outOfRange _ _ _ h]
  exact ⟨rfl, rfl, rfl, rfl, rfl, rfl, rfl⟩

/-- An instance: the arm with bones 50/50 and the rejected target (150, 0). -/
theorem setPosition_rejected_keeps_joints_witness :
    armEqualBones.outOfRange 150 0 ∧
      (armEqualBones.setPosition 150 0)._shoulder.getPosition
        = armEqualBones._shoulder.getPosition :=
  ⟨armEqualBones_far,
    (setPosition_rejected_keeps_joints armEqualBones 150 0 armEqualBones_far).1⟩

/-! ### The check on a finite quotient -/

theorem ScaraArm.s_w_nonneg (arm : ScaraArm) (x y : Int) : 0 ≤ arm.s_w x y := by
  exact add_nonneg (mul_self_nonneg _) (mul_self_nonneg _)

/-- With a positive humerus and a target away from the shoulder, `q` is the finite quotient
`(h² - u² + d²) / (2 h d)`. -/
theorem ScaraArm.q_finite (arm : ScaraArm) (x y : Int) (hh : 0 < arm._humerus)
    (hd : arm.s_w x y ≠ 0) :
    arm.q x y = FVal.fin (((arm._humerusSq - arm._ulnaSq + arm.s_w x y : Int) : ℝ) /
      (2 * (arm._humerus : ℝ) * Real.sqrt ((arm.s_w x y : Int) : ℝ))) := by
  have hs : (0 : ℝ) < ((arm.s_w x y : Int) : ℝ) := by
    have := arm.s_w_nonneg x y
    exact_mod_cast lt_of_le_of_ne this (Ne.symm hd)
  have hsq : 0 < Real.sqrt ((arm.s_w x y : Int) : ℝ) := Real.sqrt_pos.2 hs
  have hh' : (0 : ℝ) < (arm._humerus : ℝ) := by exact_mod_cast hh
  have hden : 2 * (arm._humerus : ℝ) * Real.sqrt ((arm.s_w x y : Int) : ℝ) ≠ 0 :=
    (mul_pos (mul_pos two_pos hh') hsq).ne'
  simp only [ScaraArm.q, ScaraArm.s_w_sqrt, FVal.ofInt, FVal.sqrt, if_neg (not_lt.2 hs.le),
    FVal.mul, FVal.div, if_neg hden]

/-- The test `q > 1 || q < -1` on real numbers, as an annulus test: for `h, u, d > 0`,
`(h² - u² + d²)/(2 h d)` is outside `[-1, 1]` exactly when `d > h + u` or `d < |h - u|`. -/
theorem annulus_test (h u d : ℝ) (hh : 0 < h) (hu : 0 < u) (hd : 0 < d) :
    (1 < (h * h - u * u + d * d) / (2 * h * d) ∨ (h * h - u * u + d * d) / (2 * h * d) < -1) ↔
      (d > h + u ∨ d < |h - u|) := by
  have hden : 0 < 2 * h * d := by positivity
  rw [lt_div_iff₀ hden, div_lt_iff₀ hden, lt_abs]
  constructor
  · rintro (h1 | h1)
    · by_cases hc : d > h + u
      · exact Or.inl hc
      · right; left
        nlinarith
    · right; right
      nlinarith
  · rintro (h1 | h1 | h1)
    · left; nlinarith
    · left; nlinarith
    · right; nlinarith

/-- The check of `setPosition(int,int)` as an annulus test on the distance `√s_w`. -/
theorem ScaraArm.outOfRange_iff (arm : ScaraArm) (x y : Int)
    (hc : arm.Constructed) (hh : 0 < arm._humerus) (hu : 0 < arm._ulna)
    (hd : arm.s_w x y ≠ 0) :
    arm.outOfRange x y ↔
      (Real.sqrt ((arm.s_w x y : Int) : ℝ) > arm._humerus + arm._ulna ∨
       Real.sqrt ((arm.s_w x y : Int) : ℝ) < |(arm._humerus : ℝ) - arm._ulna|) := by
  have hs : (0 : ℝ) ≤ ((arm.s_w x y : Int) : ℝ) := by exact_mod_cast arm.s_w_nonneg x y
  have hdpos : 0 < Real.sqrt ((arm.s_w x y : Int) : ℝ) := by
    apply Real.sqrt_pos.2
    exact lt_of_le_of_ne hs (by exact_mod_cast Ne.symm hd)
  unfold ScaraArm.outOfRange
  rw [ScaraArm.q_finite arm x y hh hd]
  simp only [FVal.gt, FVal.lt]
  rw [← annulus_test _ _ _ (by exact_mod_cast hh) (by exact_mod_cast hu) hdpos]
  rw [Real.mul_self_sqrt hs, hc.1, hc.2]
  push_cast
  rfl

/-- The accepted branch of `setPosition(int,int)`: both joints are set. -/
theorem ScaraArm.setPosition_of_inRange (arm : ScaraArm) (x y : Int)
    (h : ¬ arm.outOfRange x y) :
    (arm.setPosition x y)._shoulder.getPosition = FVal.sub (arm.a1 x y) (FVal.acos (arm.q x y)) ∧
    (arm.setPosition x y)._elbow.getPosition =
      FVal.sub (FVal.sub ScaraArm.FULL_ROTATION (FVal.acos (arm.elbowCos x y)))
        ScaraArm.STRAIGHT_ANGLE ∧
    (arm.setPosition x y).log = arm.log ++
      [Event.setPosition x y,
       Event.writeMicroseconds arm._shoulder._servo
         (arm._shoulder.pulseWidth (FVal.sub (arm.a1 x y) (FVal.acos (arm.q x y)))),
       Event.writeMicroseconds arm._elbow._servo
         (arm._elbow.pulseWidth (FVal.sub
           (FVal.sub ScaraArm.FULL_ROTATION (FVal.acos (arm.elbowCos x y)))
           ScaraArm.STRAIGHT_ANGLE))] ∧
    (arm.setPosition x y)._x = x ∧ (arm.setPosition x y)._y = y := by
  unfold ScaraArm.setPosition
  simp only []
  rw [if_neg (fun h' => h ((ScaraArm.outOfRange_saved arm x y x y _).1 h'))]
  refine ⟨rfl, rfl, ?_, rfl, rfl⟩
  simp [ScaraArm.setElbow, ScaraArm.setShoulder, Joint.setPosition]
  exact ⟨rfl, rfl⟩

/-- C3: for a constructed arm with humerus h > 0 and ulna u > 0 and a target whose
post-offset distance d is not zero, the check of setPosition(int,int) rejects the target
exactly when d > h + u or d < |h - u|; and the call writes no joint (its log gains only
its own entry) exactly in that case. -/
theorem setPosition_rejects_iff_outside_annulus (arm : ScaraArm) (x y : Int)
    (hc : arm.Constructed) (hh : 0 < arm._humerus) (hu : 0 < arm._ulna)
    (hd : Real.sqrt (((x + arm._xOffset) * (x + arm._xOffset)
      + (y + arm._yOffset) * (y + arm._yOffset) : Int) : ℝ) ≠ 0) :
    (arm.outOfRange x y ↔
      (Real.sqrt (((x + arm._xOffset) * (x + arm._xOffset)
          + (y + arm._yOffset) * (y + arm._yOffset) : Int) : ℝ) > arm._humerus + arm._ulna ∨
       Real.sqrt (((x + arm._xOffset) * (x + arm._xOffset)
          + (y + arm._yOffset) * (y + arm._yOffset) : Int) : ℝ)
            < |(arm._humerus : ℝ) - arm._ulna|)) ∧
    ((arm.setPosition x y).log = arm.log ++ [Event.setPosition x y] ↔ arm.outOfRange x y) := by
  have hsw : arm.s_w x y = (x + arm._xOffset) * (x + arm._xOffset)
      + (y + arm._yOffset) * (y + arm._yOffset) := rfl
  rw [← hsw] at hd ⊢
  have hs0 : arm.s_w x y ≠ 0 := by
    intro h0
    apply hd
    rw [h0]
    simp
  refine ⟨ScaraArm.outOfRange_iff arm x y hc hh hu hs0, ?_, ?_⟩
  · intro hlog
    by_contra hn
    rw [(ScaraArm.setPosition_of_inRange arm x y hn).2.2.1] at hlog
    have := congrArg List.length hlog
    simp at this
  · intro h
    rw [ScaraArm.setPosition_of_outOfRange _ _ _ h]

theorem armEqualBones_far_dist :
    Real.sqrt (((150 + armEqualBones._xOffset) * (150 + armEqualBones._xOffset)
      + (0 + armEqualBones._yOffset) * (0 + armEqualBones._yOffset) : Int) : ℝ) = 150 := by
  have h : Real.sqrt 22500 = 150 := by
    rw [show (22500 : ℝ) = 150 ^ 2 by norm_num]
    exact Real.sqrt_sq (by norm_num)
  simp [armEqualBones, ScaraArm.mk0, h]

/-- An instance: the arm with bones 50/50 and the target (150, 0), at distance 150. -/
theorem setPosition_rejects_iff_outside_annulus_witness :
    armEqualBones.outOfRange 150 0 ↔
      (Real.sqrt (((150 + armEqualBones._xOffset) * (150 + armEqualBones._xOffset)
          + (0 + armEqualBones._yOffset) * (0 + armEqualBones._yOffset) : Int) : ℝ)
            > armEqualBones._humerus + armEqualBones._ulna ∨
       Real.sqrt (((150 + armEqualBones._xOffset) * (150 + armEqualBones._xOffset)
          + (0 + armEqualBones._yOffset) * (0 + armEqualBones._yOffset) : Int) : ℝ)
            < |(armEqualBones._humerus : ℝ) - armEqualBones._ulna|) :=
  (setPosition_rejects_iff_outside_annulus armEqualBones 150 0 ⟨rfl, rfl⟩
    (by decide) (by decide) (by rw [armEqualBones_far_dist]; norm_num)).1

/-! ### The target at the shoulder (d = 0) -/

/-- With the target at the shoulder, `q` is a quotient by zero: NaN when the two squares are
equal, an infinity otherwise. -/
theorem ScaraArm.q_origin (arm : ScaraArm) (x y : Int) (hd : arm.s_w x y = 0) :
    arm.q x y = if arm._humerusSq = arm._ulnaSq then FVal.nan
      else FVal.inf (decide (arm._humerusSq < arm._ulnaSq)) := by
  simp only [ScaraArm.q, ScaraArm.s_w_sqrt, FVal.ofInt, hd, Int.cast_zero, FVal.sqrt,
    lt_irrefl, if_false, Real.sqrt_zero, FVal.mul, mul_zero, FVal.div, if_true, add_zero]
  by_cases h : arm._humerusSq = arm._ulnaSq
  · simp [h]
  · have h' : ((arm._humerusSq - arm._ulnaSq : Int) : ℝ) ≠ 0 := by
      exact_mod_cast sub_ne_zero.2 h
    rw [if_neg h', if_neg h]
    congr 1
    have : ((arm._humerusSq - arm._ulnaSq : Int) : ℝ) < 0 ↔ arm._humerusSq < arm._ulnaSq := by
      rw [Int.cast_lt_zero, sub_neg]
    simp only [this]

/-- With the target at the shoulder, the check rejects exactly when the two bones differ. -/
theorem ScaraArm.outOfRange_origin (arm : ScaraArm) (x y : Int) (hd : arm.s_w x y = 0) :
    arm.outOfRange x y ↔ arm._humerusSq ≠ arm._ulnaSq := by
  unfold ScaraArm.outOfRange
  rw [ScaraArm.q_origin arm x y hd]
  by_cases h : arm._humerusSq = arm._ulnaSq
  · simp [h, FVal.gt, FVal.lt]
  · simp only [if_neg h, FVal.gt, FVal.lt, ne_eq, h, not_false_eq_true, iff_true]
    by_cases h2 : arm._humerusSq < arm._ulnaSq <;> simp [h2]

/-- C5, the failing input: bones 50/50, no offset, target (0, 0).  The distance is 0, `q`
is `0/0`, a NaN; the check does not reject, and the shoulder joint receives NaN (its pulse
width is then not defined) while the elbow joint receives PI. -/
theorem setPosition_equal_bones_origin_not_rejected :
    armEqualBones.s_w 0 0 = 0 ∧
      armEqualBones.q 0 0 = FVal.nan ∧
      ¬ armEqualBones.outOfRange 0 0 ∧
      (armEqualBones.setPosition 0 0)._shoulder.getPosition = FVal.nan ∧
      (armEqualBones.setPosition 0 0)._elbow.getPosition = FVal.fin Real.pi ∧
      (armEqualBones.setPosition 0 0).log =
        [Event.setPosition 0 0, Event.writeMicroseconds 0 none,
          Event.writeMicroseconds 1 (some 3385)] := by
  have hd : armEqualBones.s_w 0 0 = 0 := by decide
  have hq : armEqualBones.q 0 0 = FVal.nan := by
    rw [ScaraArm.q_origin _ _ _ hd]
    rfl
  have hno : ¬ armEqualBones.outOfRange 0 0 := by
    rw [ScaraArm.outOfRange_origin _ _ _ hd]
    decide
  refine ⟨hd, hq, hno, ?_⟩
  unfold ScaraArm.setPosition
  simp only []
  rw [if_neg (fun h' => hno ((ScaraArm.outOfRange_saved _ _ _ _ _ _).1 h'))]
  have hq' : ∀ (x0 y0 : Int) (l : List Event),
      ({ armEqualBones with _x := x0, _y := y0, log := l } : ScaraArm).q 0 0 = FVal.nan :=
    fun _ _ _ => hq
  rw [hq']
  have hcos : ∀ a : ScaraArm, a._humerusSq = 2500 → a._ulnaSq = 2500 → a._humerus = 50 →
      a._ulna = 50 → a._xOffset = 0 → a._yOffset = 0 → a.elbowCos 0 0 = FVal.fin 1 := by
    intro a h1 h2 h3 h4 h5 h6
    simp only [ScaraArm.elbowCos, ScaraArm.s_w, h1, h2, h3, h4, h5, h6, FVal.ofInt, FVal.mul,
      FVal.div]
    norm_num
  rw [hcos _ rfl rfl rfl rfl rfl rfl]
  have hfl : ⌊(600 : ℝ) * Real.pi + 2⁻¹⌋ = 1885 := by
    rw [Int.floor_eq_iff]
    have h1 := Real.pi_gt_d6
    have h2 := Real.pi_lt_d6
    constructor <;> norm_num <;> linarith
  have hpos : (0 : ℝ) ≤ Real.pi := Real.pi_pos.le
  have hpos2 : (0 : ℝ) ≤ 600 * Real.pi + 2⁻¹ := by positivity
  have he : (2 : ℝ) * Real.pi + -Real.pi = Real.pi := by ring
  simp [ScaraArm.setElbow, ScaraArm.setShoulder, Joint.setPosition, Joint.getPosition,
    Joint.pulseWidth, fti, FVal.acos, FVal.sub, FVal.add, FVal.neg, FVal.mul, FVal.ge,
    FVal.toInt, ScaraArm.FULL_ROTATION, ScaraArm.STRAIGHT_ANGLE, FVal.pi, armEqualBones,
    ScaraArm.mk0, ScaraArm.a1, FVal.atan2, he, hpos, hpos2, hfl]

/-! ## Kinematics: round trip -/

/-- Two-link inverse kinematics, right-arm branch, over the reals: inside the annulus both
`acos` arguments are in `[-1, 1]`, and forward kinematics of the two angles gives the target
back. -/
theorem two_link_roundtrip (h u X Y d : ℝ) (hh : 0 < h) (hu : 0 < u)
    (hdef : d = Real.sqrt (X * X + Y * Y)) (hd : 0 < d)
    (h1 : |h - u| ≤ d) (h2 : d ≤ h + u) :
    -1 ≤ (h * h - u * u + d * d) / (2 * h * d) ∧ (h * h - u * u + d * d) / (2 * h * d) ≤ 1 ∧
    -1 ≤ (h * h + u * u - d * d) / (2 * h * u) ∧ (h * h + u * u - d * d) / (2 * h * u) ≤ 1 ∧
    h * Real.cos (Complex.arg ⟨X, Y⟩ - Real.arccos ((h * h - u * u + d * d) / (2 * h * d)))
      + u * Real.cos ((Complex.arg ⟨X, Y⟩ - Real.arccos ((h * h - u * u + d * d) / (2 * h * d)))
          + (2 * Real.pi - Real.arccos ((h * h + u * u - d * d) / (2 * h * u)) - Real.pi)) = X ∧
    h * Real.sin (Complex.arg ⟨X, Y⟩ - Real.arccos ((h * h - u * u + d * d) / (2 * h * d)))
      + u * Real.sin ((Complex.arg ⟨X, Y⟩ - Real.arccos ((h * h - u * u + d * d) / (2 * h * d)))
          + (2 * Real.pi - Real.arccos ((h * h + u * u - d * d) / (2 * h * u)) - Real.pi)) = Y := by
  obtain ⟨h1a, h1b⟩ := abs_le.1 h1
  have hden1 : 0 < 2 * h * d := by positivity
  have hden2 : 0 < 2 * h * u := by positivity
  have q1 : -1 ≤ (h * h - u * u + d * d) / (2 * h * d) := by
    rw [le_div_iff₀ hden1]; nlinarith
  have q2 : (h * h - u * u + d * d) / (2 * h * d) ≤ 1 := by
    rw [div_le_iff₀ hden1]; nlinarith
  have r1 : -1 ≤ (h * h + u * u - d * d) / (2 * h * u) := by
    rw [le_div_iff₀ hden2]; nlinarith
  have r2 : (h * h + u * u - d * d) / (2 * h * u) ≤ 1 := by
    rw [div_le_iff₀ hden2]; nlinarith
  refine ⟨q1, q2, r1, r2, ?_⟩
  set cb := (h * h - u * u + d * d) / (2 * h * d) with hcb
  set cg := (h * h + u * u - d * d) / (2 * h * u) with hcg
  -- the angle of the target
  have hz : (⟨X, Y⟩ : ℂ) ≠ 0 := by
    intro hz0
    have hX : X = 0 := congrArg Complex.re hz0
    have hY : Y = 0 := congrArg Complex.im hz0
    rw [hdef, hX, hY] at hd
    simp at hd
  have habs : Complex.abs ⟨X, Y⟩ = d := by
    rw [Complex.abs_apply, Complex.normSq_mk, hdef]
  have hA : Real.cos (Complex.arg ⟨X, Y⟩) * d = X := by
    rw [Complex.cos_arg hz, habs]
    field_simp
  have hB : Real.sin (Complex.arg ⟨X, Y⟩) * d = Y := by
    rw [Complex.sin_arg, habs]
    field_simp
  -- sines of the two triangle angles
  have hsb0 : 0 ≤ Real.sqrt (1 - cb ^ 2) := Real.sqrt_nonneg _
  have hsg0 : 0 ≤ Real.sqrt (1 - cg ^ 2) := Real.sqrt_nonneg _
  have hsb2 : Real.sqrt (1 - cb ^ 2) ^ 2 = 1 - cb ^ 2 :=
    Real.sq_sqrt (by nlinarith)
  have hsg2 : Real.sqrt (1 - cg ^ 2) ^ 2 = 1 - cg ^ 2 :=
    Real.sq_sqrt (by nlinarith)
  -- F1: h - u cos γ = d cos β
  have F1 : h - u * cg = d * cb := by
    rw [hcb, hcg]
    field_simp
    ring
  -- F2: law of sines, u sin γ = d sin β
  have F2 : u * Real.sqrt (1 - cg ^ 2) = d * Real.sqrt (1 - cb ^ 2) := by
    rw [← sq_eq_sq₀ (by positivity) (by positivity), mul_pow, mul_pow, hsb2, hsg2, hcb, hcg]
    field_simp
    ring
  have F3 : cb ^ 2 + Real.sqrt (1 - cb ^ 2) ^ 2 = 1 := by rw [hsb2]; ring
  have e1 : ∀ a b c : ℝ, a - b + (2 * Real.pi - c - Real.pi) = (a - b - c) + Real.pi := by
    intro a b c; ring
  rw [e1, Real.cos_add_pi, Real.sin_add_pi, Real.cos_sub (_ - _), Real.sin_sub (_ - _),
    Real.cos_sub, Real.sin_sub, Real.cos_arccos q1 q2, Real.cos_arccos r1 r2,
    Real.sin_arccos, Real.sin_arccos]
  constructor
  · linear_combination (Real.cos (Complex.arg ⟨X, Y⟩) * cb
        + Real.sin (Complex.arg ⟨X, Y⟩) * Real.sqrt (1 - cb ^ 2)) * F1
      + (Real.cos (Complex.arg ⟨X, Y⟩) * Real.sqrt (1 - cb ^ 2)
        - Real.sin (Complex.arg ⟨X, Y⟩) * cb) * F2
      + Real.cos (Complex.arg ⟨X, Y⟩) * d * F3 + hA
  · linear_combination (Real.sin (Complex.arg ⟨X, Y⟩) * cb
        - Real.cos (Complex.arg ⟨X, Y⟩) * Real.sqrt (1 - cb ^ 2)) * F1
      + (Real.sin (Complex.arg ⟨X, Y⟩) * Real.sqrt (1 - cb ^ 2)
        + Real.cos (Complex.arg ⟨X, Y⟩) * cb) * F2
      + Real.sin (Complex.arg ⟨X, Y⟩) * d * F3 + hB

/-- The round trip with exact arithmetic: for a constructed arm with h, u > 0 and a target
whose post-offset point (X, Y) has distance d with |h - u| <= d <= h + u and d > 0,
setPosition(int,int) leaves in the joints finite angles s (shoulder) and e (elbow, the value
elbowAngle - PI) with s = atan2(Y, X) - acos(q), h cos s + u cos (s + e) = X and
h sin s + u sin (s + e) = Y. -/
theorem setPosition_round_trip (arm : ScaraArm) (x y : Int)
    (hc : arm.Constructed) (hh : 0 < arm._humerus) (hu : 0 < arm._ulna)
    (hd : 0 < Real.sqrt (((x + arm._xOffset) * (x + arm._xOffset)
      + (y + arm._yOffset) * (y + arm._yOffset) : Int) : ℝ))
    (hlo : |(arm._humerus : ℝ) - arm._ulna| ≤ Real.sqrt (((x + arm._xOffset) * (x + arm._xOffset)
      + (y + arm._yOffset) * (y + arm._yOffset) : Int) : ℝ))
    (hhi : Real.sqrt (((x + arm._xOffset) * (x + arm._xOffset)
      + (y + arm._yOffset) * (y + arm._yOffset) : Int) : ℝ) ≤ arm._humerus + arm._ulna) :
    ∃ s e : ℝ,
      (arm.setPosition x y)._shoulder.getPosition = FVal.fin s ∧
      (arm.setPosition x y)._elbow.getPosition = FVal.fin e ∧
      FVal.fin s = FVal.sub (FVal.atan2 ((y + arm._yOffset : Int) : ℝ) ((x + arm._xOffset : Int) : ℝ))
        (FVal.acos (arm.q x y)) ∧
      (arm._humerus : ℝ) * Real.cos s + arm._ulna * Real.cos (s + e)
        = ((x + arm._xOffset : Int) : ℝ) ∧
      (arm._humerus : ℝ) * Real.sin s + arm._ulna * Real.sin (s + e)
        = ((y + arm._yOffset : Int) : ℝ) := by
  have hsw : arm.s_w x y = (x + arm._xOffset) * (x + arm._xOffset)
      + (y + arm._yOffset) * (y + arm._yOffset) := rfl
  rw [← hsw] at hd hlo hhi
  have hs0 : arm.s_w x y ≠ 0 := by
    intro h0
    rw [h0] at hd
    simp at hd
  have hin : ¬ arm.outOfRange x y := by
    rw [ScaraArm.outOfRange_iff arm x y hc hh hu hs0]
    push_neg
    exact ⟨hhi, hlo⟩
  have hs : (0 : ℝ) ≤ ((arm.s_w x y : Int) : ℝ) := by exact_mod_cast arm.s_w_nonneg x y
  have hh' : (0 : ℝ) < (arm._humerus : ℝ) := by exact_mod_cast hh
  have hu' : (0 : ℝ) < (arm._ulna : ℝ) := by exact_mod_cast hu
  have hdef : Real.sqrt ((arm.s_w x y : Int) : ℝ)
      = Real.sqrt (((x + arm._xOffset : Int) : ℝ) * ((x + arm._xOffset : Int) : ℝ)
        + ((y + arm._yOffset : Int) : ℝ) * ((y + arm._yOffset : Int) : ℝ)) := by
    rw [hsw]
    push_cast
    rfl
  obtain ⟨q1, q2, r1, r2, hX, hY⟩ := two_link_roundtrip (arm._humerus : ℝ) (arm._ulna : ℝ)
    ((x + arm._xOffset : Int) : ℝ) ((y + arm._yOffset : Int) : ℝ)
    (Real.sqrt ((arm.s_w x y : Int) : ℝ)) hh' hu' hdef hd hlo hhi
  rw [Real.mul_self_sqrt hs] at q1 q2 r1 r2 hX hY
  -- the two quotients computed by the code
  have hq : arm.q x y = FVal.fin (((arm._humerus : ℝ) * arm._humerus - arm._ulna * arm._ulna
      + ((arm.s_w x y : Int) : ℝ)) / (2 * arm._humerus * Real.sqrt ((arm.s_w x y : Int) : ℝ))) := by
    rw [ScaraArm.q_finite arm x y hh hs0, hc.1, hc.2]
    push_cast
    rfl
  have hr : arm.elbowCos x y = FVal.fin (((arm._humerus : ℝ) * arm._humerus
      + arm._ulna * arm._ulna - ((arm.s_w x y : Int) : ℝ)) / (2 * arm._humerus * arm._ulna)) := by
    have hden : 2 * (arm._humerus : ℝ) * arm._ulna ≠ 0 := (mul_pos (mul_pos two_pos hh') hu').ne'
    simp only [ScaraArm.elbowCos, FVal.ofInt, FVal.mul, FVal.div, if_neg hden, hc.1, hc.2]
    push_cast
    rfl
  obtain ⟨hsh, hel, -⟩ := ScaraArm.setPosition_of_inRange arm x y hin
  refine ⟨_, _, ?_, ?_, ?_, hX, hY⟩
  · rw [hsh, hq, FVal.acos_fin _ q1 q2]
    exact FVal.sub_fin _ _
  · rw [hel, hr, FVal.acos_fin _ r1 r2]
    simp only [ScaraArm.FULL_ROTATION, ScaraArm.STRAIGHT_ANGLE, FVal.pi, FVal.mul, FVal.sub_fin]
  · rw [hq, FVal.acos_fin _ q1 q2]
    exact (FVal.sub_fin _ _).symm

theorem armEqualBones_near_dist :
    Real.sqrt (((50 + armEqualBones._xOffset) * (50 + armEqualBones._xOffset)
      + (0 + armEqualBones._yOffset) * (0 + armEqualBones._yOffset) : Int) : ℝ) = 50 := by
  have h : Real.sqrt 2500 = 50 := by
    rw [show (2500 : ℝ) = 50 ^ 2 by norm_num]
    exact Real.sqrt_sq (by norm_num)
  simp [armEqualBones, ScaraArm.mk0, h]

/-- An instance: the arm with bones 50/50 and the target (50, 0), at distance 50. -/
theorem setPosition_round_trip_witness :
    ∃ s e : ℝ,
      (armEqualBones.setPosition 50 0)._shoulder.getPosition = FVal.fin s ∧
      (armEqualBones.setPosition 50 0)._elbow.getPosition = FVal.fin e ∧
      FVal.fin s = FVal.sub (FVal.atan2 ((0 + armEqualBones._yOffset : Int) : ℝ)
        ((50 + armEqualBones._xOffset : Int) : ℝ)) (FVal.acos (armEqualBones.q 50 0)) ∧
      (armEqualBones._humerus : ℝ) * Real.cos s + armEqualBones._ulna * Real.cos (s + e)
        = ((50 + armEqualBones._xOffset : Int) : ℝ) ∧
      (armEqualBones._humerus : ℝ) * Real.sin s + armEqualBones._ulna * Real.sin (s + e)
        = ((0 + armEqualBones._yOffset : Int) : ℝ) :=
  setPosition_round_trip armEqualBones 50 0 ⟨rfl, rfl⟩ (by decide) (by decide)
    (by rw [armEqualBones_near_dist]; norm_num)
    (by rw [armEqualBones_near_dist]; simp [armEqualBones, ScaraArm.mk0])
    (by rw [armEqualBones_near_dist]; simp [armEqualBones, ScaraArm.mk0])

/-! ## Parser: what a dispatch leaves alone -/

theorem Parser.SameLine.refl {σ : Type} (p : Parser σ) : Parser.SameLine p p :=
  ⟨rfl, rfl, rfl, rfl⟩

theorem Parser.SameLine.trans {σ : Type} {p q r : Parser σ} (h1 : Parser.SameLine p q)
    (h2 : Parser.SameLine q r) : Parser.SameLine p r :=
  ⟨h2.1.trans h1.1, h2.2.1.trans h1.2.1, h2.2.2.1.trans h1.2.2.1, h2.2.2.2.trans h1.2.2.2⟩

theorem Parser.getArgument_congr {σ : Type} (atof : List Int → FVal) {p q : Parser σ}
    (h : Parser.SameLine p q) (code : Int) (val : FVal) :
    Parser.getArgument atof q code val = Parser.getArgument atof p code val := by
  unfold Parser.getArgument
  rw [h.1, h.2.1]

theorem Parser.processG_sameLine {σ : Type} (P : GCodeProcessor σ) (atof : List Int → FVal)
    (p q : Parser σ) (cmd : Int) (h : Parser.processG P atof p cmd = some q) :
    Parser.SameLine p q := by
  unfold Parser.processG at h
  simp only [] at h
  split_ifs at h
  all_goals
    first
    | (simp only [Option.map_eq_some'] at h
       obtain ⟨s, -, rfl⟩ := h
       exact ⟨rfl, rfl, rfl, rfl⟩)
    | (cases h
       exact ⟨rfl, rfl, rfl, rfl⟩)

theorem Parser.printPosition_sameLine {σ : Type} (P : GCodeProcessor σ) (p : Parser σ) :
    Parser.SameLine p (Parser.printPosition P p) :=
  ⟨rfl, rfl, rfl, rfl⟩

theorem Parser.withProcessor_sameLine {σ : Type} (p q : Parser σ) (o : Option σ)
    (h : o.map (fun s => { p with _processor := s }) = some q) : Parser.SameLine p q := by
  simp only [Option.map_eq_some'] at h
  obtain ⟨s, -, rfl⟩ := h
  exact ⟨rfl, rfl, rfl, rfl⟩

theorem Parser.processM_sameLine {σ : Type} (P : GCodeProcessor σ) (atof : List Int → FVal)
    (p q : Parser σ) (cmd : Int) (h : Parser.processM P atof p cmd = some q) :
    Parser.SameLine p q := by
  unfold Parser.processM at h
  by_cases h1 : cmd = 10
  · rw [if_pos h1] at h
    exact Parser.withProcessor_sameLine p q _ h
  rw [if_neg h1] at h
  by_cases h2 : cmd = 11
  · rw [if_pos h2] at h
    exact Parser.withProcessor_sameLine p q _ h
  rw [if_neg h2] at h
  by_cases h3 : cmd = 114
  · rw [if_pos h3] at h
    cases h
    exact Parser.printPosition_sameLine P p
  rw [if_neg h3] at h
  by_cases h4 : cmd = 206
  · rw [if_pos h4] at h
    exact Parser.withProcessor_sameLine p q _ h
  rw [if_neg h4] at h
  cases h
  exact Parser.SameLine.refl p

/-- The function `processCommand` returns `STATUS_OK` whenever it returns, and leaves the buffer, the cursor
and the logs of line assembly as they are. -/
theorem Parser.processCommand_spec {σ : Type} (P : GCodeProcessor σ) (atof : List Int → FVal)
    (p : Parser σ) (r : Parser σ × Int) (h : Parser.processCommand P atof p = some r) :
    r.2 = STATUS_OK ∧ Parser.SameLine p r.1 := by
  unfold Parser.processCommand at h
  simp only [Option.bind_eq_some] at h
  obtain ⟨_, -, p1, h1, cmd, -, p2, h2, _, -, p3, h3, h4⟩ := h
  cases h4
  refine ⟨rfl, ?_⟩
  have s1 := Parser.processG_sameLine P atof p p1 _ h1
  have s3 := Parser.processM_sameLine P atof p2 p3 _ h3
  have s2 : Parser.SameLine p1 p2 := by
    split_ifs at h2
    · simp only [Option.map_eq_some'] at h2
      obtain ⟨s, -, rfl⟩ := h2
      exact ⟨rfl, rfl, rfl, rfl⟩
    · cases h2
      exact ⟨rfl, rfl, rfl, rfl⟩
  exact (s1.trans s2).trans s3

theorem Parser.reportMessage_sameLine {σ : Type} (p : Parser σ) (status_code : Int) :
    Parser.SameLine p (p.reportMessage status_code) := by
  unfold Parser.reportMessage
  simp only []
  split_ifs
  · exact ⟨rfl, rfl, rfl, rfl⟩
  · exact ⟨rfl, rfl, rfl, rfl⟩
  · split <;> exact ⟨rfl, rfl, rfl, rfl⟩

theorem Parser.reset_sameLine_but_iter {σ : Type} (p : Parser σ) :
    p.reset.buffer = p.buffer ∧ p.reset.iter = 0 ∧ p.reset.stores = p.stores ∧
      p.reset.dispatched = p.dispatched ∧ p.reset.serial = p.serial ++ [SerialEvent.text "> "] :=
  ⟨rfl, rfl, rfl, rfl, rfl⟩

/-- The end-of-line branch of `listenStep`, spelled out. -/
theorem Parser.listenStep_eol {σ : Type} (P : GCodeProcessor σ) (atof : List Int → FVal)
    (b : Bool) (p : Parser σ) (c : Int) (hc : c = 10 ∨ c = 13) (r : Bool × Parser σ)
    (h : Parser.listenStep P atof b p c = some r) :
    r.1 = b ∧
    ((0 < p.iter ∧ ∃ p1, Parser.processCommand P atof p.terminate = some (p1, STATUS_OK) ∧
        r.2 = (p1.reportMessage STATUS_OK).reset) ∨
     (p.iter = 0 ∧ r.2 = (p.reportMessage STATUS_OK).reset)) := by
  unfold Parser.listenStep at h
  rw [if_pos hc] at h
  simp only [Option.map_eq_some'] at h
  obtain ⟨q, hq, rfl⟩ := h
  refine ⟨rfl, ?_⟩
  by_cases hi : p.iter > 0
  · rw [if_pos hi] at hq
    simp only [Option.map_eq_some'] at hq
    obtain ⟨⟨p1, st⟩, h1, rfl⟩ := hq
    have hst := (Parser.processCommand_spec P atof _ _ h1).1
    simp only at hst
    subst hst
    exact Or.inl ⟨hi, p1, h1, rfl⟩
  · rw [if_neg hi] at hq
    cases hq
    exact Or.inr ⟨by omega, rfl⟩

/-- The other branches of `listenStep`, spelled out: they always return. -/
theorem Parser.listenStep_char {σ : Type} (P : GCodeProcessor σ) (atof : List Int → FVal)
    (b : Bool) (p : Parser σ) (c : Int) (hc : ¬ (c = 10 ∨ c = 13)) :
    Parser.listenStep P atof b p c = some
      (if b then (decide (c ≠ 41), p)
       else if c ≤ 32 then (false, if c = 24 then p.reportMessage STATUS_VERSION else p)
       else if c = 47 then (false, p)
       else if c = 40 then (true, p)
       else if 63 ≤ p.iter then (false, (p.reportMessage STATUS_OVERFLOW).reset)
       else (false, p.store (upcase c))) := by
  unfold Parser.listenStep
  rw [if_neg hc]
  cases b
  · simp only [Bool.false_eq_true, if_false]
    by_cases h1 : c ≤ 32
    · simp only [if_pos h1]
      split_ifs <;> rfl
    · simp only [if_neg h1]
      by_cases h2 : c = 47
      · simp only [if_pos h2]
      · simp only [if_neg h2]
        by_cases h3 : c = 40
        · simp only [if_pos h3]
        · simp only [if_neg h3]
          by_cases h4 : 63 ≤ p.iter
          · have h4' : p.iter ≥ LINE_BUFFER_SIZE - 1 := h4
            simp only [if_pos h4, if_pos h4']
          · have h4' : ¬ p.iter ≥ LINE_BUFFER_SIZE - 1 := h4
            simp only [if_neg h4, if_neg h4']
            unfold upcase
            by_cases h5 : 97 ≤ c ∧ c ≤ 122
            · have h5' : c ≥ 97 ∧ c ≤ 122 := h5
              rw [if_pos h5, if_pos h5']
              have : c - 97 + 65 = c - 32 := by omega
              rw [this]
            · have h5' : ¬ (c ≥ 97 ∧ c ≤ 122) := h5
              rw [if_neg h5, if_neg h5']
  · simp only [if_true]
    by_cases h1 : c = 41
    · simp [h1]
    · simp [h1]

theorem Parser.listenStep_cursorOk {σ : Type} (P : GCodeProcessor σ) (atof : List Int → FVal)
    (b : Bool) (p : Parser σ) (c : Int) (r : Bool × Parser σ)
    (h : Parser.listenStep P atof b p c = some r) (hp : p.CursorOk) : r.2.CursorOk := by
  by_cases hc : c = 10 ∨ c = 13
  · obtain ⟨-, ⟨hi, p1, h1, hr2⟩ | ⟨hi, hr2⟩⟩ := Parser.listenStep_eol P atof b p c hc r h
    all_goals rw [hr2]
    · have hs := (Parser.processCommand_spec P atof _ _ h1).2
      have hr := Parser.reportMessage_sameLine p1 STATUS_OK
      refine ⟨Nat.zero_le _, ?_⟩
      intro i hi'
      have : i ∈ p.stores ++ [p.iter] := by
        have e : (p1.reportMessage STATUS_OK).reset.stores = p.terminate.stores :=
          hr.2.2.1.trans hs.2.2.1
        rw [e] at hi'
        exact hi'
      rcases List.mem_append.1 this with h' | h'
      · exact hp.2 i h'
      · rw [List.mem_singleton.1 h']
        exact Nat.lt_of_le_of_lt hp.1 (by decide)
    · refine ⟨Nat.zero_le _, ?_⟩
      intro i hi'
      exact hp.2 i hi'
  · rw [Parser.listenStep_char P atof b p c hc] at h
    cases h
    have hv : (p.reportMessage STATUS_VERSION).CursorOk := hp
    have ho : (p.reportMessage STATUS_OVERFLOW).reset.CursorOk := ⟨Nat.zero_le _, hp.2⟩
    split_ifs with h1 h2 h3 h4 h5 h6
    · exact hp
    · exact hv
    · exact hp
    · exact hp
    · exact hp
    · exact ho
    · have h6' : p.iter < 63 := Nat.lt_of_not_le h6
      refine ⟨Nat.succ_le_of_lt h6', ?_⟩
      intro i hi'
      rcases List.mem_append.1 hi' with h' | h'
      · exact hp.2 i h'
      · rw [List.mem_singleton.1 h']
        exact Nat.lt_trans h6' (by decide)

theorem Parser.listenLoop_cursorOk {σ : Type} (P : GCodeProcessor σ) (atof : List Int → FVal)
    (input : List Int) : ∀ (b : Bool) (p : Parser σ) (r : Bool × Parser σ),
    Parser.listenLoop P atof b p input = some r → p.CursorOk → r.2.CursorOk := by
  induction input with
  | nil =>
    intro b p r h hp
    cases h
    exact hp
  | cons c cs ih =>
    intro b p r h hp
    simp only [Parser.listenLoop, Option.bind_eq_some] at h
    obtain ⟨r1, h1, h2⟩ := h
    exact ih r1.1 r1.2 r h2 (Parser.listenStep_cursorOk P atof b p c r1 h1 hp)

theorem Parser.listenAll_cursorOk {σ : Type} (P : GCodeProcessor σ) (atof : List Int → FVal)
    (chunks : List (List Int)) : ∀ (p r : Parser σ),
    Parser.listenAll P atof p chunks = some r → p.CursorOk → r.CursorOk := by
  induction chunks with
  | nil =>
    intro p r h hp
    cases h
    exact hp
  | cons c cs ih =>
    intro p r h hp
    simp only [Parser.listenAll, Option.bind_eq_some] at h
    obtain ⟨q, h1, h2⟩ := h
    simp only [Parser.listen, Option.map_eq_some'] at h1
    obtain ⟨r1, h1, rfl⟩ := h1
    exact ih _ r h2 (Parser.listenLoop_cursorOk P atof c false p r1 h1 hp)

/-- C6: starting from a reset parser (cursor 0, no write yet), after any number of calls of
listen on any inputs the cursor is at most LINE_BUFFER_SIZE - 1 = 63, and every write into
the buffer made on the way (a char stored, or the terminator) was at an index below 64. -/
theorem listen_cursor_within_buffer {σ : Type} (P : GCodeProcessor σ)
    (atof : List Int → FVal) (p r : Parser σ) (chunks : List (List Int))
    (h0 : p.iter = 0) (hs : p.stores = [])
    (h : Parser.listenAll P atof p chunks = some r) :
    r.iter ≤ 63 ∧ ∀ i ∈ r.stores, i < 64 := by
  have hp : p.CursorOk := by
    constructor
    · rw [h0]
      exact Nat.zero_le _
    · intro i hi
      rw [hs] at hi
      cases hi
  exact Parser.listenAll_cursorOk P atof chunks p r h hp

theorem Parser.listenLoop_append {σ : Type} (P : GCodeProcessor σ) (atof : List Int → FVal)
    (xs ys : List Int) : ∀ (b : Bool) (p : Parser σ),
    Parser.listenLoop P atof b p (xs ++ ys) =
      (Parser.listenLoop P atof b p xs).bind (fun r => Parser.listenLoop P atof r.1 r.2 ys) := by
  induction xs with
  | nil => intro b p; rfl
  | cons c cs ih =>
    intro b p
    simp only [List.cons_append, Parser.listenLoop]
    cases h : Parser.listenStep P atof b p c with
    | none => rfl
    | some r =>
      simp only [Option.some_bind]
      exact ih r.1 r.2

/-! ## Parser: running it on a given input -/

theorem FVal.toInt_ofInt (n : Int) : FVal.toInt (FVal.ofInt n) = some n := by
  simp only [FVal.toInt, FVal.ofInt, Int.floor_intCast, Int.ceil_intCast, ite_self]

theorem FVal.toInt_neg_one : FVal.toInt (FVal.fin (-1)) = some (-1) := by
  have := FVal.toInt_ofInt (-1)
  simpa [FVal.ofInt] using this

theorem Parser.getArgumentLoop_absent (atof : List Int → FVal) (code : Int) (val : FVal) :
    ∀ (n : Nat) (cs : List Int), (∀ c ∈ cs.take n, c ≠ code) →
      Parser.getArgumentLoop atof code val n cs = val := by
  intro n
  induction n with
  | zero => intro cs _; rfl
  | succ n ih =>
    intro cs h
    cases cs with
    | nil => rfl
    | cons c cs =>
      simp only [Parser.getArgumentLoop]
      split_ifs with h1 h2
      · rfl
      · exact absurd h2 (h c (by simp))
      · exact ih cs (fun d hd => h d (by simp [hd]))

/-- A line without the letters G, F and M is dispatched without any effect. -/
theorem Parser.processCommand_no_code {σ : Type} (P : GCodeProcessor σ)
    (atof : List Int → FVal) (p : Parser σ)
    (h : ∀ c ∈ p.buffer.take p.iter, c ≠ 71 ∧ c ≠ 70 ∧ c ≠ 77) :
    Parser.processCommand P atof p = some (p, STATUS_OK) := by
  have hG : Parser.getArgument atof p 71 (FVal.fin (-1)) = FVal.fin (-1) :=
    Parser.getArgumentLoop_absent atof 71 _ _ _ (fun c hc => (h c hc).1)
  have hF : Parser.getArgument atof p 70 (FVal.fin (-1)) = FVal.fin (-1) :=
    Parser.getArgumentLoop_absent atof 70 _ _ _ (fun c hc => (h c hc).2.1)
  have hM : Parser.getArgument atof p 77 (FVal.fin (-1)) = FVal.fin (-1) :=
    Parser.getArgumentLoop_absent atof 77 _ _ _ (fun c hc => (h c hc).2.2)
  have hg : Parser.processG P atof p (-1) = some p := by
    unfold Parser.processG
    simp
  have hm : Parser.processM P atof p (-1) = some p := by
    unfold Parser.processM
    simp
  unfold Parser.processCommand
  rw [hG, FVal.toInt_neg_one]
  simp only [Option.some_bind, hg, hF, FVal.toInt_neg_one, ne_eq, not_true_eq_false, if_false,
    hM, hm]

theorem Parser.reportMessage_ok {σ : Type} (p : Parser σ) :
    p.reportMessage STATUS_OK = (p.print "ok\r\n").print "\r\n" := by
  simp [Parser.reportMessage, STATUS_OK]

theorem Parser.reportMessage_version {σ : Type} (p : Parser σ) :
    p.reportMessage STATUS_VERSION
      = (p.print "Grbl v0.8c [\x27$\x27 for help]\r\n").print "\r\n" := by
  simp [Parser.reportMessage, STATUS_VERSION]

theorem Parser.reportMessage_overflow {σ : Type} (p : Parser σ) :
    p.reportMessage STATUS_OVERFLOW
      = ((p.print "error: ").print "Line overflow").print "\r\n" := by
  simp [Parser.reportMessage, STATUS_OVERFLOW, STATUS_VERSION, Parser.errorText]

/-- The end of a line without the letters G, F and M: the line is dispatched without
effect, `ok` is reported and the parser is reset. -/
theorem Parser.listenStep_eol_no_code {σ : Type} (P : GCodeProcessor σ)
    (atof : List Int → FVal) (b : Bool) (p : Parser σ) (c : Int) (hc : c = 10 ∨ c = 13)
    (hi : 0 < p.iter)
    (h : ∀ c ∈ (p.buffer.set p.iter 0).take p.iter, c ≠ 71 ∧ c ≠ 70 ∧ c ≠ 77) :
    Parser.listenStep P atof b p c = some (b, (p.terminate.reportMessage STATUS_OK).reset) := by
  unfold Parser.listenStep
  rw [if_pos hc, if_pos hi, Parser.processCommand_no_code P atof p.terminate h]
  rfl

/-- C8, the failing input: the text `(a)b` and a newline, delivered as `(a` to one call of
listen and `)b` with the newline to the next.  The second call starts outside a comment, so
it dispatches the line `)B`; a single call on the whole text dispatches `B`. -/
theorem listen_split_comment_eval {σ : Type} (P : GCodeProcessor σ) (atof : List Int → FVal)
    (s : σ) :
    (Parser.listenAll P atof (Parser.start s) [[40, 97], [41, 98, 10]]).map
        (fun r => r.dispatched) = some [[41, 66]] ∧
    (Parser.listenAll P atof (Parser.start s) [[40, 97, 41, 98, 10]]).map
        (fun r => r.dispatched) = some [[66]] := by
  constructor
  · simp [Parser.listenAll, Parser.listen, Parser.listenLoop, Parser.listenStep_char,
      Parser.listenStep_eol_no_code, Parser.start, upcase, Parser.store, Parser.terminate,
      Parser.reset, Parser.reportMessage_ok, Parser.print]
  · simp [Parser.listenAll, Parser.listen, Parser.listenLoop, Parser.listenStep_char,
      Parser.listenStep_eol_no_code, Parser.start, upcase, Parser.store, Parser.terminate,
      Parser.reset, Parser.reportMessage_ok, Parser.print]

/-- An instance: the char `x` in one call of listen, a newline in the next. -/
theorem listen_cursor_within_buffer_witness :
    ∃ r, Parser.listenAll nullProcessor atofDecimal (Parser.start ()) [[120], [10]] = some r ∧
      r.iter ≤ 63 ∧ ∀ i ∈ r.stores, i < 64 := by
  have h : (Parser.listenAll nullProcessor atofDecimal (Parser.start ()) [[120], [10]]).isSome := by
    simp [Parser.listenAll, Parser.listen, Parser.listenLoop, Parser.listenStep_char,
      Parser.listenStep_eol_no_code, Parser.start, upcase, Parser.store]
  obtain ⟨r, hr⟩ := Option.isSome_iff_exists.1 h
  exact ⟨r, hr, listen_cursor_within_buffer nullProcessor atofDecimal _ r _ rfl rfl hr⟩

/-! ## Parser: the status of a dispatched line -/

/-- C2 (amended): whatever the line, G0 with a target that fails the reachability check
included, processCommand returns STATUS_OK when it returns, and at the end of a non-empty
line listen then prints the `ok` report and the prompt after what the dispatch printed. -/
theorem processCommand_status_always_ok {σ : Type} (P : GCodeProcessor σ)
    (atof : List Int → FVal) (b : Bool) (p : Parser σ) (c : Int) (r : Bool × Parser σ)
    (hc : c = 10 ∨ c = 13) (hi : 0 < p.iter)
    (h : Parser.listenStep P atof b p c = some r) :
    ∃ p1 status, Parser.processCommand P atof p.terminate = some (p1, status) ∧
      status = STATUS_OK ∧
      r.2.serial = p1.serial ++
        [SerialEvent.text "ok\r\n", SerialEvent.text "\r\n", SerialEvent.text "> "] := by
  obtain ⟨-, ⟨-, p1, h1, hr⟩ | ⟨h0, -⟩⟩ := Parser.listenStep_eol P atof b p c hc r h
  · refine ⟨p1, STATUS_OK, h1, rfl, ?_⟩
    rw [hr, Parser.reportMessage_ok]
    simp [Parser.reset, Parser.print]
  · omega

theorem armEqualBones_far_y : armEqualBones.outOfRange 0 150 := by
  left
  have h : Real.sqrt 22500 = 150 := by
    rw [show (22500 : ℝ) = 150 ^ 2 by norm_num]
    exact Real.sqrt_sq (by norm_num)
  simp [ScaraArm.q, ScaraArm.s_w, ScaraArm.s_w_sqrt, armEqualBones, ScaraArm.mk0, FVal.ofInt,
    FVal.sqrt, FVal.mul, FVal.div, FVal.gt, FVal.lt, h]
  norm_num

theorem parserG0Far_dispatch :
    Parser.processCommand ScaraArm.processor atofDecimal parserG0Far.terminate =
      some ({ parserG0Far.terminate with _processor := armEqualBones.setPosition 0 150 },
        STATUS_OK) := by
  have hG : Parser.getArgument atofDecimal parserG0Far.terminate 71 (FVal.fin (-1))
      = FVal.ofInt 0 := by
    simp [Parser.getArgument, Parser.getArgumentLoop, parserG0Far, Parser.terminate,
      Parser.cString, atofDecimal, readDigits, FVal.ofInt]
  have hX : ∀ v, Parser.getArgument atofDecimal parserG0Far.terminate 88 v = FVal.ofInt 0 := by
    intro v
    simp [Parser.getArgument, Parser.getArgumentLoop, parserG0Far, Parser.terminate,
      Parser.cString, atofDecimal, readDigits, FVal.ofInt]
  have hY : ∀ v, Parser.getArgument atofDecimal parserG0Far.terminate 89 v
      = FVal.ofInt 150 := by
    intro v
    simp [Parser.getArgument, Parser.getArgumentLoop, parserG0Far, Parser.terminate,
      Parser.cString, atofDecimal, readDigits, FVal.ofInt]
  have hg : Parser.processG ScaraArm.processor atofDecimal parserG0Far.terminate 0
      = some { parserG0Far.terminate with _processor := armEqualBones.setPosition 0 150 } := by
    simp only [Parser.processG, Parser.axisArgs, if_true, hX, hY, ScaraArm.processor,
      ScaraArm.setPositionF, FVal.toInt_ofInt, Option.some_bind, Option.map_some']
    rfl
  have hsl : Parser.SameLine parserG0Far.terminate
      { parserG0Far.terminate with _processor := armEqualBones.setPosition 0 150 } :=
    ⟨rfl, rfl, rfl, rfl⟩
  have hF : Parser.getArgument atofDecimal
      { parserG0Far.terminate with _processor := armEqualBones.setPosition 0 150 } 70
        (FVal.fin (-1)) = FVal.fin (-1) := by
    rw [Parser.getArgument_congr atofDecimal hsl]
    simp [Parser.getArgument, Parser.getArgumentLoop, parserG0Far, Parser.terminate]
  have hM : Parser.getArgument atofDecimal
      { parserG0Far.terminate with _processor := armEqualBones.setPosition 0 150 } 77
        (FVal.fin (-1)) = FVal.fin (-1) := by
    rw [Parser.getArgument_congr atofDecimal hsl]
    simp [Parser.getArgument, Parser.getArgumentLoop, parserG0Far, Parser.terminate]
  have hm : ∀ q : Parser ScaraArm,
      Parser.processM ScaraArm.processor atofDecimal q (-1) = some q := by
    intro q
    unfold Parser.processM
    simp
  unfold Parser.processCommand
  rw [hG, FVal.toInt_ofInt]
  simp only [Option.some_bind, hg, hF, FVal.toInt_neg_one, ne_eq, not_true_eq_false, if_false,
    hM, hm]

theorem parserG0Far_reached :
    Parser.listenLoop ScaraArm.processor atofDecimal false (Parser.start armEqualBones)
      [71, 48, 32, 88, 48, 32, 89, 49, 53, 48] = some (false, parserG0Far) := by
  simp [Parser.listenLoop, Parser.listenStep_char, Parser.start, upcase, Parser.store,
    parserG0Far]

/-- C2, as stated, fails: on the arm with bones 50/50 the line `G0 X0 Y150` asks for a
target that the reachability check rejects; processCommand returns STATUS_OK for it, and
listen answers the line with `ok`. -/
theorem processCommand_unreachable_reports_ok :
    armEqualBones.outOfRange 0 150 ∧
    parserG0Far.terminate.dispatched = [[71, 48, 88, 48, 89, 49, 53, 48]] ∧
    (∃ p1, Parser.processCommand ScaraArm.processor atofDecimal parserG0Far.terminate
        = some (p1, STATUS_OK) ∧
      p1._processor = armEqualBones.setPosition 0 150 ∧
      STATUS_OK = 0) ∧
    (Parser.listen ScaraArm.processor atofDecimal (Parser.start armEqualBones)
        [71, 48, 32, 88, 48, 32, 89, 49, 53, 48, 10]).map
          (fun r => (r.dispatched, r.serial)) =
      some ([[71, 48, 88, 48, 89, 49, 53, 48]],
        [SerialEvent.text "> ", SerialEvent.text "ok\r\n", SerialEvent.text "\r\n",
          SerialEvent.text "> "]) := by
  refine ⟨armEqualBones_far_y, ?_, ⟨_, parserG0Far_dispatch, rfl, rfl⟩, ?_⟩
  · simp [Parser.terminate, parserG0Far]
  · have h : Parser.listenLoop ScaraArm.processor atofDecimal false (Parser.start armEqualBones)
        ([71, 48, 32, 88, 48, 32, 89, 49, 53, 48] ++ [10]) =
          (Parser.listenStep ScaraArm.processor atofDecimal false parserG0Far 10).bind
            (fun r => some r) := by
      rw [Parser.listenLoop_append, parserG0Far_reached]
      simp [Parser.listenLoop]
    have h2 : Parser.listenStep ScaraArm.processor atofDecimal false parserG0Far 10 =
        some (false, (Parser.reportMessage
          { parserG0Far.terminate with _processor := armEqualBones.setPosition 0 150 }
          STATUS_OK).reset) := by
      unfold Parser.listenStep
      rw [if_pos (Or.inl rfl), if_pos (show parserG0Far.iter > 0 by decide),
        parserG0Far_dispatch]
      rfl
    rw [h2] at h
    simp only [List.cons_append, List.nil_append] at h
    unfold Parser.listen
    rw [h]
    simp [Parser.reportMessage_ok, Parser.reset, Parser.print, Parser.terminate, parserG0Far]

theorem parserG0Far_eol :
    Parser.listenStep ScaraArm.processor atofDecimal false parserG0Far 10 =
      some (false, (Parser.reportMessage
        { parserG0Far.terminate with _processor := armEqualBones.setPosition 0 150 }
        STATUS_OK).reset) := by
  unfold Parser.listenStep
  rw [if_pos (Or.inl rfl), if_pos (show parserG0Far.iter > 0 by decide), parserG0Far_dispatch]
  rfl

/-- An instance: the end of the line `G0 X0 Y150` on the arm with bones 50/50. -/
theorem processCommand_status_always_ok_witness :
    ∃ r, Parser.listenStep ScaraArm.processor atofDecimal false parserG0Far 10 = some r ∧
      ∃ p1 status, Parser.processCommand ScaraArm.processor atofDecimal parserG0Far.terminate
          = some (p1, status) ∧ status = STATUS_OK ∧
        r.2.serial = p1.serial ++
          [SerialEvent.text "ok\r\n", SerialEvent.text "\r\n", SerialEvent.text "> "] :=
  ⟨_, parserG0Far_eol,
    processCommand_status_always_ok ScaraArm.processor atofDecimal false parserG0Far 10 _
      (Or.inl rfl) (by decide) parserG0Far_eol⟩

/-! ## Parser: laws of line assembly -/

theorem upcase_upcase (c : Int) : upcase (upcase c) = upcase c := by
  unfold upcase
  split_ifs <;> first | rfl | omega

theorem upcase_of_not_lower (c : Int) (h : ¬ (97 ≤ c ∧ c ≤ 122)) : upcase c = c := by
  unfold upcase
  rw [if_neg h]

theorem Parser.listenStep_upcase {σ : Type} (P : GCodeProcessor σ) (atof : List Int → FVal)
    (b : Bool) (p : Parser σ) (c : Int) :
    Parser.listenStep P atof b p (upcase c) = Parser.listenStep P atof b p c := by
  by_cases hl : 97 ≤ c ∧ c ≤ 122
  · have hu : upcase c = c - 32 := by unfold upcase; rw [if_pos hl]
    have h1 : ¬ (c = 10 ∨ c = 13) := by omega
    have h2 : ¬ (upcase c = 10 ∨ upcase c = 13) := by rw [hu]; omega
    rw [Parser.listenStep_char P atof b p c h1, Parser.listenStep_char P atof b p _ h2,
      upcase_upcase]
    have e1 : ¬ c = 41 := by omega
    have e2 : ¬ upcase c = 41 := by rw [hu]; omega
    have e3 : ¬ c ≤ 32 := by omega
    have e4 : ¬ upcase c ≤ 32 := by rw [hu]; omega
    have e5 : ¬ c = 47 := by omega
    have e6 : ¬ upcase c = 47 := by rw [hu]; omega
    have e7 : ¬ c = 40 := by omega
    have e8 : ¬ upcase c = 40 := by rw [hu]; omega
    simp only [e1, e2, e3, e4, e5, e6, e7, e8, ne_eq, not_false_eq_true, decide_True, if_false]
  · rw [upcase_of_not_lower c hl]

theorem Parser.listenLoop_upcase {σ : Type} (P : GCodeProcessor σ) (atof : List Int → FVal)
    (input : List Int) : ∀ (b : Bool) (p : Parser σ),
    Parser.listenLoop P atof b p (input.map upcase) = Parser.listenLoop P atof b p input := by
  induction input with
  | nil => intro b p; rfl
  | cons c cs ih =>
    intro b p
    simp only [List.map_cons, Parser.listenLoop, Parser.listenStep_upcase, ih]

/-- C10: for every input B, listen on B with every letter a..z replaced by A..Z gives the same
result as listen on B: the same parser state, so the same dispatched lines, the same
responses, the same buffer and cursor, and the same state of the processor. -/
theorem listen_case_normalization {σ : Type} (P : GCodeProcessor σ) (atof : List Int → FVal)
    (p : Parser σ) (B : List Int) :
    Parser.listen P atof p (B.map upcase) = Parser.listen P atof p B := by
  unfold Parser.listen
  rw [Parser.listenLoop_upcase]

theorem Parser.listenStep_flag {σ : Type} (P : GCodeProcessor σ) (atof : List Int → FVal)
    (b : Bool) (p : Parser σ) (c : Int) (r : Bool × Parser σ)
    (h : Parser.listenStep P atof b p c = some r) :
    r.1 = (if b then decide (c ≠ 41) else decide (c = 40)) := by
  by_cases hc : c = 10 ∨ c = 13
  · rw [(Parser.listenStep_eol P atof b p c hc r h).1]
    have e1 : ¬ c = 41 := by omega
    have e2 : ¬ c = 40 := by omega
    cases b <;> simp [e1, e2]
  · rw [Parser.listenStep_char P atof b p c hc] at h
    cases h
    cases b
    · simp only [Bool.false_eq_true, if_false]
      split_ifs <;> simp <;> omega
    · simp

theorem Parser.listenLoop_flag {σ : Type} (P : GCodeProcessor σ) (atof : List Int → FVal)
    (input : List Int) : ∀ (b : Bool) (p : Parser σ) (r : Bool × Parser σ),
    Parser.listenLoop P atof b p input = some r → r.1 = unclosedComment b input := by
  induction input with
  | nil =>
    intro b p r h
    cases h
    cases b <;> rfl
  | cons c cs ih =>
    intro b p r h
    simp only [Parser.listenLoop, Option.bind_eq_some] at h
    obtain ⟨r1, h1, h2⟩ := h
    rw [ih r1.1 r1.2 r h2, Parser.listenStep_flag P atof b p c r1 h1]
    cases b <;> rfl

/-- Inside a comment, chars other than `)` and the line terminators are thrown away. -/
theorem Parser.listenLoop_in_comment {σ : Type} (P : GCodeProcessor σ)
    (atof : List Int → FVal) (T : List Int) (p : Parser σ)
    (hT : ∀ c ∈ T, c ≠ 41 ∧ c ≠ 10 ∧ c ≠ 13) :
    Parser.listenLoop P atof true p T = some (true, p) := by
  induction T with
  | nil => rfl
  | cons c cs ih =>
    obtain ⟨h1, h2, h3⟩ := hT c (by simp)
    have hc : ¬ (c = 10 ∨ c = 13) := by omega
    simp only [Parser.listenLoop, Parser.listenStep_char P atof true p c hc, if_true,
      Option.some_bind]
    have : decide (c ≠ 41) = true := by simp [h1]
    rw [this]
    exact ih (fun d hd => hT d (by simp [hd]))

/-- A whole comment met outside of a comment leaves the parser as it was. -/
theorem Parser.listenLoop_comment {σ : Type} (P : GCodeProcessor σ)
    (atof : List Int → FVal) (T : List Int) (p : Parser σ)
    (hT : ∀ c ∈ T, c ≠ 41 ∧ c ≠ 10 ∧ c ≠ 13) :
    Parser.listenLoop P atof false p ([40] ++ T ++ [41]) = some (false, p) := by
  rw [List.append_assoc, Parser.listenLoop_append]
  have h40 : Parser.listenLoop P atof false p [40] = some (true, p) := by
    simp [Parser.listenLoop, Parser.listenStep_char]
  rw [h40, Option.some_bind, Parser.listenLoop_append, Parser.listenLoop_in_comment P atof T p hT,
    Option.some_bind]
  simp [Parser.listenLoop, Parser.listenStep_char]

/-- C9: for L1 that does not end inside a comment and T without `)` and line terminators,
listen gives on L1 ( T ) L2 newline the same result as on L1 L2 newline: the same parser
state, so the same dispatched lines and the same responses.  The comment leaves the parser
after L1 as it was, cursor included: its bytes take no room in the buffer. -/
theorem listen_comment_stripping {σ : Type} (P : GCodeProcessor σ) (atof : List Int → FVal)
    (p : Parser σ) (L1 T L2 : List Int)
    (hT : ∀ c ∈ T, c ≠ 41 ∧ c ≠ 10 ∧ c ≠ 13)
    (hL1 : unclosedComment false L1 = false) :
    Parser.listen P atof p (L1 ++ [40] ++ T ++ [41] ++ L2 ++ [10])
        = Parser.listen P atof p (L1 ++ L2 ++ [10]) ∧
      Parser.listen P atof p (L1 ++ [40] ++ T ++ [41]) = Parser.listen P atof p L1 := by
  have key : ∀ rest : List Int,
      Parser.listenLoop P atof false p (L1 ++ (([40] ++ T ++ [41]) ++ rest))
        = Parser.listenLoop P atof false p (L1 ++ rest) := by
    intro rest
    rw [Parser.listenLoop_append, Parser.listenLoop_append P atof L1 rest]
    cases h : Parser.listenLoop P atof false p L1 with
    | none => rfl
    | some r =>
      have hf : r.1 = false := by
        rw [Parser.listenLoop_flag P atof L1 false p r h, hL1]
      simp only [Option.some_bind]
      rw [Parser.listenLoop_append, hf, Parser.listenLoop_comment P atof T r.2 hT,
        Option.some_bind]
  unfold Parser.listen
  constructor
  · have := key (L2 ++ [10])
    simp only [List.append_assoc] at this ⊢
    rw [this]
  · have := key []
    simp only [List.append_assoc, List.append_nil] at this ⊢
    rw [this]

/-- The line `G0 X10 Y20` and a newline, run on a processor that does nothing: the line
`G0X10Y20` is dispatched and `ok` is reported. -/
theorem listen_G0_X10_Y20 :
    (Parser.listen nullProcessor atofDecimal (Parser.start ())
        ([71, 48, 32, 88, 49, 48, 32] ++ [32, 89, 50, 48] ++ [10])).map
      (fun r => (r.dispatched, r.serial, r.iter)) =
    some ([[71, 48, 88, 49, 48, 89, 50, 48]],
      [SerialEvent.text "> ", SerialEvent.text "ok\r\n", SerialEvent.text "\r\n",
        SerialEvent.text "> "], 0) := by
  simp [Parser.listen, Parser.listenLoop, Parser.listenStep_char, Parser.start, upcase,
    Parser.store]
  norm_num [Parser.listenStep, Parser.terminate, Parser.processCommand, Parser.getArgument,
    Parser.getArgumentLoop, Parser.cString, atofDecimal, readDigits, Parser.processG,
    Parser.processM, Parser.axisArgs, nullProcessor, FVal.toInt, Int.ceil_neg,
    Parser.reportMessage_ok, Parser.reset, Parser.print]

/-- An instance: `G0 X10 (move here) Y20` against `G0 X10 Y20`. -/
theorem listen_comment_stripping_witness :
    Parser.listen nullProcessor atofDecimal (Parser.start ())
        ([71, 48, 32, 88, 49, 48, 32] ++ [40] ++ [109, 111, 118, 101, 32, 104, 101, 114, 101]
          ++ [41] ++ [32, 89, 50, 48] ++ [10])
      = Parser.listen nullProcessor atofDecimal (Parser.start ())
        ([71, 48, 32, 88, 49, 48, 32] ++ [32, 89, 50, 48] ++ [10]) :=
  (listen_comment_stripping nullProcessor atofDecimal (Parser.start ())
    [71, 48, 32, 88, 49, 48, 32] [109, 111, 118, 101, 32, 104, 101, 114, 101] [32, 89, 50, 48]
    (by decide) (by decide)).1

/-! ## Parser: assembling a line -/

theorem List.take_set_self_eq {α : Type} (l : List α) (n : Nat) (a : α) :
    (l.set n a).take n = l.take n := by
  induction l generalizing n with
  | nil => simp
  | cons x xs ih =>
    cases n with
    | zero => simp
    | succ n => simp [ih]

theorem List.take_succ_set_eq {α : Type} (l : List α) (n : Nat) (a : α) (h : n < l.length) :
    (l.set n a).take (n + 1) = l.take n ++ [a] := by
  induction l generalizing n with
  | nil => simp at h
  | cons x xs ih =>
    cases n with
    | zero => simp
    | succ n =>
      simp only [List.set_cons_succ, List.take_succ_cons, List.cons_append, List.cons.injEq,
        true_and]
      exact ih n (by simpa using h)

theorem Parser.store_line {σ : Type} (p : Parser σ) (c : Int) (h : p.iter < p.buffer.length) :
    (p.store c).buffer.take (p.store c).iter = p.buffer.take p.iter ++ [c] :=
  List.take_succ_set_eq p.buffer p.iter c h

/-- The line handed to `processCommand` is the content of the buffer below the cursor. -/
theorem Parser.terminate_dispatched {σ : Type} (p : Parser σ) :
    p.terminate.dispatched = p.dispatched ++ [p.buffer.take p.iter] := by
  simp only [Parser.terminate, List.take_set_self_eq]

/-- Line assembly refines the specification of the content of a line: from a parser with
room for it, the chars of `L` (no line terminator among them) bring the content of `L`
behind what the buffer holds, and nothing is dispatched. -/
theorem Parser.listenLoop_line {σ : Type} (P : GCodeProcessor σ) (atof : List Int → FVal)
    (L : List Int) (hL : ∀ c ∈ L, c ≠ 10 ∧ c ≠ 13) : ∀ (b : Bool) (p : Parser σ),
    p.iter + (lineContent b L).length ≤ 63 → 64 ≤ p.buffer.length →
    ∃ q, Parser.listenLoop P atof b p L = some (unclosedComment b L, q) ∧
      q.iter = p.iter + (lineContent b L).length ∧
      q.buffer.take q.iter = p.buffer.take p.iter ++ lineContent b L ∧
      q.dispatched = p.dispatched ∧ q.buffer.length = p.buffer.length ∧
      q._processor = p._processor ∧
      ((∀ c ∈ L, c ≠ 24) → q.serial = p.serial) := by
  induction L with
  | nil =>
    intro b p _ _
    refine ⟨p, ?_, ?_, ?_, rfl, rfl, rfl, fun _ => rfl⟩
    · cases b <;> rfl
    · cases b <;> rfl
    · cases b <;> simp [lineContent]
  | cons c cs ih =>
    intro b p hroom hbuf
    have hc : ¬ (c = 10 ∨ c = 13) := by
      have := hL c (by simp)
      omega
    have hcs : ∀ d ∈ cs, d ≠ 10 ∧ d ≠ 13 := fun d hd => hL d (by simp [hd])
    simp only [Parser.listenLoop, Parser.listenStep_char P atof b p c hc, Option.some_bind]
    cases b with
    | true =>
      simp only [if_true]
      by_cases h41 : c = 41
      · have e : lineContent true (c :: cs) = lineContent false cs := by
          simp [lineContent, h41]
        have e2 : unclosedComment true (c :: cs) = unclosedComment false cs := by
          simp [unclosedComment, h41]
        rw [e] at hroom ⊢
        rw [e2]
        obtain ⟨q, h1, h2, h3, h4, h5, h6, h7⟩ := ih hcs false p hroom hbuf
        have hd : decide (c ≠ 41) = false := by simp [h41]
        rw [hd]
        exact ⟨q, h1, h2, h3, h4, h5, h6, fun h => h7 (fun d hd => h d (by simp [hd]))⟩
      · have e : lineContent true (c :: cs) = lineContent true cs := by
          simp [lineContent, h41]
        have e2 : unclosedComment true (c :: cs) = unclosedComment true cs := by
          simp [unclosedComment, h41]
        rw [e] at hroom ⊢
        rw [e2]
        obtain ⟨q, h1, h2, h3, h4, h5, h6, h7⟩ := ih hcs true p hroom hbuf
        have hd : decide (c ≠ 41) = true := by simp [h41]
        rw [hd]
        exact ⟨q, h1, h2, h3, h4, h5, h6, fun h => h7 (fun d hd => h d (by simp [hd]))⟩
    | false =>
      simp only [Bool.false_eq_true, if_false]
      by_cases h40 : c = 40
      · have e : lineContent false (c :: cs) = lineContent true cs := by
          simp [lineContent, h40]
        have e2 : unclosedComment false (c :: cs) = unclosedComment true cs := by
          simp [unclosedComment, h40]
        rw [e] at hroom ⊢
        rw [e2]
        have n1 : ¬ c ≤ 32 := by omega
        have n2 : ¬ c = 47 := by omega
        simp only [if_neg n1, if_neg n2, if_pos h40]
        obtain ⟨q, h1, h2, h3, h4, h5, h6, h7⟩ := ih hcs true p hroom hbuf
        exact ⟨q, h1, h2, h3, h4, h5, h6, fun h => h7 (fun d hd => h d (by simp [hd]))⟩
      · have e2 : unclosedComment false (c :: cs) = unclosedComment false cs := by
          simp [unclosedComment, h40]
        rw [e2]
        by_cases hskip : c ≤ 32 ∨ c = 47
        · have e : lineContent false (c :: cs) = lineContent false cs := by
            simp [lineContent, hskip]
          rw [e] at hroom ⊢
          by_cases h32 : c ≤ 32
          · simp only [if_pos h32]
            by_cases h24 : c = 24
            · simp only [if_pos h24]
              have hs := Parser.reportMessage_sameLine p STATUS_VERSION
              obtain ⟨q, h1, h2, h3, h4, h5, h6, h7⟩ :=
                ih hcs false (p.reportMessage STATUS_VERSION) (by rw [hs.2.1]; exact hroom)
                  (by rw [hs.1]; exact hbuf)
              refine ⟨q, h1, ?_, ?_, ?_, ?_, ?_, ?_⟩
              · rw [h2, hs.2.1]
              · rw [h3, hs.1, hs.2.1]
              · rw [h4, hs.2.2.2]
              · rw [h5, hs.1]
              · rw [h6]
                simp [Parser.reportMessage_version, Parser.print]
              · intro h
                exact absurd h24 (h c (by simp))
            · simp only [if_neg h24]
              obtain ⟨q, h1, h2, h3, h4, h5, h6, h7⟩ := ih hcs false p hroom hbuf
              exact ⟨q, h1, h2, h3, h4, h5, h6, fun h => h7 (fun d hd => h d (by simp [hd]))⟩
          · have h47 : c = 47 := by omega
            simp only [if_neg h32, if_pos h47]
            obtain ⟨q, h1, h2, h3, h4, h5, h6, h7⟩ := ih hcs false p hroom hbuf
            exact ⟨q, h1, h2, h3, h4, h5, h6, fun h => h7 (fun d hd => h d (by simp [hd]))⟩
        · have e : lineContent false (c :: cs) = upcase c :: lineContent false cs := by
            simp [lineContent, hskip, h40]
          rw [e] at hroom ⊢
          simp only [List.length_cons] at hroom
          have n1 : ¬ c ≤ 32 := by omega
          have n2 : ¬ c = 47 := by omega
          have n3 : ¬ 63 ≤ p.iter := by omega
          simp only [if_neg n1, if_neg n2, if_neg h40, if_neg n3]
          have hi : p.iter < p.buffer.length := by omega
          obtain ⟨q, h1, h2, h3, h4, h5, h6, h7⟩ :=
            ih hcs false (p.store (upcase c))
              (by simp only [Parser.store]; omega) (by simp only [Parser.store, List.length_set]; exact hbuf)
          refine ⟨q, h1, ?_, ?_, ?_, ?_, ?_, ?_⟩
          · rw [h2]
            simp only [Parser.store, List.length_cons]
            omega
          · rw [h3, Parser.store_line p _ hi, List.append_assoc]
            rfl
          · rw [h4]
            rfl
          · rw [h5]
            simp only [Parser.store, List.length_set]
          · rw [h6]
            rfl
          · intro h
            rw [h7 (fun d hd => h d (by simp [hd]))]
            rfl

/-! ## Parser: listen returns when the processor does -/

theorem Parser.getArgumentLoop_cases (atof : List Int → FVal) (code : Int) (val : FVal) :
    ∀ (n : Nat) (cs : List Int), Parser.getArgumentLoop atof code val n cs = val ∨
      ∃ cs1, Parser.getArgumentLoop atof code val n cs = atof cs1 := by
  intro n
  induction n with
  | zero => intro cs; exact Or.inl rfl
  | succ n ih =>
    intro cs
    cases cs with
    | nil => exact Or.inl rfl
    | cons c cs =>
      simp only [Parser.getArgumentLoop]
      split_ifs
      · exact Or.inl rfl
      · exact Or.inr ⟨_, rfl⟩
      · exact ih cs

theorem Parser.getArgument_toInt {σ : Type} (atof : List Int → FVal) (ha : FiniteAtof atof)
    (p : Parser σ) (code : Int) (v : ℝ) :
    ∃ n, FVal.toInt (Parser.getArgument atof p code (FVal.fin v)) = some n := by
  rcases Parser.getArgumentLoop_cases atof code (FVal.fin v) p.iter p.buffer with h | ⟨cs, h⟩
  · unfold Parser.getArgument
    rw [h]
    exact ⟨_, rfl⟩
  · obtain ⟨r, hr⟩ := ha cs
    unfold Parser.getArgument
    rw [h, hr]
    exact ⟨_, rfl⟩

theorem Parser.withProcessor_isSome {σ : Type} (p : Parser σ) (o : Option σ) (h : o.isSome) :
    ∃ q, o.map (fun s => { p with _processor := s }) = some q := by
  obtain ⟨s, hs⟩ := Option.isSome_iff_exists.1 h
  exact ⟨_, by rw [hs]; rfl⟩

theorem Parser.processCommand_returns {σ : Type} (P : GCodeProcessor σ)
    (atof : List Int → FVal) (hP : P.Returns) (ha : FiniteAtof atof) (p : Parser σ) :
    ∃ q, Parser.processCommand P atof p = some (q, STATUS_OK) := by
  obtain ⟨hpark, hfeed, hhome, hset, hmove, hvac⟩ := hP
  have hG : ∀ (q : Parser σ) (cmd : Int), ∃ q1, Parser.processG P atof q cmd = some q1 := by
    intro q cmd
    unfold Parser.processG
    simp only []
    split_ifs
    · exact Parser.withProcessor_isSome q _ (hset _ _ _ _ _ _ _)
    · exact Parser.withProcessor_isSome q _ (hmove _ _ _ _ _ _ _)
    · exact ⟨_, rfl⟩
    · exact Parser.withProcessor_isSome q _ (hpark _)
    · exact ⟨_, rfl⟩
  have hM : ∀ (q : Parser σ) (cmd : Int), ∃ q1, Parser.processM P atof q cmd = some q1 := by
    intro q cmd
    unfold Parser.processM
    simp only []
    split_ifs
    · exact Parser.withProcessor_isSome q _ (hvac _ _)
    · exact Parser.withProcessor_isSome q _ (hvac _ _)
    · exact ⟨_, rfl⟩
    · exact Parser.withProcessor_isSome q _ (hhome _ _ _ _ _ _ _)
    · exact ⟨_, rfl⟩
  obtain ⟨c1, e1⟩ := Parser.getArgument_toInt atof ha p 71 (-1)
  obtain ⟨p1, e2⟩ := hG p c1
  obtain ⟨c2, e3⟩ := Parser.getArgument_toInt atof ha p1 70 (-1)
  have hF : ∃ p2, (if c2 ≠ -1 then
      (P.setFeedrate p1._processor (FVal.ofInt c2)).map (fun s => { p1 with _processor := s })
      else some p1) = some p2 := by
    split_ifs
    · exact Parser.withProcessor_isSome p1 _ (hfeed _ _)
    · exact ⟨_, rfl⟩
  obtain ⟨p2, e4⟩ := hF
  obtain ⟨c3, e5⟩ := Parser.getArgument_toInt atof ha p2 77 (-1)
  obtain ⟨p3, e6⟩ := hM p2 c3
  refine ⟨p3, ?_⟩
  unfold Parser.processCommand
  simp only [e1, Option.some_bind, e2, e3, e4, e5, e6]

theorem Parser.listenStep_returns {σ : Type} (P : GCodeProcessor σ)
    (atof : List Int → FVal) (hP : P.Returns) (ha : FiniteAtof atof) (b : Bool)
    (p : Parser σ) (c : Int) : ∃ r, Parser.listenStep P atof b p c = some r := by
  by_cases hc : c = 10 ∨ c = 13
  · unfold Parser.listenStep
    rw [if_pos hc]
    by_cases hi : p.iter > 0
    · obtain ⟨q, hq⟩ := Parser.processCommand_returns P atof hP ha p.terminate
      rw [if_pos hi, hq]
      exact ⟨_, rfl⟩
    · rw [if_neg hi]
      exact ⟨_, rfl⟩
  · exact ⟨_, Parser.listenStep_char P atof b p c hc⟩

theorem Parser.listenLoop_returns {σ : Type} (P : GCodeProcessor σ)
    (atof : List Int → FVal) (hP : P.Returns) (ha : FiniteAtof atof) (input : List Int) :
    ∀ (b : Bool) (p : Parser σ), ∃ r, Parser.listenLoop P atof b p input = some r := by
  induction input with
  | nil => intro b p; exact ⟨_, rfl⟩
  | cons c cs ih =>
    intro b p
    obtain ⟨r1, h1⟩ := Parser.listenStep_returns P atof hP ha b p c
    obtain ⟨r, h⟩ := ih r1.1 r1.2
    exact ⟨r, by simp only [Parser.listenLoop, h1, Option.some_bind, h]⟩

theorem Parser.listen_returns {σ : Type} (P : GCodeProcessor σ)
    (atof : List Int → FVal) (hP : P.Returns) (ha : FiniteAtof atof) (p : Parser σ)
    (input : List Int) : ∃ r, Parser.listen P atof p input = some r := by
  obtain ⟨r, h⟩ := Parser.listenLoop_returns P atof hP ha input false p
  exact ⟨r.2, by simp only [Parser.listen, h, Option.map_some']⟩

theorem nullProcessor_returns : nullProcessor.Returns :=
  ⟨fun _ => rfl, fun _ _ => rfl, fun _ _ _ _ _ _ _ => rfl, fun _ _ _ _ _ _ _ => rfl,
    fun _ _ _ _ _ _ _ => rfl, fun _ _ => rfl⟩

theorem atofDecimal_finite : FiniteAtof atofDecimal := fun _ => ⟨_, rfl⟩

/-! ## Parser: overflow -/

theorem lineContent_eligible (run : List Int) (h : ∀ c ∈ run, 32 < c ∧ c ≠ 47 ∧ c ≠ 40) :
    lineContent false run = run.map upcase := by
  induction run with
  | nil => rfl
  | cons c cs ih =>
    obtain ⟨h1, h2, h3⟩ := h c (by simp)
    have n1 : ¬ (c ≤ 32 ∨ c = 47) := by omega
    simp only [lineContent, if_neg n1, if_neg h3, List.map_cons]
    rw [ih (fun d hd => h d (by simp [hd]))]

theorem unclosedComment_no_paren (xs : List Int) (h : ∀ c ∈ xs, c ≠ 40) :
    unclosedComment false xs = false := by
  induction xs with
  | nil => rfl
  | cons c cs ih =>
    have h1 : ¬ c = 40 := h c (by simp)
    simp only [unclosedComment, h1, decide_False]
    exact ih (fun d hd => h d (by simp [hd]))

theorem Parser.listenStep_length {σ : Type} (P : GCodeProcessor σ) (atof : List Int → FVal)
    (b : Bool) (p : Parser σ) (c : Int) (r : Bool × Parser σ)
    (h : Parser.listenStep P atof b p c = some r) :
    r.2.buffer.length = p.buffer.length := by
  by_cases hc : c = 10 ∨ c = 13
  · obtain ⟨-, ⟨-, p1, h1, hr⟩ | ⟨-, hr⟩⟩ := Parser.listenStep_eol P atof b p c hc r h
    · rw [hr]
      have hs := (Parser.processCommand_spec P atof _ _ h1).2
      have hm := Parser.reportMessage_sameLine p1 STATUS_OK
      have e : (p1.reportMessage STATUS_OK).reset.buffer = p.terminate.buffer := hm.1.trans hs.1
      rw [e]
      simp only [Parser.terminate, List.length_set]
    · rw [hr]
      have hm := Parser.reportMessage_sameLine p STATUS_OK
      have e : (p.reportMessage STATUS_OK).reset.buffer = p.buffer := hm.1
      rw [e]
  · rw [Parser.listenStep_char P atof b p c hc] at h
    cases h
    have hv : (p.reportMessage STATUS_VERSION).buffer = p.buffer :=
      (Parser.reportMessage_sameLine p STATUS_VERSION).1
    have ho : (p.reportMessage STATUS_OVERFLOW).reset.buffer = p.buffer :=
      (Parser.reportMessage_sameLine p STATUS_OVERFLOW).1
    split_ifs
    · rfl
    · rw [hv]
    · rfl
    · rfl
    · rfl
    · rw [ho]
    · simp only [Parser.store, List.length_set]

theorem Parser.listenLoop_length {σ : Type} (P : GCodeProcessor σ) (atof : List Int → FVal)
    (input : List Int) : ∀ (b : Bool) (p : Parser σ) (r : Bool × Parser σ),
    Parser.listenLoop P atof b p input = some r → r.2.buffer.length = p.buffer.length := by
  induction input with
  | nil =>
    intro b p r h
    cases h
    rfl
  | cons c cs ih =>
    intro b p r h
    simp only [Parser.listenLoop, Option.bind_eq_some] at h
    obtain ⟨r1, h1, h2⟩ := h
    rw [ih r1.1 r1.2 r h2, Parser.listenStep_length P atof b p c r1 h1]

/-- One whole line: from an empty buffer outside a comment, the chars of `L` and a line
terminator dispatch exactly the content of `L`. -/
theorem Parser.listenLoop_whole_line {σ : Type} (P : GCodeProcessor σ)
    (atof : List Int → FVal) (p : Parser σ) (L : List Int) (t : Int) (r : Bool × Parser σ)
    (h0 : p.iter = 0) (hbuf : 64 ≤ p.buffer.length)
    (hL : ∀ c ∈ L, c ≠ 10 ∧ c ≠ 13) (ht : t = 10 ∨ t = 13)
    (hn : 0 < (lineContent false L).length) (hm : (lineContent false L).length ≤ 63)
    (h : Parser.listenLoop P atof false p (L ++ [t]) = some r) :
    r.2.dispatched = p.dispatched ++ [lineContent false L] ∧ r.2.iter = 0 := by
  obtain ⟨q, h1, h2, h3, h4, -, -, -⟩ :=
    Parser.listenLoop_line P atof L hL false p (by rw [h0]; omega) hbuf
  rw [Parser.listenLoop_append, h1, Option.some_bind] at h
  simp only [Parser.listenLoop, Option.bind_eq_some] at h
  obtain ⟨r1, hr1, hr⟩ := h
  cases hr
  rw [h0, Nat.zero_add] at h2
  rw [h0, List.take_zero, List.nil_append] at h3
  obtain ⟨-, ⟨-, p1, hp1, hr⟩ | ⟨hi, -⟩⟩ := Parser.listenStep_eol P atof _ q t ht r1 hr1
  · rw [hr]
    have hs := (Parser.processCommand_spec P atof _ _ hp1).2
    have hmsg := Parser.reportMessage_sameLine p1 STATUS_OK
    have e : (p1.reportMessage STATUS_OK).reset.dispatched = q.terminate.dispatched :=
      hmsg.2.2.2.trans hs.2.2.2
    refine ⟨?_, rfl⟩
    rw [e, Parser.terminate_dispatched, h3, h4]
  · omega

/-- C7: from an empty 64-byte buffer, a run of more than 64 buffer-eligible chars (above
space, neither `/` nor `(`) first fills the buffer with its first 63 chars in upper case and
prints nothing; the 64th char then only makes the parser print `error: Line overflow` and
the prompt and reset the cursor to 0: it is stored nowhere.  And if a line terminator and
then a line L with its terminator follow the run, L having a content of 1 to 63 chars, then
the line dispatched for L is exactly the content of L: letters in upper case, whitespace,
`/` and comments removed.  The calls return when the processor does. -/
theorem listen_overflow_recovery {σ : Type} (P : GCodeProcessor σ) (atof : List Int → FVal)
    (p : Parser σ) (run L : List Int) (t1 t2 : Int)
    (h0 : p.iter = 0) (hbuf : p.buffer.length = 64)
    (hrun : ∀ c ∈ run, 32 < c ∧ c ≠ 47 ∧ c ≠ 40) (hlen : 64 < run.length)
    (ht1 : t1 = 10 ∨ t1 = 13) (ht2 : t2 = 10 ∨ t2 = 13)
    (hL : ∀ c ∈ L, c ≠ 10 ∧ c ≠ 13)
    (hn : 0 < (lineContent false L).length) (hm : (lineContent false L).length ≤ 63) :
    (∃ q, Parser.listen P atof p (run.take 63) = some q ∧
        q.iter = 63 ∧ q.serial = p.serial ∧ q.dispatched = p.dispatched ∧
        q.buffer.take 63 = (run.take 63).map upcase ∧
        Parser.listen P atof p (run.take 64) = some (q.reportMessage STATUS_OVERFLOW).reset ∧
        (q.reportMessage STATUS_OVERFLOW).reset.iter = 0 ∧
        (q.reportMessage STATUS_OVERFLOW).reset.buffer = q.buffer ∧
        (q.reportMessage STATUS_OVERFLOW).reset.dispatched = p.dispatched ∧
        (q.reportMessage STATUS_OVERFLOW).reset.serial = p.serial ++
          [SerialEvent.text "error: ", SerialEvent.text "Line overflow",
            SerialEvent.text "\r\n", SerialEvent.text "> "]) ∧
    (∀ r, Parser.listen P atof p (run ++ [t1] ++ L ++ [t2]) = some r →
        ∃ q, Parser.listen P atof p (run ++ [t1]) = some q ∧ q.iter = 0 ∧
          r.dispatched = q.dispatched ++ [lineContent false L]) ∧
    (P.Returns → FiniteAtof atof →
        ∃ r, Parser.listen P atof p (run ++ [t1] ++ L ++ [t2]) = some r) := by
  refine ⟨?_, ?_, ?_⟩
  · -- the first 63 chars
    have hsub : ∀ c ∈ run.take 63, 32 < c ∧ c ≠ 47 ∧ c ≠ 40 :=
      fun c hc => hrun c (List.mem_of_mem_take hc)
    have hlen63 : (run.take 63).length = 63 := by
      rw [List.length_take]
      omega
    have hcont := lineContent_eligible _ hsub
    have hflag := unclosedComment_no_paren (run.take 63) (fun c hc => (hsub c hc).2.2)
    obtain ⟨q, h1, h2, h3, h4, -, -, h7⟩ :=
      Parser.listenLoop_line P atof (run.take 63) (fun c hc => by have := hsub c hc; omega)
        false p (by rw [h0, hcont, List.length_map, hlen63]) (by rw [hbuf])
    rw [hflag] at h1
    rw [h0, hcont, List.length_map, hlen63] at h2
    rw [h0, List.take_zero, List.nil_append, hcont, h2] at h3
    have hser : q.serial = p.serial := h7 (fun c hc => by have := hsub c hc; omega)
    have h64 : run.take 64 = run.take 63 ++ [run[63]] := by
      rw [List.take_succ, List.getElem?_eq_getElem (by omega)]
      rfl
    have hx := hrun run[63] (List.getElem_mem _)
    have hstep : Parser.listenLoop P atof false q [run[63]]
        = some (false, (q.reportMessage STATUS_OVERFLOW).reset) := by
      have hc : ¬ (run[63] = 10 ∨ run[63] = 13) := by omega
      have n1 : ¬ run[63] ≤ 32 := by omega
      simp only [Parser.listenLoop, Parser.listenStep_char P atof false q _ hc,
        Bool.false_eq_true, if_false, if_neg n1, if_neg hx.2.1, if_neg hx.2.2, h2,
        Nat.le_refl, if_true, Option.some_bind]
    refine ⟨q, ?_, h2, hser, h4, h3, ?_, rfl, ?_, ?_, ?_⟩
    · simp only [Parser.listen, h1, Option.map_some']
    · simp only [Parser.listen, h64, Parser.listenLoop_append, h1, Option.some_bind, hstep,
        Option.map_some']
    · exact (Parser.reportMessage_sameLine q STATUS_OVERFLOW).1
    · exact (Parser.reportMessage_sameLine q STATUS_OVERFLOW).2.2.2.trans h4
    · simp [Parser.reportMessage_overflow, Parser.reset, Parser.print, hser]
  · -- the line after the overlong line
    intro r hr
    simp only [Parser.listen, Option.map_eq_some'] at hr
    obtain ⟨r1, hr1, rfl⟩ := hr
    rw [List.append_assoc (run ++ [t1]), Parser.listenLoop_append] at hr1
    simp only [Option.bind_eq_some] at hr1
    obtain ⟨r0, hr0, hr1⟩ := hr1
    have hf : r0.1 = false := by
      rw [Parser.listenLoop_flag P atof _ false p r0 hr0]
      apply unclosedComment_no_paren
      intro c hc
      rcases List.mem_append.1 hc with h | h
      · exact (hrun c h).2.2
      · rw [List.mem_singleton.1 h]
        omega
    have hlen0 := Parser.listenLoop_length P atof _ false p r0 hr0
    have hiter0 : r0.2.iter = 0 := by
      rw [Parser.listenLoop_append] at hr0
      simp only [Option.bind_eq_some] at hr0
      obtain ⟨ra, -, hb⟩ := hr0
      simp only [Parser.listenLoop, Option.bind_eq_some] at hb
      obtain ⟨rb, hb, hc⟩ := hb
      cases hc
      obtain ⟨-, ⟨-, p1, -, e⟩ | ⟨-, e⟩⟩ := Parser.listenStep_eol P atof _ _ t1 ht1 rb hb
      · rw [e]
        rfl
      · rw [e]
        rfl
    rw [hf] at hr1
    obtain ⟨hd, -⟩ := Parser.listenLoop_whole_line P atof r0.2 L t2 r1 hiter0
      (by rw [hlen0, hbuf]) hL ht2 hn hm hr1
    exact ⟨r0.2, by simp only [Parser.listen, hr0, Option.map_some'], hiter0, hd⟩
  · intro hP ha
    exact Parser.listen_returns P atof hP ha p _

/-- An instance: 65 times `X`, a newline, then the line `y`: the line dispatched for it is `Y`. -/
theorem listen_overflow_recovery_witness :
    ∃ r, Parser.listen nullProcessor atofDecimal (Parser.start ())
        (List.replicate 65 88 ++ [10] ++ [121] ++ [10]) = some r ∧
      ∃ q, Parser.listen nullProcessor atofDecimal (Parser.start ())
          (List.replicate 65 88 ++ [10]) = some q ∧ q.iter = 0 ∧
        r.dispatched = q.dispatched ++ [[89]] := by
  have hrun : ∀ c ∈ List.replicate 65 (88 : Int), 32 < c ∧ c ≠ 47 ∧ c ≠ 40 := by
    intro c hc
    rw [List.eq_of_mem_replicate hc]
    decide
  have h := listen_overflow_recovery nullProcessor atofDecimal (Parser.start ())
    (List.replicate 65 88) [121] 10 10 rfl (by simp [Parser.start]) hrun (by simp)
    (Or.inl rfl) (Or.inl rfl) (by decide) (by decide) (by decide)
  obtain ⟨r, hr⟩ := h.2.2 nullProcessor_returns atofDecimal_finite
  obtain ⟨q, hq, hi, hd⟩ := h.2.1 r hr
  exact ⟨r, hr, q, hq, hi, by rw [hd]; rfl⟩

/-! ## Arm: what setPosition keeps, park, feed rate -/

/-- What `setPosition(int,int)` does to the members in every case: the stored position is
the target, the geometry, the offsets and the feed-rate delay stay, and the log gains the
entry of the call followed by servo writes only. -/
theorem ScaraArm.setPosition_frame (arm : ScaraArm) (x y : Int) :
    (arm.setPosition x y)._x = x ∧ (arm.setPosition x y)._y = y ∧
    (arm.setPosition x y)._feedRateDelay = arm._feedRateDelay ∧
    (arm.setPosition x y)._humerus = arm._humerus ∧
    (arm.setPosition x y)._ulna = arm._ulna ∧
    (arm.setPosition x y)._humerusSq = arm._humerusSq ∧
    (arm.setPosition x y)._ulnaSq = arm._ulnaSq ∧
    (arm.setPosition x y)._xOffset = arm._xOffset ∧
    (arm.setPosition x y)._yOffset = arm._yOffset ∧
    ∃ w : List Event, (∀ e ∈ w, ∃ s pw, e = Event.writeMicroseconds s pw) ∧
      (arm.setPosition x y).log = arm.log ++ Event.setPosition x y :: w := by
  by_cases h : arm.outOfRange x y
  · rw [ScaraArm.setPosition_of_outOfRange arm x y h]
    refine ⟨rfl, rfl, rfl, rfl, rfl, rfl, rfl, rfl, rfl, [], ?_, rfl⟩
    intro e he
    cases he
  · have hlog := (ScaraArm.setPosition_of_inRange arm x y h).2.2.1
    refine ⟨?_, ?_, ?_, ?_, ?_, ?_, ?_, ?_, ?_, _, ?_, hlog⟩
    all_goals
      first
      | (unfold ScaraArm.setPosition
         simp only []
         rw [if_neg (fun h' => h ((ScaraArm.outOfRange_saved arm x y x y _).1 h'))]
         rfl)
      | (intro e he
         simp only [List.mem_cons, List.mem_singleton, List.not_mem_nil, or_false] at he
         rcases he with rfl | rfl
         · exact ⟨_, _, rfl⟩
         · exact ⟨_, _, rfl⟩)

/-- C18: whatever the arm state, after park() the getters return the parked coordinate:
getX() is 50 and getY() is 50. -/
theorem park_position (arm : ScaraArm) :
    arm.park.getX = FVal.fin 50 ∧ arm.park.getY = FVal.fin 50 ∧
      arm.park._x = 50 ∧ arm.park._y = 50 := by
  have h := ScaraArm.setPosition_frame arm 50 50
  unfold ScaraArm.park ScaraArm.getX ScaraArm.getY
  rw [h.1, h.2.1]
  simp [FVal.ofInt]

/-- The quotient `f/60000` of a finite feed rate, converted to `int`. -/
theorem ScaraArm.setFeedrate_fin (arm : ScaraArm) (f : ℝ) :
    arm.setFeedrate (FVal.fin f) = some { arm with
      _feedRateDelay := if 0 ≤ f / 60000 then ⌊f / 60000⌋ else ⌈f / 60000⌉ } := by
  have h : (60000 : ℝ) ≠ 0 := by norm_num
  simp only [ScaraArm.setFeedrate, FVal.div, if_neg h, FVal.toInt, Option.map_some']

/-- C14, as stated, fails: after setFeedrate(6000) the stored per-step delay is the int 0,
not 0.1 = 6000/60000. -/
theorem setFeedrate_6000_stores_zero :
    (armEqualBones.setFeedrate (FVal.fin 6000)).map (fun a => a._feedRateDelay) = some 0 ∧
      FVal.div (FVal.fin 6000) (FVal.fin 60000) = FVal.fin (1 / 10) ∧
      FVal.ofInt 0 ≠ FVal.fin (1 / 10) := by
  refine ⟨?_, ?_, ?_⟩
  · rw [ScaraArm.setFeedrate_fin]
    have h : ⌊(6000 : ℝ) / 60000⌋ = 0 := by
      rw [Int.floor_eq_iff]
      norm_num
    have h0 : (0 : ℝ) ≤ 6000 / 60000 := by norm_num
    simp only [Option.map_some', if_pos h0, h]
  · have h : (60000 : ℝ) ≠ 0 := by norm_num
    simp only [FVal.div, if_neg h]
    norm_num
  · intro h
    simp only [FVal.ofInt, Int.cast_zero, FVal.fin.injEq] at h
    norm_num at h

/-! ## Joint: rounding of the pulse width -/

/-- The fti macro on a finite value. -/
theorem fti_fin (v : ℝ) :
    fti (FVal.fin v) = some (if 0 ≤ v then ⌊v + 1 / 2⌋ else ⌈v - 1 / 2⌉) := by
  unfold fti
  by_cases h : 0 ≤ v
  · have hge : FVal.ge (FVal.fin v) (FVal.fin 0) := h
    have h2 : (0 : ℝ) ≤ v + 1 / 2 := by linarith
    rw [if_pos hge, if_pos h]
    simp only [FVal.add, FVal.toInt, if_pos h2]
  · have hge : ¬ FVal.ge (FVal.fin v) (FVal.fin 0) := h
    have h2 : ¬ (0 : ℝ) ≤ v - 1 / 2 := by
      intro h3
      apply h
      linarith
    rw [if_neg hge, if_neg h, FVal.sub_fin]
    simp only [FVal.toInt, if_neg h2]

/-- The value of the fti macro is the rounding half away from zero. -/
theorem fti_isRoundHalfAway (v : ℝ) :
    IsRoundHalfAway v (if 0 ≤ v then ⌊v + 1 / 2⌋ else ⌈v - 1 / 2⌉) := by
  unfold IsRoundHalfAway
  by_cases h : 0 ≤ v
  · rw [if_pos h]
    have h1 := Int.floor_le (v + 1 / 2)
    have h2 := Int.lt_floor_add_one (v + 1 / 2)
    rcases eq_or_lt_of_le h1 with he | hl
    · right
      constructor
      · rw [abs_of_nonneg (by linarith)]
        linarith
      · rw [abs_of_nonneg h, abs_of_nonneg (by linarith)]
        linarith
    · left
      rw [abs_lt]
      constructor <;> linarith
  · rw [if_neg h]
    have hv : v < 0 := lt_of_not_le h
    have h1 := Int.le_ceil (v - 1 / 2)
    have h2 := Int.ceil_lt_add_one (v - 1 / 2)
    rcases eq_or_lt_of_le h1 with he | hl
    · right
      constructor
      · rw [abs_of_nonpos (by linarith)]
        linarith
      · rw [abs_of_neg hv, abs_of_neg (by linarith)]
        linarith
    · left
      rw [abs_lt]
      constructor <;> linarith

/-- Rounding half away from zero determines the integer. -/
theorem IsRoundHalfAway.unique (v : ℝ) (m n : Int) (hm : IsRoundHalfAway v m)
    (hn : IsRoundHalfAway v n) : m = n := by
  have key : ∀ a b : Int, IsRoundHalfAway v a → IsRoundHalfAway v b → ¬ a < b := by
    intro a b ha hb hab
    have hab' : (a : ℝ) + 1 ≤ b := by exact_mod_cast hab
    have ha1 : |(a : ℝ) - v| ≤ 1 / 2 := by
      rcases ha with h | h
      · exact h.le
      · exact h.1.le
    have hb1 : |(b : ℝ) - v| ≤ 1 / 2 := by
      rcases hb with h | h
      · exact h.le
      · exact h.1.le
    rw [abs_le] at ha1 hb1
    have hva : v = a + 1 / 2 := by linarith
    have hvb : (b : ℝ) = a + 1 := by linarith
    have hta : |v| < |(a : ℝ)| := by
      rcases ha with h | h
      · rw [abs_lt] at h
        linarith
      · exact h.2
    have htb : |v| < |(b : ℝ)| := by
      rcases hb with h | h
      · rw [abs_lt] at h
        linarith
      · exact h.2
    rw [hvb] at htb
    rw [hva] at hta htb
    rcases le_or_lt 0 a with h0 | h0
    · have h0' : (0 : ℝ) ≤ a := by exact_mod_cast h0
      rw [abs_of_nonneg (by linarith), abs_of_nonneg h0'] at hta
      linarith
    · have h0' : (a : ℝ) + 1 ≤ 0 := by exact_mod_cast h0
      rw [abs_of_nonpos (by linarith), abs_of_nonpos h0'] at htb
      linarith
  rcases lt_trichotomy m n with h | h | h
  · exact absurd h (key m n hm hn)
  · exact h
  · exact absurd h (key n m hn hm)

/-- C19: for every calibration (center, widthPerRadian) and every angle, both finite,
Joint::setPosition stores the angle and writes to the servo the pulse width center + n, where
n = fti(widthPerRadian * angle) is the rounding half away from zero of the exact product:
the only integer nearest to it, of larger absolute value at a tie.  In particular fti(0.5)
is 1, fti(-0.5) is -1 and fti(-1.5) is -2. -/
theorem joint_pulse_width_rounds_half_away (angle0 : FVal) (center : Int) (servo : Nat)
    (w a : ℝ) :
    ∃ n : Int, IsRoundHalfAway (w * a) n ∧ (∀ m : Int, IsRoundHalfAway (w * a) m → m = n) ∧
      fti (FVal.mul (FVal.fin w) (FVal.fin a)) = some n ∧
      Joint.setPosition ⟨angle0, center, FVal.fin w, servo⟩ (FVal.fin a) =
        (⟨FVal.fin a, center, FVal.fin w, servo⟩,
          Event.writeMicroseconds servo (some (center + n))) ∧
      fti (FVal.fin (1 / 2)) = some 1 ∧ fti (FVal.fin (-(1 / 2))) = some (-1) ∧
      fti (FVal.fin (-(3 / 2))) = some (-2) := by
  refine ⟨_, fti_isRoundHalfAway (w * a),
    fun m hm => IsRoundHalfAway.unique _ _ _ hm (fti_isRoundHalfAway (w * a)), ?_, ?_, ?_, ?_, ?_⟩
  · simp only [FVal.mul, fti_fin]
  · simp only [Joint.setPosition, Joint.pulseWidth, FVal.mul, fti_fin, Option.map_some']
  · rw [fti_fin]
    norm_num
  · rw [fti_fin]
    have h : ¬ (0 : ℝ) ≤ -(1 / 2) := by norm_num
    rw [if_neg h]
    have e : (-(1 / 2) - 1 / 2 : ℝ) = ((-1 : Int) : ℝ) := by norm_num
    rw [e, Int.ceil_intCast]
  · rw [fti_fin]
    have h : ¬ (0 : ℝ) ≤ -(3 / 2) := by norm_num
    rw [if_neg h]
    have e : (-(3 / 2) - 1 / 2 : ℝ) = ((-2 : Int) : ℝ) := by norm_num
    rw [e, Int.ceil_intCast]

/-! ## Arm: the stepped moves -/

theorem FVal.toInt_fin (a : ℝ) : FVal.toInt (FVal.fin a) = some (truncToInt a) := rfl

theorem truncToInt_intCast (n : Int) : truncToInt (n : ℝ) = n := by
  simp only [truncToInt, Int.floor_intCast, Int.ceil_intCast, ite_self]

theorem stepEvents_append (l1 l2 : List Event) :
    stepEvents (l1 ++ l2) = stepEvents l1 ++ stepEvents l2 := by
  simp only [stepEvents, List.filter_append]

theorem stepEvents_writes (w : List Event)
    (hw : ∀ e ∈ w, ∃ s pw, e = Event.writeMicroseconds s pw) : stepEvents w = [] := by
  unfold stepEvents
  rw [List.filter_eq_nil_iff]
  intro e he
  obtain ⟨s, pw, rfl⟩ := hw e he
  simp [Event.isWrite]

/-- One iteration of a move loop: `setPosition(x, y)` and `delay(_feedRateDelay)`. -/
theorem ScaraArm.step_frame (arm : ScaraArm) (x y : Int) :
    (arm.setPosition x y).delay._x = x ∧ (arm.setPosition x y).delay._y = y ∧
    (arm.setPosition x y).delay._feedRateDelay = arm._feedRateDelay ∧
    ∃ ext, (arm.setPosition x y).delay.log = arm.log ++ ext ∧
      stepEvents ext = [Event.setPosition x y, Event.delay arm._feedRateDelay] := by
  obtain ⟨h1, h2, h3, -, -, -, -, -, -, w, hw, hlog⟩ := ScaraArm.setPosition_frame arm x y
  refine ⟨h1, h2, h3, Event.setPosition x y :: w ++ [Event.delay arm._feedRateDelay], ?_, ?_⟩
  · simp only [ScaraArm.delay, hlog, h3, List.append_assoc, List.cons_append]
  · rw [stepEvents_append]
    have e1 : stepEvents (Event.setPosition x y :: w) = [Event.setPosition x y] := by
      have e0 : Event.setPosition x y :: w = [Event.setPosition x y] ++ w := rfl
      rw [e0, stepEvents_append, stepEvents_writes w hw]
      rfl
    rw [e1]
    rfl

/-- The loop of `moveY`, `n` units away from the target in the direction `inc`: it exits
after `n` iterations, at the target. -/
theorem ScaraArm.moveY_loop (inc y : Int) (hinc : inc ≠ 0) : ∀ (n : Nat) (arm : ScaraArm),
    y - arm._y = n * inc →
    ∃ arm', whileLoop (fun a : ScaraArm => a._y ≠ y)
        (fun a => some (a.setPosition a._x (a._y + inc)).delay) arm = some arm' ∧
      arm'._y = y ∧ arm'._x = arm._x ∧ arm'._feedRateDelay = arm._feedRateDelay ∧
      (n = 0 → arm' = arm) ∧
      ∃ ext, arm'.log = arm.log ++ ext ∧
        stepEvents ext = moveYTrace arm._x inc arm._feedRateDelay arm._y n := by
  intro n
  induction n with
  | zero =>
    intro arm h
    have hy : arm._y = y := by
      simp only [Nat.cast_zero, zero_mul] at h
      omega
    refine ⟨arm, ?_, hy, rfl, rfl, fun _ => rfl, [], by simp, rfl⟩
    rw [whileLoop_unfold, if_neg (by simp [hy])]
  | succ n ih =>
    intro arm h
    obtain ⟨s1, s2, s3, ext1, hl1, he1⟩ := ScaraArm.step_frame arm arm._x (arm._y + inc)
    have hne : arm._y ≠ y := by
      intro he
      rw [he, sub_self] at h
      rcases mul_eq_zero.1 h.symm with h1 | h1
      · omega
      · exact hinc h1
    have hrest : y - (arm.setPosition arm._x (arm._y + inc)).delay._y = n * inc := by
      rw [s2]
      push_cast at h
      linarith
    obtain ⟨arm', hw, hy, hx, hd, -, ext2, hl2, he2⟩ := ih _ hrest
    refine ⟨arm', ?_, hy, by rw [hx, s1], by rw [hd, s3], fun h0 => by omega,
      ext1 ++ ext2, by rw [hl2, hl1, List.append_assoc], ?_⟩
    · rw [whileLoop_unfold, if_pos hne, Option.some_bind, hw]
    · rw [stepEvents_append, he1, he2, s1, s2, s3]
      rfl

/-- What `moveY` does: it returns, at the target, after `|y - y0|` iterations. -/
theorem ScaraArm.moveY_spec (arm : ScaraArm) (y : Int) :
    ∃ arm', arm.moveY y = some arm' ∧ arm'._y = y ∧ arm'._x = arm._x ∧
      arm'._feedRateDelay = arm._feedRateDelay ∧ (y = arm._y → arm' = arm) ∧
      ∃ ext, arm'.log = arm.log ++ ext ∧
        stepEvents ext = moveYTrace arm._x (if y > arm._y then 1 else -1) arm._feedRateDelay
          arm._y (y - arm._y).natAbs := by
  have h : y - arm._y = ((y - arm._y).natAbs : Int) * (if y > arm._y then 1 else -1) := by
    split_ifs with hc
    · rw [mul_one, Int.natAbs_of_nonneg (by omega)]
    · rw [mul_neg, mul_one, Int.ofNat_natAbs_of_nonpos (by omega)]
      omega
  obtain ⟨arm', hw, hy, hx, hd, h0, ext, hl, he⟩ :=
    ScaraArm.moveY_loop (if y > arm._y then 1 else -1) y (by split_ifs <;> decide)
      (y - arm._y).natAbs arm h
  refine ⟨arm', hw, hy, hx, hd, fun hyy => h0 (by rw [hyy]; simp), ext, hl, he⟩

theorem moveYTrace_length (x0 inc d : Int) : ∀ (n : Nat) (y0 : Int),
    (moveYTrace x0 inc d y0 n).length = 2 * n := by
  intro n
  induction n with
  | zero => intro y0; rfl
  | succ n ih =>
    intro y0
    simp only [moveYTrace, List.length_cons, ih]
    omega

/-- The entries of the steps of `moveY`: the call number `k + 1` is for the point `k + 1`
units from the start, and a `delay(d)` follows it. -/
theorem moveYTrace_get (x0 inc d : Int) : ∀ (n : Nat) (y0 : Int) (k : Nat), k < n →
    (moveYTrace x0 inc d y0 n)[2 * k]? = some (Event.setPosition x0 (y0 + (k + 1) * inc)) ∧
    (moveYTrace x0 inc d y0 n)[2 * k + 1]? = some (Event.delay d) := by
  intro n
  induction n with
  | zero => intro y0 k hk; omega
  | succ n ih =>
    intro y0 k hk
    cases k with
    | zero =>
      simp only [moveYTrace, Nat.mul_zero, List.getElem?_cons_zero, Nat.cast_zero, zero_add,
        one_mul, List.getElem?_cons_succ, and_self]
    | succ k =>
      obtain ⟨h1, h2⟩ := ih (y0 + inc) k (by omega)
      have e1 : 2 * (k + 1) = (2 * k + 1) + 1 := by omega
      rw [e1]
      simp only [moveYTrace, List.getElem?_cons_succ, h1, h2, and_true]
      push_cast
      congr 2
      ring

theorem movePositionTrace_length (inc d : Int) (s : ℝ) : ∀ (n : Nat) (x0 : Int) (r : ℝ),
    (movePositionTrace inc d s x0 r n).length = 2 * n := by
  intro n
  induction n with
  | zero => intro x0 r; rfl
  | succ n ih =>
    intro x0 r
    simp only [movePositionTrace, List.length_cons, ih]
    omega

/-- The entries of the steps of `movePosition`: the call number `k + 1` is for the column
`k + 1` units from the start, at the accumulator after `k + 1` additions of the slope,
truncated, and a `delay(d)` follows it. -/
theorem movePositionTrace_get (inc d : Int) (s : ℝ) : ∀ (n : Nat) (x0 : Int) (r : ℝ) (k : Nat),
    k < n →
    (movePositionTrace inc d s x0 r n)[2 * k]? =
      some (Event.setPosition (x0 + (k + 1) * inc) (truncToInt (r + (k + 1) * s))) ∧
    (movePositionTrace inc d s x0 r n)[2 * k + 1]? = some (Event.delay d) := by
  intro n
  induction n with
  | zero => intro x0 r k hk; omega
  | succ n ih =>
    intro x0 r k hk
    cases k with
    | zero =>
      simp only [movePositionTrace, Nat.mul_zero, List.getElem?_cons_zero, Nat.cast_zero,
        zero_add, one_mul, List.getElem?_cons_succ, and_self]
    | succ k =>
      obtain ⟨h1, h2⟩ := ih (x0 + inc) (r + s) k (by omega)
      have e1 : 2 * (k + 1) = (2 * k + 1) + 1 := by omega
      rw [e1]
      simp only [movePositionTrace, List.getElem?_cons_succ, h1, h2, and_true]
      push_cast
      have a1 : x0 + inc + ((k : Int) + 1) * inc = x0 + ((k : Int) + 1 + 1) * inc := by ring
      have a2 : r + s + ((k : ℝ) + 1) * s = r + ((k : ℝ) + 1 + 1) * s := by ring
      rw [a1, a2]

/-- The loop of `movePosition`, `n` columns away from the target in the direction `inc`,
with a finite accumulator and a finite slope: it exits after `n` iterations, at the target
column. -/
theorem ScaraArm.movePosition_loop (inc xLimit : Int) (hinc : inc ≠ 0) (s : ℝ) :
    ∀ (n : Nat) (arm : ScaraArm) (r : ℝ), xLimit - arm._x = n * inc →
    ∃ arm', (whileLoop (fun st : ScaraArm × FVal => st.1._x ≠ xLimit)
        (fun st =>
          (FVal.toInt (FVal.add st.2 (FVal.fin s))).map (fun ai =>
            ((st.1.setPosition (st.1._x + inc) ai).delay, FVal.add st.2 (FVal.fin s))))
        (arm, FVal.fin r)).map Prod.fst = some arm' ∧
      arm'._x = xLimit ∧ arm'._feedRateDelay = arm._feedRateDelay ∧
      arm'._y = (if n = 0 then arm._y else truncToInt (r + n * s)) ∧
      ∃ ext, arm'.log = arm.log ++ ext ∧
        stepEvents ext = movePositionTrace inc arm._feedRateDelay s arm._x r n := by
  intro n
  induction n with
  | zero =>
    intro arm r h
    have hx : arm._x = xLimit := by
      simp only [Nat.cast_zero, zero_mul] at h
      omega
    refine ⟨arm, ?_, hx, rfl, by simp, [], by simp, rfl⟩
    rw [whileLoop_unfold, if_neg (by simp [hx])]
    rfl
  | succ n ih =>
    intro arm r h
    obtain ⟨s1, s2, s3, ext1, hl1, he1⟩ :=
      ScaraArm.step_frame arm (arm._x + inc) (truncToInt (r + s))
    have hne : arm._x ≠ xLimit := by
      intro he
      rw [he, sub_self] at h
      rcases mul_eq_zero.1 h.symm with h1 | h1
      · omega
      · exact hinc h1
    have hrest : xLimit - (arm.setPosition (arm._x + inc) (truncToInt (r + s))).delay._x
        = n * inc := by
      rw [s1]
      push_cast at h
      linarith
    obtain ⟨arm', hw, hx, hd, hy, ext2, hl2, he2⟩ := ih _ (r + s) hrest
    refine ⟨arm', ?_, hx, by rw [hd, s3], ?_, ext1 ++ ext2,
      by rw [hl2, hl1, List.append_assoc], ?_⟩
    · rw [whileLoop_unfold, if_pos (show (arm, FVal.fin r).1._x ≠ xLimit from hne)]
      simp only [FVal.add, FVal.toInt_fin, Option.map_some', Option.some_bind]
      exact hw
    · rw [hy, s2, if_neg (Nat.succ_ne_zero n)]
      split_ifs with h0
      · rw [h0]
        simp
      · push_cast
        congr 1
        ring
    · rw [stepEvents_append, he1, he2, s1, s3]
      rfl

theorem ScaraArm.getSlope_fin (arm : ScaraArm) (x y : Int) (hne : x ≠ arm._x) :
    arm.getSlope x y = FVal.fin (((y - arm._y : Int) : ℝ) / ((|x - arm._x| : Int) : ℝ)) := by
  have h : ((|x - arm._x| : Int) : ℝ) ≠ 0 := by
    have : |x - arm._x| ≠ 0 := abs_ne_zero.2 (sub_ne_zero.2 hne)
    exact_mod_cast this
  simp only [ScaraArm.getSlope, FVal.ofInt, FVal.div, if_neg h]

/-- What `movePosition` does when the target column differs from the current one: it
returns, at the target column, after `|xLimit - x0|` iterations. -/
theorem ScaraArm.movePosition_spec (arm : ScaraArm) (x y : FVal) (xLimit yi : Int)
    (hx : FVal.toInt x = some xLimit) (hy : FVal.toInt y = some yi) (hne : xLimit ≠ arm._x) :
    ∃ arm', arm.movePosition x y = some arm' ∧ arm'._x = xLimit ∧
      arm'._feedRateDelay = arm._feedRateDelay ∧
      arm'._y = truncToInt ((arm._y : ℝ) + ((xLimit - arm._x).natAbs : ℝ) *
        (((yi - arm._y : Int) : ℝ) / ((|xLimit - arm._x| : Int) : ℝ))) ∧
      ∃ ext, arm'.log = arm.log ++ ext ∧
        stepEvents ext = movePositionTrace (if xLimit > arm._x then 1 else -1)
          arm._feedRateDelay (((yi - arm._y : Int) : ℝ) / ((|xLimit - arm._x| : Int) : ℝ))
          arm._x (arm._y : ℝ) (xLimit - arm._x).natAbs := by
  have h : xLimit - arm._x
      = ((xLimit - arm._x).natAbs : Int) * (if xLimit > arm._x then 1 else -1) := by
    split_ifs with hc
    · rw [mul_one, Int.natAbs_of_nonneg (by omega)]
    · rw [mul_neg, mul_one, Int.ofNat_natAbs_of_nonpos (by omega)]
      omega
  have hn : (xLimit - arm._x).natAbs ≠ 0 := by
    rw [Ne, Int.natAbs_eq_zero]
    omega
  obtain ⟨arm', hw, h1, h2, h3, ext, h4, h5⟩ :=
    ScaraArm.movePosition_loop (if xLimit > arm._x then 1 else -1) xLimit
      (by split_ifs <;> decide)
      (((yi - arm._y : Int) : ℝ) / ((|xLimit - arm._x| : Int) : ℝ))
      (xLimit - arm._x).natAbs arm (arm._y : ℝ) h
  rw [if_neg hn] at h3
  refine ⟨arm', ?_, h1, h2, h3, ext, h4, h5⟩
  simp only [ScaraArm.movePosition, hx, hy, Option.some_bind, if_neg hne,
    ScaraArm.getSlope_fin arm xLimit yi hne]
  exact hw

/-- C16: for every arm state and every target Y, reachable or not the points on the way,
moveY(targetY) returns; the stored y is then targetY and the stored x is unchanged; it made
exactly |targetY - y0| iterations, the one numbered k + 1 being a call of setPosition for
the point (x0, y0 ± (k + 1)), one more unit toward targetY, followed by a call of
delay(_feedRateDelay). -/
theorem moveY_terminates_at_target (arm : ScaraArm) (targetY : Int) :
    ∃ arm', arm.moveY targetY = some arm' ∧
      arm'.getY = FVal.ofInt targetY ∧ arm'.getX = arm.getX ∧
      ∃ ext, arm'.log = arm.log ++ ext ∧
        (stepEvents ext).length = 2 * (targetY - arm._y).natAbs ∧
        ∀ k : Nat, k < (targetY - arm._y).natAbs →
          (stepEvents ext)[2 * k]? = some (Event.setPosition arm._x
            (arm._y + (k + 1) * (if targetY > arm._y then 1 else -1))) ∧
          (stepEvents ext)[2 * k + 1]? = some (Event.delay arm._feedRateDelay) := by
  obtain ⟨arm', hw, hy, hx, -, -, ext, hl, he⟩ := ScaraArm.moveY_spec arm targetY
  refine ⟨arm', hw, by rw [ScaraArm.getY, hy], by rw [ScaraArm.getX, ScaraArm.getX, hx],
    ext, hl, ?_, ?_⟩
  · rw [he, moveYTrace_length]
  · intro k hk
    rw [he]
    exact moveYTrace_get _ _ _ _ _ k hk

/-- C13: for every arm state with stored position (x0, y0) and every finite target whose
column (int)x differs from x0, movePosition returns with getX() equal to (int)x; it made
exactly |(int)x - x0| steps, the one numbered k + 1 being one call of setPosition for the
column x0 ± (k + 1), one more unit toward the target, followed by one call of
delay(_feedRateDelay). -/
theorem movePosition_steps (arm : ScaraArm) (x y : FVal) (xLimit yi : Int)
    (hx : FVal.toInt x = some xLimit) (hy : FVal.toInt y = some yi) (hne : xLimit ≠ arm._x) :
    ∃ arm', arm.movePosition x y = some arm' ∧ arm'.getX = FVal.ofInt xLimit ∧
      ∃ ext, arm'.log = arm.log ++ ext ∧
        (stepEvents ext).length = 2 * (xLimit - arm._x).natAbs ∧
        ∀ k : Nat, k < (xLimit - arm._x).natAbs →
          (∃ yk, (stepEvents ext)[2 * k]? = some (Event.setPosition
            (arm._x + (k + 1) * (if xLimit > arm._x then 1 else -1)) yk)) ∧
          (stepEvents ext)[2 * k + 1]? = some (Event.delay arm._feedRateDelay) := by
  obtain ⟨arm', hw, h1, -, -, ext, hl, he⟩ := ScaraArm.movePosition_spec arm x y xLimit yi hx hy hne
  refine ⟨arm', hw, by rw [ScaraArm.getX, h1], ext, hl, ?_, ?_⟩
  · rw [he, movePositionTrace_length]
  · intro k hk
    rw [he]
    obtain ⟨g1, g2⟩ := movePositionTrace_get _ _ _ _ _ _ k hk
    exact ⟨⟨_, g1⟩, g2⟩

/-- An instance: from (50, 50) to the column 60, ten units away in x: ten steps. -/
theorem movePosition_steps_witness :
    ∃ arm', armEqualBones.movePosition (FVal.ofInt 60) (FVal.ofInt 50) = some arm' ∧
      arm'.getX = FVal.ofInt 60 ∧
      ∃ ext, arm'.log = armEqualBones.log ++ ext ∧
        (stepEvents ext).length = 2 * (60 - armEqualBones._x).natAbs ∧
        ∀ k : Nat, k < (60 - armEqualBones._x).natAbs →
          (∃ yk, (stepEvents ext)[2 * k]? = some (Event.setPosition
            (armEqualBones._x + (k + 1) * (if 60 > armEqualBones._x then 1 else -1)) yk)) ∧
          (stepEvents ext)[2 * k + 1]? = some (Event.delay armEqualBones._feedRateDelay) :=
  movePosition_steps armEqualBones (FVal.ofInt 60) (FVal.ofInt 50) 60 50
    (FVal.toInt_ofInt 60) (FVal.toInt_ofInt 50) (by decide)

/-- C17: for every arm state with stored position (x0, y0), moveY(y0) and
movePosition(x0, y0, ...) return the arm as it was: no step is made (the log gains no call
of setPosition or delay and no servo write) and the stored position, the joints, the offsets
and the feed-rate delay are unchanged. -/
theorem move_to_current_position_is_identity (arm : ScaraArm) (z a b c : FVal) :
    arm.moveY arm._y = some arm ∧
      arm.movePosition arm.getX arm.getY = some arm ∧
      ScaraArm.processor.movePosition arm (ScaraArm.processor.getX arm)
        (ScaraArm.processor.getY arm) z a b c = some arm := by
  have h1 : arm.moveY arm._y = some arm := by
    obtain ⟨arm', hw, -, -, -, h0, -⟩ := ScaraArm.moveY_spec arm arm._y
    rw [hw, h0 rfl]
  have h2 : arm.movePosition arm.getX arm.getY = some arm := by
    simp only [ScaraArm.movePosition, ScaraArm.getX, ScaraArm.getY, FVal.toInt_ofInt,
      Option.some_bind, if_true, h1]
  exact ⟨h1, h2, h2⟩

theorem stepEvents_mem (l : List Event) (e : Event) (i : Nat)
    (h : (stepEvents l)[i]? = some e) : e ∈ l := by
  have h1 : e ∈ stepEvents l := List.getElem?_mem h
  exact (List.mem_filter.1 h1).1

theorem armAtEdge_next_out : armAtEdge.outOfRange 0 101 := by
  left
  have h : Real.sqrt 10201 = 101 := by
    rw [show (10201 : ℝ) = 101 ^ 2 by norm_num]
    exact Real.sqrt_sq (by norm_num)
  simp [ScaraArm.q, ScaraArm.s_w, ScaraArm.s_w_sqrt, armAtEdge, armEqualBones, ScaraArm.mk0,
    FVal.ofInt, FVal.sqrt, FVal.mul, FVal.div, FVal.gt, FVal.lt, h]
  norm_num

/-- C15, as stated, fails: the arm with bones 50/50 rests at (0, 100), the edge of its reach;
the first point of moveY(102), (0, 101), fails the reachability check, and yet the move makes
its second call of setPosition and ends with the stored y at 102, past that point. -/
theorem moveY_passes_unreachable_point :
    armAtEdge.outOfRange 0 101 ∧
    ∃ arm', armAtEdge.moveY 102 = some arm' ∧ arm'._y = 102 ∧
      stepEvents arm'.log =
        [Event.setPosition 0 101, Event.delay 10, Event.setPosition 0 102, Event.delay 10] := by
  refine ⟨armAtEdge_next_out, ?_⟩
  obtain ⟨arm', hw, hy, -, -, -, ext, hl, he⟩ := ScaraArm.moveY_spec armAtEdge 102
  refine ⟨arm', hw, hy, ?_⟩
  have h0 : armAtEdge.log = [] := rfl
  rw [hl, h0, List.nil_append, he]
  rfl

/-- C15 (amended): a stepped move does not stop at a point that fails the reachability
check.  For every arm state and every target, moveY and movePosition (integer target)
return with the stored position at the target (y for moveY, x for movePosition), and a call
of setPosition was made for every point on the way, reachable or not.  A step to a point
that fails the check leaves the joints as they are and writes no servo, but it advances the
stored position to that point and makes the delay call, and the move goes on. -/
theorem moves_run_through_unreachable_points (arm : ScaraArm) (xt yt : Int) :
    (∃ arm', arm.moveY yt = some arm' ∧ arm'._y = yt ∧
      ∀ k : Nat, k < (yt - arm._y).natAbs →
        Event.setPosition arm._x (arm._y + (k + 1) * (if yt > arm._y then 1 else -1))
          ∈ arm'.log) ∧
    (∃ arm', arm.movePosition (FVal.ofInt xt) (FVal.ofInt yt) = some arm' ∧ arm'._x = xt ∧
      ∀ k : Nat, k < (xt - arm._x).natAbs →
        ∃ yk, Event.setPosition (arm._x + (k + 1) * (if xt > arm._x then 1 else -1)) yk
          ∈ arm'.log) ∧
    (∀ x y : Int, arm.outOfRange x y →
      (arm.setPosition x y).delay = { arm with
        _x := x, _y := y,
        log := arm.log ++ [Event.setPosition x y, Event.delay arm._feedRateDelay] }) := by
  refine ⟨?_, ?_, ?_⟩
  · obtain ⟨arm', hw, hy, -, -, -, ext, hl, he⟩ := ScaraArm.moveY_spec arm yt
    refine ⟨arm', hw, hy, ?_⟩
    intro k hk
    have hg := (moveYTrace_get arm._x (if yt > arm._y then 1 else -1) arm._feedRateDelay
      _ arm._y k hk).1
    rw [← he] at hg
    rw [hl]
    exact List.mem_append_right _ (stepEvents_mem ext _ _ hg)
  · by_cases hne : xt = arm._x
    · obtain ⟨arm', hw, -, hx, -, -, -⟩ := ScaraArm.moveY_spec arm yt
      refine ⟨arm', ?_, by rw [hx, hne], ?_⟩
      · simp only [ScaraArm.movePosition, FVal.toInt_ofInt, Option.some_bind, if_pos hne, hw]
      · intro k hk
        rw [hne, sub_self] at hk
        simp at hk
    · obtain ⟨arm', hw, h1, -, -, ext, hl, he⟩ := ScaraArm.movePosition_spec arm
        (FVal.ofInt xt) (FVal.ofInt yt) xt yt (FVal.toInt_ofInt xt) (FVal.toInt_ofInt yt) hne
      refine ⟨arm', hw, h1, ?_⟩
      intro k hk
      have hg := (movePositionTrace_get (if xt > arm._x then 1 else -1) arm._feedRateDelay
        (((yt - arm._y : Int) : ℝ) / ((|xt - arm._x| : Int) : ℝ)) _ arm._x (arm._y : ℝ) k hk).1
      rw [← he] at hg
      rw [hl]
      exact ⟨_, List.mem_append_right _ (stepEvents_mem ext _ _ hg)⟩
  · intro x y h
    rw [ScaraArm.setPosition_of_outOfRange arm x y h]
    simp only [ScaraArm.delay, List.append_assoc, List.singleton_append]

/-! ## Parser: the responses -/

/-- The report of an error code with a message: `error: `, the message, and the end of
line. -/
theorem Parser.reportMessage_error {σ : Type} (p : Parser σ) (status_code : Int) (msg : String)
    (h0 : status_code ≠ 0) (h14 : status_code ≠ 14)
    (hmsg : Parser.errorText status_code = some msg) :
    (p.reportMessage status_code).serial = p.serial ++
      [SerialEvent.text "error: ", SerialEvent.text msg, SerialEvent.text "\r\n"] := by
  have h14' : ¬ status_code = STATUS_VERSION := h14
  simp only [Parser.reportMessage, if_neg h0, if_neg h14', hmsg, Parser.print,
    List.append_assoc, List.singleton_append]
  rfl

/-- C12, the failing inputs: reportMessage(STATUS_OK) and reportMessage(STATUS_VERSION).
After the text that already ends in CR LF the function prints one more CR LF: the bytes
written are `ok`, CR LF, CR LF, and the version line, CR LF, CR LF.  For an error code the
line ends with one CR LF, as for STATUS_OVERFLOW here. -/
theorem reportMessage_ok_and_version_end_twice {σ : Type} (p : Parser σ) :
    (p.reportMessage STATUS_OK).serial
        = p.serial ++ [SerialEvent.text "ok\r\n", SerialEvent.text "\r\n"] ∧
      textWritten [SerialEvent.text "ok\r\n", SerialEvent.text "\r\n"] = "ok\r\n\r\n" ∧
    (p.reportMessage STATUS_VERSION).serial
        = p.serial ++ [SerialEvent.text "Grbl v0.8c [\x27$\x27 for help]\r\n",
            SerialEvent.text "\r\n"] ∧
      textWritten [SerialEvent.text "Grbl v0.8c [\x27$\x27 for help]\r\n",
          SerialEvent.text "\r\n"] = "Grbl v0.8c [\x27$\x27 for help]\r\n\r\n" ∧
    (p.reportMessage STATUS_OVERFLOW).serial
        = p.serial ++ [SerialEvent.text "error: ", SerialEvent.text "Line overflow",
            SerialEvent.text "\r\n"] ∧
      textWritten [SerialEvent.text "error: ", SerialEvent.text "Line overflow",
          SerialEvent.text "\r\n"] = "error: Line overflow\r\n" := by
  refine ⟨?_, by decide, ?_, by decide, ?_, by decide⟩
  · simp [Parser.reportMessage_ok, Parser.print]
  · simp [Parser.reportMessage_version, Parser.print]
  · simp [Parser.reportMessage_overflow, Parser.print]

/-- C20, the failing input: the two lines `G0 (oops` and `G1 X5`, each with its newline, in
one call of listen.  The comment opened on the first line is still open after the newline:
the chars of the second line are thrown away, its newline finds an empty buffer, and the
only line dispatched is `G0`. -/
theorem listen_comment_runs_over_newline :
    (Parser.listen nullProcessor atofDecimal (Parser.start ())
        [71, 48, 32, 40, 111, 111, 112, 115, 10, 71, 49, 32, 88, 53, 10]).map
      (fun r => (r.dispatched, r.serial, r.iter)) =
    some ([[71, 48]],
      [SerialEvent.text "> ", SerialEvent.text "ok\r\n", SerialEvent.text "\r\n",
        SerialEvent.text "> ", SerialEvent.text "ok\r\n", SerialEvent.text "\r\n",
        SerialEvent.text "> "], 0) := by
  have h1 : Parser.listenLoop nullProcessor atofDecimal false (Parser.start ())
      [71, 48, 32, 40, 111, 111, 112, 115] = some (true,
        { _processor := (), buffer := [71, 48] ++ List.replicate 62 0, iter := 2,
          serial := [SerialEvent.text "> "], dispatched := [], stores := [0, 1] }) := by
    simp [Parser.listenLoop, Parser.listenStep_char, Parser.start, upcase, Parser.store]
  have h2 : Parser.listenStep nullProcessor atofDecimal true
      { _processor := (), buffer := [71, 48] ++ List.replicate 62 0, iter := 2,
        serial := [SerialEvent.text "> "], dispatched := [], stores := [0, 1] } 10 =
      some (true,
        { _processor := (), buffer := [71, 48] ++ List.replicate 62 0, iter := 0,
          serial := [SerialEvent.text "> ", SerialEvent.text "ok\r\n", SerialEvent.text "\r\n",
            SerialEvent.text "> "], dispatched := [[71, 48]], stores := [0, 1, 2] }) := by
    norm_num [Parser.listenStep, Parser.terminate, Parser.processCommand, Parser.getArgument,
      Parser.getArgumentLoop, Parser.cString, atofDecimal, readDigits, Parser.processG,
      Parser.processM, Parser.axisArgs, nullProcessor, FVal.toInt, Int.ceil_neg,
      Parser.reportMessage_ok, Parser.reset, Parser.print]
  have h3 : Parser.listenLoop nullProcessor atofDecimal true
      { _processor := (), buffer := [71, 48] ++ List.replicate 62 0, iter := 0,
        serial := [SerialEvent.text "> ", SerialEvent.text "ok\r\n", SerialEvent.text "\r\n",
          SerialEvent.text "> "], dispatched := [[71, 48]], stores := [0, 1, 2] }
      [71, 49, 32, 88, 53] = some (true,
      { _processor := (), buffer := [71, 48] ++ List.replicate 62 0, iter := 0,
        serial := [SerialEvent.text "> ", SerialEvent.text "ok\r\n", SerialEvent.text "\r\n",
          SerialEvent.text "> "], dispatched := [[71, 48]], stores := [0, 1, 2] }) := by
    simp [Parser.listenLoop, Parser.listenStep_char]
  have e : ([71, 48, 32, 40, 111, 111, 112, 115, 10, 71, 49, 32, 88, 53, 10] : List Int)
      = [71, 48, 32, 40, 111, 111, 112, 115] ++ ([10] ++ ([71, 49, 32, 88, 53] ++ [10])) := rfl
  rw [Parser.listen, e, Parser.listenLoop_append, h1, Option.some_bind,
    Parser.listenLoop_append]
  simp only [Parser.listenLoop, h2, Option.some_bind, Parser.listenLoop_append, h3]
  simp [Parser.listenStep, Parser.reportMessage_ok, Parser.reset, Parser.print]

/-! ## Parser: one status response for a line -/

/-- A dispatch prints no status response and no prompt. -/
theorem Parser.processCommand_serial {σ : Type} (P : GCodeProcessor σ)
    (atof : List Int → FVal) (p : Parser σ) (r : Parser σ × Int)
    (h : Parser.processCommand P atof p = some r) :
    ∃ mid, r.1.serial = p.serial ++ mid ∧ mid.countP SerialEvent.isStatus = 0 ∧
      mid.countP SerialEvent.isPrompt = 0 := by
  have hmap : ∀ (q q1 : Parser σ) (o : Option σ),
      o.map (fun s => { q with _processor := s }) = some q1 → q1.serial = q.serial := by
    intro q q1 o ho
    simp only [Option.map_eq_some'] at ho
    obtain ⟨s, -, rfl⟩ := ho
    rfl
  have hG : ∀ (q q1 : Parser σ) (cmd : Int), Parser.processG P atof q cmd = some q1 →
      ∃ mid, q1.serial = q.serial ++ mid ∧ mid.countP SerialEvent.isStatus = 0 ∧
        mid.countP SerialEvent.isPrompt = 0 := by
    intro q q1 cmd hq
    unfold Parser.processG at hq
    simp only [] at hq
    split_ifs at hq
    · exact ⟨[], by rw [hmap q q1 _ hq, List.append_nil], rfl, rfl⟩
    · exact ⟨[], by rw [hmap q q1 _ hq, List.append_nil], rfl, rfl⟩
    · cases hq
      exact ⟨_, rfl, rfl, rfl⟩
    · exact ⟨[], by rw [hmap q q1 _ hq, List.append_nil], rfl, rfl⟩
    · cases hq
      exact ⟨[], by rw [List.append_nil], rfl, rfl⟩
  have hM : ∀ (q q1 : Parser σ) (cmd : Int), Parser.processM P atof q cmd = some q1 →
      ∃ mid, q1.serial = q.serial ++ mid ∧ mid.countP SerialEvent.isStatus = 0 ∧
        mid.countP SerialEvent.isPrompt = 0 := by
    intro q q1 cmd hq
    unfold Parser.processM at hq
    simp only [] at hq
    split_ifs at hq
    · exact ⟨[], by rw [hmap q q1 _ hq, List.append_nil], rfl, rfl⟩
    · exact ⟨[], by rw [hmap q q1 _ hq, List.append_nil], rfl, rfl⟩
    · cases hq
      refine ⟨_, rfl, ?_, ?_⟩
      · simp [List.countP_cons, SerialEvent.isStatus]
      · simp [List.countP_cons, SerialEvent.isPrompt]
    · exact ⟨[], by rw [hmap q q1 _ hq, List.append_nil], rfl, rfl⟩
    · cases hq
      exact ⟨[], by rw [List.append_nil], rfl, rfl⟩
  unfold Parser.processCommand at h
  simp only [Option.bind_eq_some] at h
  obtain ⟨_, -, p1, h1, cmd, -, p2, h2, _, -, p3, h3, h4⟩ := h
  cases h4
  obtain ⟨m1, e1, a1, b1⟩ := hG p p1 _ h1
  obtain ⟨m3, e3, a3, b3⟩ := hM p2 p3 _ h3
  have e2 : p2.serial = p1.serial := by
    split_ifs at h2
    · exact hmap p1 p2 _ h2
    · cases h2
      rfl
  refine ⟨m1 ++ m3, ?_, ?_, ?_⟩
  · rw [e3, e2, e1, List.append_assoc]
  · rw [List.countP_append, a1, a3]
  · rw [List.countP_append, b1, b3]

/-- One char of a line that has room in the buffer: the loop goes on without overflow, the
room left for the rest of the line is kept, and what is printed, if anything, is the version
line. -/
theorem Parser.listenStep_in_line {σ : Type} (P : GCodeProcessor σ) (atof : List Int → FVal)
    (b : Bool) (p : Parser σ) (c : Int) (cs : List Int) (hc : ¬ (c = 10 ∨ c = 13))
    (hroom : p.iter + (lineContent b (c :: cs)).length ≤ 63) :
    ∃ b1 p1 mid, Parser.listenStep P atof b p c = some (b1, p1) ∧
      p1.iter + (lineContent b1 cs).length ≤ 63 ∧
      p1.serial = p.serial ++ mid ∧ mid.countP SerialEvent.isStatus = 0 ∧
      mid.countP SerialEvent.isPrompt = 0 := by
  rw [Parser.listenStep_char P atof b p c hc]
  cases b with
  | true =>
    simp only [if_true]
    refine ⟨_, p, [], rfl, ?_, by rw [List.append_nil], rfl, rfl⟩
    by_cases h41 : c = 41
    · simpa [lineContent, h41] using hroom
    · simpa [lineContent, h41] using hroom
  | false =>
    simp only [Bool.false_eq_true, if_false]
    by_cases h32 : c ≤ 32
    · have e : lineContent false (c :: cs) = lineContent false cs := by
        simp [lineContent, h32]
      rw [e] at hroom
      simp only [if_pos h32]
      by_cases h24 : c = 24
      · refine ⟨_, _, [SerialEvent.text "Grbl v0.8c [\x27$\x27 for help]\r\n",
          SerialEvent.text "\r\n"], rfl, ?_, ?_, by decide, by decide⟩
        · simpa [h24, (Parser.reportMessage_sameLine p STATUS_VERSION).2.1] using hroom
        · simp [h24, Parser.reportMessage_version, Parser.print]
      · refine ⟨_, _, [], rfl, ?_, ?_, rfl, rfl⟩
        · simpa [h24] using hroom
        · simp [h24]
    · simp only [if_neg h32]
      by_cases h47 : c = 47
      · have e : lineContent false (c :: cs) = lineContent false cs := by
          simp [lineContent, h47]
        rw [e] at hroom
        simp only [if_pos h47]
        exact ⟨_, _, [], rfl, hroom, by rw [List.append_nil], rfl, rfl⟩
      · simp only [if_neg h47]
        by_cases h40 : c = 40
        · have e : lineContent false (c :: cs) = lineContent true cs := by
            simp [lineContent, h40]
          rw [e] at hroom
          simp only [if_pos h40]
          exact ⟨_, _, [], rfl, hroom, by rw [List.append_nil], rfl, rfl⟩
        · have e : lineContent false (c :: cs) = upcase c :: lineContent false cs := by
            simp [lineContent, h32, h47, h40]
          rw [e, List.length_cons] at hroom
          have n3 : ¬ 63 ≤ p.iter := by omega
          simp only [if_neg h40, if_neg n3]
          refine ⟨_, _, [], rfl, ?_, by rw [List.append_nil]; rfl, rfl, rfl⟩
          simp only [Parser.store]
          omega

/-- The chars of a line that has room in the buffer print no status response and no
prompt. -/
theorem Parser.listenLoop_in_line {σ : Type} (P : GCodeProcessor σ) (atof : List Int → FVal)
    (L : List Int) (hL : ∀ c ∈ L, c ≠ 10 ∧ c ≠ 13) : ∀ (b : Bool) (p : Parser σ),
    p.iter + (lineContent b L).length ≤ 63 →
    ∃ b1 q mid, Parser.listenLoop P atof b p L = some (b1, q) ∧
      q.serial = p.serial ++ mid ∧ mid.countP SerialEvent.isStatus = 0 ∧
      mid.countP SerialEvent.isPrompt = 0 := by
  induction L with
  | nil =>
    intro b p _
    exact ⟨b, p, [], rfl, by rw [List.append_nil], rfl, rfl⟩
  | cons c cs ih =>
    intro b p hroom
    have hc : ¬ (c = 10 ∨ c = 13) := by
      have := hL c (by simp)
      omega
    obtain ⟨b1, p1, m1, hs, hr1, e1, a1, c1⟩ :=
      Parser.listenStep_in_line P atof b p c cs hc hroom
    obtain ⟨b2, q, m2, hl, e2, a2, c2⟩ := ih (fun d hd => hL d (by simp [hd])) b1 p1 hr1
    refine ⟨b2, q, m1 ++ m2, ?_, ?_, ?_, ?_⟩
    · simp only [Parser.listenLoop, hs, Option.some_bind, hl]
    · rw [e2, e1, List.append_assoc]
    · rw [List.countP_append, a1, a2]
    · rw [List.countP_append, c1, c2]

/-- The end of a line: `ok`, the end of line and the prompt are printed after what the
dispatch printed, which holds no status response and no prompt. -/
theorem Parser.listenStep_eol_serial {σ : Type} (P : GCodeProcessor σ)
    (atof : List Int → FVal) (b : Bool) (p : Parser σ) (c : Int) (hc : c = 10 ∨ c = 13)
    (r : Bool × Parser σ) (h : Parser.listenStep P atof b p c = some r) :
    ∃ mid, r.2.serial = p.serial ++ mid ++
        [SerialEvent.text "ok\r\n", SerialEvent.text "\r\n", SerialEvent.text "> "] ∧
      mid.countP SerialEvent.isStatus = 0 ∧ mid.countP SerialEvent.isPrompt = 0 := by
  obtain ⟨-, ⟨-, p1, h1, hr⟩ | ⟨-, hr⟩⟩ := Parser.listenStep_eol P atof b p c hc r h
  · obtain ⟨mid, e, a1, a2⟩ := Parser.processCommand_serial P atof _ _ h1
    refine ⟨mid, ?_, a1, a2⟩
    have e0 : p.terminate.serial = p.serial := rfl
    rw [hr, Parser.reportMessage_ok]
    simp only [Parser.reset, Parser.print, List.append_assoc, List.singleton_append]
    simp only [] at e
    rw [e, e0, List.append_assoc]
    rfl
  · refine ⟨[], ?_, rfl, rfl⟩
    rw [hr, Parser.reportMessage_ok]
    simp [Parser.reset, Parser.print]

/-- The 64th eligible char of a line: from an empty buffer of 64 cells and outside a comment,
63 eligible chars and one more leave the parser reset, with `error: Line overflow` and a
prompt printed. -/
theorem Parser.listenLoop_fill_overflow {σ : Type} (P : GCodeProcessor σ)
    (atof : List Int → FVal) (p : Parser σ) (run : List Int) (c : Int)
    (h0 : p.iter = 0) (hbuf : 64 ≤ p.buffer.length)
    (hrun : ∀ d ∈ run, 32 < d ∧ d ≠ 47 ∧ d ≠ 40) (hlen : run.length = 63)
    (hc : 32 < c ∧ c ≠ 47 ∧ c ≠ 40) :
    ∃ q : Parser σ, Parser.listenLoop P atof false p (run ++ [c]) =
        some (false, (q.reportMessage STATUS_OVERFLOW).reset) ∧
      q.serial = p.serial ∧ q.dispatched = p.dispatched := by
  have hcont := lineContent_eligible run hrun
  have hflag := unclosedComment_no_paren run (fun d hd => (hrun d hd).2.2)
  obtain ⟨q, h1, h2, -, h4, -, -, h7⟩ :=
    Parser.listenLoop_line P atof run (fun d hd => by have := hrun d hd; omega)
      false p (by rw [h0, hcont, List.length_map, hlen]) hbuf
  rw [hflag] at h1
  rw [h0, hcont, List.length_map, hlen] at h2
  have hser : q.serial = p.serial := h7 (fun d hd => by have := hrun d hd; omega)
  refine ⟨q, ?_, hser, h4⟩
  have hc' : ¬ (c = 10 ∨ c = 13) := by omega
  have n1 : ¬ c ≤ 32 := by omega
  rw [Parser.listenLoop_append, h1, Option.some_bind]
  simp only [Parser.listenLoop, Parser.listenStep_char P atof false q _ hc',
    Bool.false_eq_true, if_false, if_neg n1, if_neg hc.2.1, if_neg hc.2.2, h2,
    Nat.le_refl, if_true, Option.some_bind]

/-- C11, as stated, fails: one line of 64 times `X` and its newline is answered by two status
responses, `error: Line overflow` at the 64th char and `ok` at the newline, each followed
by a prompt; nothing is dispatched. -/
theorem overlong_line_gets_two_responses :
    ∃ r, Parser.listen nullProcessor atofDecimal (Parser.start ())
        (List.replicate 64 88 ++ [10]) = some r ∧
      r.serial = [SerialEvent.text "> ", SerialEvent.text "error: ",
        SerialEvent.text "Line overflow", SerialEvent.text "\r\n", SerialEvent.text "> ",
        SerialEvent.text "ok\r\n", SerialEvent.text "\r\n", SerialEvent.text "> "] ∧
      r.serial.countP SerialEvent.isStatus = 2 ∧ r.dispatched = [] := by
  have hrun : ∀ d ∈ List.replicate 63 (88 : Int), 32 < d ∧ d ≠ 47 ∧ d ≠ 40 := by
    intro d hd
    rw [List.eq_of_mem_replicate hd]
    decide
  obtain ⟨q, hq, hs, hd⟩ := Parser.listenLoop_fill_overflow nullProcessor atofDecimal
    (Parser.start ()) (List.replicate 63 88) 88 rfl (by simp [Parser.start]) hrun (by simp)
    (by decide)
  have e : (List.replicate 64 88 : List Int) = List.replicate 63 88 ++ [88] :=
    List.replicate_succ' 63 88
  have hstep : Parser.listenStep nullProcessor atofDecimal false
      (q.reportMessage STATUS_OVERFLOW).reset 10 =
      some (false, (((q.reportMessage STATUS_OVERFLOW).reset).reportMessage STATUS_OK).reset) := by
    unfold Parser.listenStep
    rw [if_pos (Or.inl rfl), if_neg (show ¬ (q.reportMessage STATUS_OVERFLOW).reset.iter > 0
      from Nat.lt_irrefl 0)]
    rfl
  refine ⟨(((q.reportMessage STATUS_OVERFLOW).reset).reportMessage STATUS_OK).reset,
    ?_, ?_, ?_, ?_⟩
  · rw [Parser.listen, e, Parser.listenLoop_append, hq, Option.some_bind]
    simp only [Parser.listenLoop, hstep, Option.some_bind, Option.map_some']
  · simp [Parser.reportMessage_ok, Parser.reportMessage_overflow, Parser.reset, Parser.print,
      hs, Parser.start]
  · simp [Parser.reportMessage_ok, Parser.reportMessage_overflow, Parser.reset, Parser.print,
      hs, Parser.start, List.countP_cons, SerialEvent.isStatus]
  · have h1 := (Parser.reportMessage_sameLine q STATUS_OVERFLOW).2.2.2
    have h2 := (Parser.reportMessage_sameLine (q.reportMessage STATUS_OVERFLOW).reset
      STATUS_OK).2.2.2
    have h3 : (((q.reportMessage STATUS_OVERFLOW).reset).reportMessage STATUS_OK).reset.dispatched
        = q.dispatched := h2.trans h1
    rw [h3, hd]
    rfl

/-- C11 (amended): a line whose content has room in the buffer (no line terminator inside,
at most 63 chars of content together with what the buffer holds) gets exactly one status
response: whenever listen returns on the line and its terminator, what it printed is some
output without status response and without prompt, then `ok`, the end of line and the
prompt; and listen returns when the processor does.  A line without room is answered once
more at each overflow: an eligible char met with the cursor at 63 prints
`error: Line overflow`, the end of line and a prompt. -/
theorem line_with_room_gets_one_status {σ : Type} (P : GCodeProcessor σ)
    (atof : List Int → FVal) (b : Bool) (p : Parser σ) (L : List Int) (t : Int)
    (hL : ∀ c ∈ L, c ≠ 10 ∧ c ≠ 13) (ht : t = 10 ∨ t = 13)
    (hroom : p.iter + (lineContent b L).length ≤ 63) :
    (∀ r, Parser.listenLoop P atof b p (L ++ [t]) = some r →
      ∃ mid, r.2.serial = p.serial ++ mid ++
          [SerialEvent.text "ok\r\n", SerialEvent.text "\r\n", SerialEvent.text "> "] ∧
        mid.countP SerialEvent.isStatus = 0 ∧ mid.countP SerialEvent.isPrompt = 0) ∧
    (P.Returns → FiniteAtof atof → ∃ r, Parser.listenLoop P atof b p (L ++ [t]) = some r) ∧
    (∀ (q : Parser σ) (c : Int), 32 < c → c ≠ 47 → c ≠ 40 → 63 ≤ q.iter →
      (Parser.listenStep P atof false q c).map (fun x => x.2.serial) =
        some (q.serial ++ [SerialEvent.text "error: ", SerialEvent.text "Line overflow",
          SerialEvent.text "\r\n", SerialEvent.text "> "])) := by
  refine ⟨?_, ?_, ?_⟩
  · intro r hr
    obtain ⟨b1, q, m1, hl, e1, a1, c1⟩ := Parser.listenLoop_in_line P atof L hL b p hroom
    rw [Parser.listenLoop_append, hl, Option.some_bind] at hr
    simp only [Parser.listenLoop, Option.bind_eq_some] at hr
    obtain ⟨r1, hr1, hr2⟩ := hr
    cases hr2
    obtain ⟨m2, e2, a2, c2⟩ := Parser.listenStep_eol_serial P atof b1 q t ht r1 hr1
    refine ⟨m1 ++ m2, ?_, ?_, ?_⟩
    · rw [e2, e1]
      simp only [List.append_assoc]
    · rw [List.countP_append, a1, a2]
    · rw [List.countP_append, c1, c2]
  · intro hP ha
    exact Parser.listenLoop_returns P atof hP ha _ b p
  · intro q c h32 h47 h40 h63
    have hc : ¬ (c = 10 ∨ c = 13) := by omega
    have n1 : ¬ c ≤ 32 := by omega
    rw [Parser.listenStep_char P atof false q c hc]
    simp only [Bool.false_eq_true, if_false, if_neg n1, if_neg h47, if_neg h40, if_pos h63,
      Option.map_some']
    simp [Parser.reportMessage_overflow, Parser.reset, Parser.print]

/-- An instance: the line `y` and its newline, from a started parser. -/
theorem line_with_room_gets_one_status_witness :
    ∃ r, Parser.listenLoop nullProcessor atofDecimal false (Parser.start ()) ([121] ++ [10])
        = some r ∧
      ∃ mid, r.2.serial = (Parser.start ()).serial ++ mid ++
          [SerialEvent.text "ok\r\n", SerialEvent.text "\r\n", SerialEvent.text "> "] ∧
        mid.countP SerialEvent.isStatus = 0 ∧ mid.countP SerialEvent.isPrompt = 0 := by
  have h := line_with_room_gets_one_status nullProcessor atofDecimal false (Parser.start ())
    [121] 10 (by decide) (Or.inl rfl) (by decide)
  obtain ⟨r, hr⟩ := h.2.1 nullProcessor_returns atofDecimal_finite
  exact ⟨r, hr, h.1 r hr⟩

/-! ## Arm: the feed rate as documented -/

/-- C21, the failing input: setFeedrate(6000).  The comment of the function gives the delay
as the constant 60000 divided by the feed rate, 10 here; the code stores 6000/60000
converted to int, 0.  And the stored delay grows with the feed rate: 1 for 60000, 2 for
120000. -/
theorem setFeedrate_divides_the_wrong_way (arm : ScaraArm) :
    (arm.setFeedrate (FVal.fin 6000)).map (fun a => a._feedRateDelay) = some 0 ∧
      FVal.div (FVal.fin 60000) (FVal.fin 6000) = FVal.fin 10 ∧
      (arm.setFeedrate (FVal.fin 60000)).map (fun a => a._feedRateDelay) = some 1 ∧
      (arm.setFeedrate (FVal.fin 120000)).map (fun a => a._feedRateDelay) = some 2 := by
  have e0 : ⌊(6000 : ℝ) / 60000⌋ = 0 := by
    rw [Int.floor_eq_iff]
    norm_num
  have e1 : ⌊(60000 : ℝ) / 60000⌋ = 1 := by
    rw [Int.floor_eq_iff]
    norm_num
  have e2 : ⌊(120000 : ℝ) / 60000⌋ = 2 := by
    rw [Int.floor_eq_iff]
    norm_num
  have p0 : (0 : ℝ) ≤ 6000 / 60000 := by norm_num
  have p1 : (0 : ℝ) ≤ 60000 / 60000 := by norm_num
  have p2 : (0 : ℝ) ≤ 120000 / 60000 := by norm_num
  refine ⟨?_, ?_, ?_, ?_⟩
  · simp only [ScaraArm.setFeedrate_fin, Option.map_some', if_pos p0, e0]
  · have h : (6000 : ℝ) ≠ 0 := by norm_num
    simp only [FVal.div, if_neg h]
    norm_num
  · simp only [ScaraArm.setFeedrate_fin, Option.map_some', if_pos p1, e1]
  · simp only [ScaraArm.setFeedrate_fin, Option.map_some', if_pos p2, e2]

/-! ## Kinematics: the elbow on an accepted target -/

/-- The elbow with exact arithmetic: for a constructed arm with h, u > 0 and a target at
post-offset distance d > 0 that passes the reachability check, q is a finite value in
[-1, 1], the argument of the second acos is a finite value r in [-1, 1], and
setPosition(int,int) sets both joints: the shoulder to a finite angle and the elbow to the
finite angle PI - acos(r), which lies in [0, PI]; the log gains the call and the two servo
writes. -/
theorem setPosition_accepted_sets_both_joints (arm : ScaraArm) (x y : Int)
    (hc : arm.Constructed) (hh : 0 < arm._humerus) (hu : 0 < arm._ulna)
    (hd : 0 < Real.sqrt (((x + arm._xOffset) * (x + arm._xOffset)
      + (y + arm._yOffset) * (y + arm._yOffset) : Int) : ℝ))
    (hin : ¬ arm.outOfRange x y) :
    ∃ qv r s e : ℝ,
      arm.q x y = FVal.fin qv ∧ -1 ≤ qv ∧ qv ≤ 1 ∧
      arm.elbowCos x y = FVal.fin r ∧ -1 ≤ r ∧ r ≤ 1 ∧
      (arm.setPosition x y)._shoulder.getPosition = FVal.fin s ∧
      (arm.setPosition x y)._elbow.getPosition = FVal.fin e ∧
      e = Real.pi - Real.arccos r ∧ 0 ≤ e ∧ e ≤ Real.pi ∧
      (arm.setPosition x y).log = arm.log ++
        [Event.setPosition x y,
         Event.writeMicroseconds arm._shoulder._servo (arm._shoulder.pulseWidth (FVal.fin s)),
         Event.writeMicroseconds arm._elbow._servo (arm._elbow.pulseWidth (FVal.fin e))] := by
  have hsw : arm.s_w x y = (x + arm._xOffset) * (x + arm._xOffset)
      + (y + arm._yOffset) * (y + arm._yOffset) := rfl
  rw [← hsw] at hd
  have hs0 : arm.s_w x y ≠ 0 := by
    intro h0
    rw [h0] at hd
    simp at hd
  have hann := hin
  rw [ScaraArm.outOfRange_iff arm x y hc hh hu hs0] at hann
  push_neg at hann
  obtain ⟨hhi, hlo⟩ := hann
  have hs : (0 : ℝ) ≤ ((arm.s_w x y : Int) : ℝ) := by exact_mod_cast arm.s_w_nonneg x y
  have hh' : (0 : ℝ) < (arm._humerus : ℝ) := by exact_mod_cast hh
  have hu' : (0 : ℝ) < (arm._ulna : ℝ) := by exact_mod_cast hu
  have hdef : Real.sqrt ((arm.s_w x y : Int) : ℝ)
      = Real.sqrt (((x + arm._xOffset : Int) : ℝ) * ((x + arm._xOffset : Int) : ℝ)
        + ((y + arm._yOffset : Int) : ℝ) * ((y + arm._yOffset : Int) : ℝ)) := by
    rw [hsw]
    push_cast
    rfl
  obtain ⟨q1, q2, r1, r2, -, -⟩ := two_link_roundtrip (arm._humerus : ℝ) (arm._ulna : ℝ)
    ((x + arm._xOffset : Int) : ℝ) ((y + arm._yOffset : Int) : ℝ)
    (Real.sqrt ((arm.s_w x y : Int) : ℝ)) hh' hu' hdef hd hlo hhi
  rw [Real.mul_self_sqrt hs] at q1 q2 r1 r2
  have hq : arm.q x y = FVal.fin (((arm._humerus : ℝ) * arm._humerus - arm._ulna * arm._ulna
      + ((arm.s_w x y : Int) : ℝ)) / (2 * arm._humerus * Real.sqrt ((arm.s_w x y : Int) : ℝ))) := by
    rw [ScaraArm.q_finite arm x y hh hs0, hc.1, hc.2]
    push_cast
    rfl
  have hr : arm.elbowCos x y = FVal.fin (((arm._humerus : ℝ) * arm._humerus
      + arm._ulna * arm._ulna - ((arm.s_w x y : Int) : ℝ)) / (2 * arm._humerus * arm._ulna)) := by
    have hden : 2 * (arm._humerus : ℝ) * arm._ulna ≠ 0 := (mul_pos (mul_pos two_pos hh') hu').ne'
    simp only [ScaraArm.elbowCos, FVal.ofInt, FVal.mul, FVal.div, if_neg hden, hc.1, hc.2]
    push_cast
    rfl
  obtain ⟨hsh, hel, hlog, -, -⟩ := ScaraArm.setPosition_of_inRange arm x y hin
  have hsv : FVal.sub (arm.a1 x y) (FVal.acos (arm.q x y)) = FVal.fin
      (Complex.arg ⟨((x + arm._xOffset : Int) : ℝ), ((y + arm._yOffset : Int) : ℝ)⟩
        - Real.arccos (((arm._humerus : ℝ) * arm._humerus - arm._ulna * arm._ulna
          + ((arm.s_w x y : Int) : ℝ)) /
            (2 * arm._humerus * Real.sqrt ((arm.s_w x y : Int) : ℝ)))) := by
    rw [hq, FVal.acos_fin _ q1 q2]
    exact FVal.sub_fin _ _
  have hev : FVal.sub (FVal.sub ScaraArm.FULL_ROTATION (FVal.acos (arm.elbowCos x y)))
      ScaraArm.STRAIGHT_ANGLE = FVal.fin (2 * Real.pi - Real.arccos
        (((arm._humerus : ℝ) * arm._humerus + arm._ulna * arm._ulna
          - ((arm.s_w x y : Int) : ℝ)) / (2 * arm._humerus * arm._ulna)) - Real.pi) := by
    rw [hr, FVal.acos_fin _ r1 r2]
    simp only [ScaraArm.FULL_ROTATION, ScaraArm.STRAIGHT_ANGLE, FVal.pi, FVal.mul, FVal.sub_fin]
  refine ⟨_, _, _, _, hq, q1, q2, hr, r1, r2, hsh.trans hsv, hel.trans hev, by ring, ?_, ?_, ?_⟩
  · have := Real.arccos_le_pi (((arm._humerus : ℝ) * arm._humerus + arm._ulna * arm._ulna
      - ((arm.s_w x y : Int) : ℝ)) / (2 * arm._humerus * arm._ulna))
    linarith
  · have := Real.arccos_nonneg (((arm._humerus : ℝ) * arm._humerus + arm._ulna * arm._ulna
      - ((arm.s_w x y : Int) : ℝ)) / (2 * arm._humerus * arm._ulna))
    linarith
  · rw [hlog, hsv, hev]

theorem armEqualBones_near_in : ¬ armEqualBones.outOfRange 50 0 := by
  have hd : Real.sqrt ((armEqualBones.s_w 50 0 : Int) : ℝ) = 50 := armEqualBones_near_dist
  rw [ScaraArm.outOfRange_iff armEqualBones 50 0 ⟨rfl, rfl⟩ (by decide) (by decide) (by decide),
    hd]
  simp [armEqualBones, ScaraArm.mk0]

/-- An instance: the arm with bones 50/50 and the accepted target (50, 0). -/
theorem setPosition_accepted_sets_both_joints_witness :
    ∃ qv r s e : ℝ,
      armEqualBones.q 50 0 = FVal.fin qv ∧ -1 ≤ qv ∧ qv ≤ 1 ∧
      armEqualBones.elbowCos 50 0 = FVal.fin r ∧ -1 ≤ r ∧ r ≤ 1 ∧
      (armEqualBones.setPosition 50 0)._shoulder.getPosition = FVal.fin s ∧
      (armEqualBones.setPosition 50 0)._elbow.getPosition = FVal.fin e ∧
      e = Real.pi - Real.arccos r ∧ 0 ≤ e ∧ e ≤ Real.pi ∧
      (armEqualBones.setPosition 50 0).log = armEqualBones.log ++
        [Event.setPosition 50 0,
         Event.writeMicroseconds armEqualBones._shoulder._servo
           (armEqualBones._shoulder.pulseWidth (FVal.fin s)),
         Event.writeMicroseconds armEqualBones._elbow._servo
           (armEqualBones._elbow.pulseWidth (FVal.fin e))] :=
  setPosition_accepted_sets_both_joints armEqualBones 50 0 ⟨rfl, rfl⟩ (by decide) (by decide)
    (by rw [armEqualBones_near_dist]; norm_num) armEqualBones_near_in

/-! ## Arm: closed form of the interpolation -/

theorem truncToInt_abs_sub_lt (a : ℝ) : |(truncToInt a : ℝ) - a| < 1 := by
  unfold truncToInt
  rw [abs_lt]
  split_ifs
  · have h1 := Int.floor_le a
    have h2 := Int.lt_floor_add_one a
    constructor <;> linarith
  · have h1 := Int.le_ceil a
    have h2 := Int.ceil_lt_add_one a
    constructor <;> linarith

theorem Int.sign_sub_eq_ite (a b : Int) (h : a ≠ b) :
    (if a > b then (1 : Int) else -1) = Int.sign (a - b) := by
  split_ifs with hc
  · rw [Int.sign_eq_one_of_pos (by omega)]
  · rw [Int.sign_eq_neg_one_of_neg (by omega)]

/-- C22: with exact arithmetic, for every arm state with stored position (x0, y0) and every
integer target (xt, yt) with xt different from x0, movePosition returns with the stored
position exactly (xt, yt); it makes |xt - x0| steps, and the step numbered k + 1 calls
setPosition, which stores its arguments as the position, for the point
(x0 + (k + 1) sign(xt - x0), trunc(y0 + (k + 1) (yt - y0)/|xt - x0|)), trunc rounding toward
zero; the y of that point is less than one unit away from the straight line. -/
theorem movePosition_closed_form (arm : ScaraArm) (xt yt : Int) (hne : xt ≠ arm._x) :
    ∃ arm', arm.movePosition (FVal.ofInt xt) (FVal.ofInt yt) = some arm' ∧
      arm'._x = xt ∧ arm'._y = yt ∧
      ∃ ext, arm'.log = arm.log ++ ext ∧
        (stepEvents ext).length = 2 * (xt - arm._x).natAbs ∧
        (∀ k : Nat, k < (xt - arm._x).natAbs →
          (stepEvents ext)[2 * k]? = some (Event.setPosition
            (arm._x + (k + 1) * Int.sign (xt - arm._x))
            (truncToInt ((arm._y : ℝ) + (k + 1) * (((yt : ℝ) - arm._y) / |(xt : ℝ) - arm._x|)))) ∧
          |(truncToInt ((arm._y : ℝ) + (k + 1) * (((yt : ℝ) - arm._y) / |(xt : ℝ) - arm._x|)) : ℝ)
            - ((arm._y : ℝ) + (k + 1) * (((yt : ℝ) - arm._y) / |(xt : ℝ) - arm._x|))| < 1) ∧
        (∀ (a : ScaraArm) (x y : Int),
          (a.setPosition x y).delay._x = x ∧ (a.setPosition x y).delay._y = y) := by
  obtain ⟨arm', hw, h1, -, h3, ext, hl, he⟩ := ScaraArm.movePosition_spec arm
    (FVal.ofInt xt) (FVal.ofInt yt) xt yt (FVal.toInt_ofInt xt) (FVal.toInt_ofInt yt) hne
  have hslope : ((yt - arm._y : Int) : ℝ) / ((|xt - arm._x| : Int) : ℝ)
      = ((yt : ℝ) - arm._y) / |(xt : ℝ) - arm._x| := by
    push_cast
    rfl
  have hnz : ((|xt - arm._x| : Int) : ℝ) ≠ 0 := by
    have : |xt - arm._x| ≠ 0 := abs_ne_zero.2 (sub_ne_zero.2 hne)
    exact_mod_cast this
  have hn : (((xt - arm._x).natAbs : Nat) : ℝ) = ((|xt - arm._x| : Int) : ℝ) := by
    have h0 : (((xt - arm._x).natAbs : Nat) : Int) = |xt - arm._x| :=
      (Int.abs_eq_natAbs (xt - arm._x)).symm
    rw [← h0]
    exact (Int.cast_natCast _).symm
  refine ⟨arm', hw, h1, ?_, ext, hl, ?_, ?_, ?_⟩
  · rw [h3, hn, mul_div_cancel₀ _ hnz]
    have e : (arm._y : ℝ) + ((yt - arm._y : Int) : ℝ) = ((yt : Int) : ℝ) := by
      push_cast
      ring
    rw [e, truncToInt_intCast]
  · rw [he, movePositionTrace_length]
  · intro k hk
    refine ⟨?_, truncToInt_abs_sub_lt _⟩
    rw [he, ← hslope, ← Int.sign_sub_eq_ite xt arm._x hne]
    exact (movePositionTrace_get _ _ _ _ _ _ k hk).1
  · intro a x y
    exact ⟨(ScaraArm.step_frame a x y).1, (ScaraArm.step_frame a x y).2.1⟩

/-- An instance: from (50, 50) to (60, 55). -/
theorem movePosition_closed_form_witness :
    ∃ arm', armEqualBones.movePosition (FVal.ofInt 60) (FVal.ofInt 55) = some arm' ∧
      arm'._x = 60 ∧ arm'._y = 55 :=
  let ⟨arm', h1, h2, h3, _⟩ := movePosition_closed_form armEqualBones 60 55 (by decide)
  ⟨arm', h1, h2, h3⟩

/-! ## Arm: the stored delay and the moves -/

theorem stepEvents_delay (l : List Event) (ms : Int) (h : Event.delay ms ∈ l) :
    Event.delay ms ∈ stepEvents l := by
  unfold stepEvents
  rw [List.mem_filter]
  exact ⟨h, rfl⟩

theorem moveYTrace_delay (x0 inc d ms : Int) : ∀ (n : Nat) (y0 : Int),
    Event.delay ms ∈ moveYTrace x0 inc d y0 n → ms = d := by
  intro n
  induction n with
  | zero =>
    intro y0 h
    simp [moveYTrace] at h
  | succ n ih =>
    intro y0 h
    simp only [moveYTrace, List.mem_cons, Event.delay.injEq, reduceCtorEq, false_or] at h
    rcases h with h | h
    · exact h
    · exact ih _ h

theorem movePositionTrace_delay (inc d ms : Int) (s : ℝ) : ∀ (n : Nat) (x0 : Int) (r : ℝ),
    Event.delay ms ∈ movePositionTrace inc d s x0 r n → ms = d := by
  intro n
  induction n with
  | zero =>
    intro x0 r h
    simp [movePositionTrace] at h
  | succ n ih =>
    intro x0 r h
    simp only [movePositionTrace, List.mem_cons, Event.delay.injEq, reduceCtorEq, false_or] at h
    rcases h with h | h
    · exact h
    · exact ih _ _ h

/-- Every call of `delay` made by `moveY` or by `movePosition` waits for the stored
`_feedRateDelay`, which the move leaves as it is. -/
theorem ScaraArm.moves_wait_stored_delay (arm : ScaraArm) :
    (∀ y : Int, ∃ arm', arm.moveY y = some arm' ∧ arm'._feedRateDelay = arm._feedRateDelay ∧
      ∃ ext, arm'.log = arm.log ++ ext ∧
        ∀ ms, Event.delay ms ∈ ext → ms = arm._feedRateDelay) ∧
    (∀ x y : ℝ, ∃ arm', arm.movePosition (FVal.fin x) (FVal.fin y) = some arm' ∧
      arm'._feedRateDelay = arm._feedRateDelay ∧
      ∃ ext, arm'.log = arm.log ++ ext ∧
        ∀ ms, Event.delay ms ∈ ext → ms = arm._feedRateDelay) := by
  have hY : ∀ y : Int, ∃ arm', arm.moveY y = some arm' ∧
      arm'._feedRateDelay = arm._feedRateDelay ∧
      ∃ ext, arm'.log = arm.log ++ ext ∧
        ∀ ms, Event.delay ms ∈ ext → ms = arm._feedRateDelay := by
    intro y
    obtain ⟨arm', hw, -, -, hd, -, ext, hl, he⟩ := ScaraArm.moveY_spec arm y
    refine ⟨arm', hw, hd, ext, hl, ?_⟩
    intro ms hms
    have h := stepEvents_delay ext ms hms
    rw [he] at h
    exact moveYTrace_delay _ _ _ _ _ _ h
  refine ⟨hY, ?_⟩
  intro x y
  by_cases hx : truncToInt x = arm._x
  · obtain ⟨arm', hw, hd, ext, hl, he⟩ := hY (truncToInt y)
    refine ⟨arm', ?_, hd, ext, hl, he⟩
    simp only [ScaraArm.movePosition, FVal.toInt_fin, Option.some_bind, hx, if_true, hw]
  · obtain ⟨arm', hw, -, hd, -, ext, hl, he⟩ := ScaraArm.movePosition_spec arm
      (FVal.fin x) (FVal.fin y) (truncToInt x) (truncToInt y) (FVal.toInt_fin x)
      (FVal.toInt_fin y) hx
    refine ⟨arm', hw, hd, ext, hl, ?_⟩
    intro ms hms
    have h := stepEvents_delay ext ms hms
    rw [he] at h
    exact movePositionTrace_delay _ _ _ _ _ _ _ h

/-- C14 (amended): for every finite feed rate f, setFeedrate(f) returns, stores a whole
number of milliseconds in the int member `_feedRateDelay`, never the fraction 0.1, and changes
nothing else; the stored value is the per-step delay of moveY and movePosition: every call of
delay they make afterwards waits for exactly that value.  Which whole number is stored for a
given f is not part of this statement. -/
theorem setFeedrate_stores_whole_delay (arm : ScaraArm) (f : ℝ) :
    ∃ d : Int, arm.setFeedrate (FVal.fin f) = some { arm with _feedRateDelay := d } ∧
      (d : ℝ) ≠ 1 / 10 ∧
      (∀ y : Int, ∃ arm', ({ arm with _feedRateDelay := d } : ScaraArm).moveY y = some arm' ∧
        arm'._feedRateDelay = d ∧
        ∃ ext, arm'.log = arm.log ++ ext ∧ ∀ ms, Event.delay ms ∈ ext → ms = d) ∧
      (∀ x y : ℝ, ∃ arm',
        ({ arm with _feedRateDelay := d } : ScaraArm).movePosition
          (FVal.fin x) (FVal.fin y) = some arm' ∧
        arm'._feedRateDelay = d ∧
        ∃ ext, arm'.log = arm.log ++ ext ∧ ∀ ms, Event.delay ms ∈ ext → ms = d) := by
  refine ⟨_, ScaraArm.setFeedrate_fin arm f, ?_,
    (ScaraArm.moves_wait_stored_delay _).1, (ScaraArm.moves_wait_stored_delay _).2⟩
  intro h
  have h10 : ((10 * (if 0 ≤ f / 60000 then ⌊f / 60000⌋ else ⌈f / 60000⌉) : Int) : ℝ)
      = ((1 : Int) : ℝ) := by
    rw [Int.cast_mul, h]
    norm_num
  have := Int.cast_injective h10
  omega

/-! ## IEEE-754 rounding -/

theorem roundHalfEven_near (t : ℝ) (m : Int) (h : |t - m| < 1 / 2) : roundHalfEven t = m := by
  rw [abs_lt] at h
  unfold roundHalfEven
  by_cases hm : (m : ℝ) ≤ t
  · have hf : ⌊t⌋ = m := by
      rw [Int.floor_eq_iff]
      constructor <;> linarith
    have hfr : Int.fract t < 1 / 2 := by
      rw [Int.fract, hf]
      linarith
    rw [if_pos hfr, hf]
  · have hf : ⌊t⌋ = m - 1 := by
      rw [Int.floor_eq_iff]
      push_cast
      constructor <;> linarith
    have hfr : 1 / 2 < Int.fract t := by
      rw [Int.fract, hf]
      push_cast
      linarith
    rw [if_neg (not_lt.2 hfr.le), if_pos hfr, hf]
    ring

theorem roundHalfEven_tie (t : ℝ) (k : Int) (h : t = k + 1 / 2) :
    roundHalfEven t = if Even k then k else k + 1 := by
  have hf : ⌊t⌋ = k := by
    rw [Int.floor_eq_iff]
    constructor <;> linarith
  have hfr : Int.fract t = 1 / 2 := by
    rw [Int.fract, hf]
    linarith
  unfold roundHalfEven
  rw [hfr, if_neg (lt_irrefl _), if_neg (lt_irrefl _), hf]

theorem log_two_eq (x : ℝ) (e : Int) (h1 : (2 : ℝ) ^ e ≤ |x|) (h2 : |x| < (2 : ℝ) ^ (e + 1)) :
    Int.log 2 |x| = e := by
  have hpos : 0 < |x| := lt_of_lt_of_le (zpow_pos (by norm_num) e) h1
  have a : e ≤ Int.log 2 |x| :=
    (Int.zpow_le_iff_le_log (by norm_num) hpos).1 (by exact_mod_cast h1)
  have b : Int.log 2 |x| < e + 1 :=
    (Int.lt_zpow_iff_log_lt (by norm_num) hpos).1 (by exact_mod_cast h2)
  omega

theorem roundHalfEven_error (t : ℝ) : |(roundHalfEven t : ℝ) - t| ≤ 1 / 2 := by
  have h0 := Int.fract_nonneg t
  have h1 := Int.fract_lt_one t
  have hf : t - ⌊t⌋ = Int.fract t := Int.self_sub_floor t
  rw [abs_le]
  unfold roundHalfEven
  split_ifs with a b c
  · constructor <;> linarith
  · push_cast
    constructor <;> linarith
  · constructor <;> linarith
  · push_cast
    constructor <;> linarith

/-- The rounded value is at most half a unit in the last place away. -/
theorem roundTo_error (p : Nat) (x : ℝ) :
    |roundTo p x - x| ≤ (2 : ℝ) ^ (Int.log 2 |x| - ((p : Int) - 1)) / 2 := by
  have hu : 0 < (2 : ℝ) ^ (Int.log 2 |x| - ((p : Int) - 1)) := zpow_pos (by norm_num) _
  unfold roundTo
  split_ifs with h
  · rw [zero_sub, abs_neg, abs_eq_zero.2 h]
    exact (div_pos (zpow_pos (by norm_num) _) two_pos).le
  · have e : (roundHalfEven (x / (2 : ℝ) ^ (Int.log 2 |x| - ((p : Int) - 1))) : ℝ)
        * (2 : ℝ) ^ (Int.log 2 |x| - ((p : Int) - 1)) - x
        = ((roundHalfEven (x / (2 : ℝ) ^ (Int.log 2 |x| - ((p : Int) - 1))) : ℝ)
          - x / (2 : ℝ) ^ (Int.log 2 |x| - ((p : Int) - 1)))
          * (2 : ℝ) ^ (Int.log 2 |x| - ((p : Int) - 1)) := by
      field_simp
    simp only []
    rw [e, abs_mul, abs_of_pos hu]
    have := roundHalfEven_error (x / (2 : ℝ) ^ (Int.log 2 |x| - ((p : Int) - 1)))
    nlinarith

/-- A value within half a unit in the last place of `m` units rounds to `m` units. -/
theorem roundTo_near (p : Nat) (x : ℝ) (e m : Int)
    (h1 : (2 : ℝ) ^ e ≤ |x|) (h2 : |x| < (2 : ℝ) ^ (e + 1))
    (h : |x / (2 : ℝ) ^ (e - ((p : Int) - 1)) - m| < 1 / 2) :
    roundTo p x = m * (2 : ℝ) ^ (e - ((p : Int) - 1)) := by
  have hpos : 0 < |x| := lt_of_lt_of_le (zpow_pos (by norm_num) e) h1
  have hx : x ≠ 0 := abs_pos.1 hpos
  unfold roundTo
  rw [if_neg hx]
  simp only [log_two_eq x e h1 h2]
  rw [roundHalfEven_near _ m h]

/-- A value half way between `k` and `k + 1` units rounds to the even one of the two. -/
theorem roundTo_tie (p : Nat) (x : ℝ) (e k : Int)
    (h1 : (2 : ℝ) ^ e ≤ |x|) (h2 : |x| < (2 : ℝ) ^ (e + 1))
    (h : x / (2 : ℝ) ^ (e - ((p : Int) - 1)) = k + 1 / 2) :
    roundTo p x
      = ((if Even k then k else k + 1 : Int) : ℝ) * (2 : ℝ) ^ (e - ((p : Int) - 1)) := by
  have hpos : 0 < |x| := lt_of_lt_of_le (zpow_pos (by norm_num) e) h1
  have hx : x ≠ 0 := abs_pos.1 hpos
  unfold roundTo
  rw [if_neg hx]
  simp only [log_two_eq x e h1 h2]
  rw [roundHalfEven_tie _ k h]

/-- A whole number of units in the last place is representable: rounding keeps it. -/
theorem roundTo_exact (p : Nat) (x : ℝ) (e m : Int)
    (h1 : (2 : ℝ) ^ e ≤ |x|) (h2 : |x| < (2 : ℝ) ^ (e + 1))
    (h : x = m * (2 : ℝ) ^ (e - ((p : Int) - 1))) : roundTo p x = x := by
  have hu : (2 : ℝ) ^ (e - ((p : Int) - 1)) ≠ 0 := zpow_ne_zero _ (by norm_num)
  rw [roundTo_near p x e m h1 h2, ← h]
  rw [h, mul_div_assoc, div_self hu, mul_one, sub_self, abs_zero]
  norm_num

theorem roundTo_near_pos (p : Nat) (x : ℝ) (e m : Int)
    (h1 : (2 : ℝ) ^ e ≤ x) (h2 : x < (2 : ℝ) ^ (e + 1))
    (hlo : (m : ℝ) - 1 / 2 < x / (2 : ℝ) ^ (e - ((p : Int) - 1)))
    (hhi : x / (2 : ℝ) ^ (e - ((p : Int) - 1)) < (m : ℝ) + 1 / 2) :
    roundTo p x = m * (2 : ℝ) ^ (e - ((p : Int) - 1)) := by
  have hx : 0 ≤ x := le_trans (zpow_pos (by norm_num) e).le h1
  refine roundTo_near p x e m ?_ ?_ ?_
  · rwa [abs_of_nonneg hx]
  · rwa [abs_of_nonneg hx]
  · rw [abs_lt]
    constructor <;> linarith

theorem roundTo_near_neg (p : Nat) (x : ℝ) (e m : Int)
    (h1 : x ≤ -(2 : ℝ) ^ e) (h2 : -(2 : ℝ) ^ (e + 1) < x)
    (hlo : (m : ℝ) - 1 / 2 < x / (2 : ℝ) ^ (e - ((p : Int) - 1)))
    (hhi : x / (2 : ℝ) ^ (e - ((p : Int) - 1)) < (m : ℝ) + 1 / 2) :
    roundTo p x = m * (2 : ℝ) ^ (e - ((p : Int) - 1)) := by
  have hx : x ≤ 0 := le_trans h1 (neg_nonpos.2 (zpow_pos (by norm_num) e).le)
  refine roundTo_near p x e m ?_ ?_ ?_
  · rw [abs_of_nonpos hx]
    linarith
  · rw [abs_of_nonpos hx]
    linarith
  · rw [abs_lt]
    constructor <;> linarith

theorem roundTo_exact_pos (p : Nat) (x : ℝ) (e m : Int)
    (h1 : (2 : ℝ) ^ e ≤ x) (h2 : x < (2 : ℝ) ^ (e + 1))
    (h : x = m * (2 : ℝ) ^ (e - ((p : Int) - 1))) : roundTo p x = x := by
  have hx : 0 ≤ x := le_trans (zpow_pos (by norm_num) e).le h1
  exact roundTo_exact p x e m (by rwa [abs_of_nonneg hx]) (by rwa [abs_of_nonneg hx]) h

theorem roundTo_exact_neg (p : Nat) (x : ℝ) (e m : Int)
    (h1 : x ≤ -(2 : ℝ) ^ e) (h2 : -(2 : ℝ) ^ (e + 1) < x)
    (h : x = m * (2 : ℝ) ^ (e - ((p : Int) - 1))) : roundTo p x = x := by
  have hx : x ≤ 0 := le_trans h1 (neg_nonpos.2 (zpow_pos (by norm_num) e).le)
  exact roundTo_exact p x e m (by rw [abs_of_nonpos hx]; linarith)
    (by rw [abs_of_nonpos hx]; linarith) h

/-! ## Kinematics with rounding -/

theorem Rounded.fti_returns (v : ℝ) : ∃ n : Int, Rounded.fti (FVal.fin v) = some n := by
  unfold Rounded.fti
  split_ifs
  · exact ⟨_, rfl⟩
  · exact ⟨_, rfl⟩

theorem Rounded.fti_nan : Rounded.fti FVal.nan = none := by
  have h : ¬ FVal.ge FVal.nan (FVal.fin 0) := fun h => h
  unfold Rounded.fti
  rw [if_neg h]
  rfl

theorem Rounded.Joint.pulseWidth_nan (j : Joint) :
    Rounded.Joint.pulseWidth j FVal.nan = none := by
  have h : FVal.toFloat (FVal.mul j._widthPerRadian FVal.nan) = FVal.nan := by
    cases j._widthPerRadian <;> rfl
  unfold Rounded.Joint.pulseWidth
  rw [h, Rounded.fti_nan]
  rfl

/-- What `setPosition(int,int)` does, with rounding, on a target that passes the check while
the argument of the second `acos` is below -1: the shoulder joint is set to a finite angle,
and the elbow joint receives NaN, its pulse width being the conversion of a NaN to `int`. -/
theorem Rounded.setPosition_elbow_nan (arm : ScaraArm) (x y : Int) (qv r : ℝ)
    (hq : Rounded.q arm x y = FVal.fin qv) (hq1 : -1 ≤ qv) (hq2 : qv ≤ 1)
    (he : Rounded.elbowCos arm x y = FVal.fin r) (hr : r < -1) :
    ¬ Rounded.outOfRange arm x y ∧
      ∃ s : ℝ, (Rounded.setPosition arm x y)._shoulder.getPosition = FVal.fin s ∧
        (Rounded.setPosition arm x y)._elbow.getPosition = FVal.nan ∧
        (Rounded.setPosition arm x y).log = arm.log ++
          [Event.setPosition x y,
            Event.writeMicroseconds arm._shoulder._servo
              (Rounded.Joint.pulseWidth arm._shoulder (FVal.fin s)),
            Event.writeMicroseconds arm._elbow._servo none] := by
  have hno : ¬ Rounded.outOfRange arm x y := by
    unfold Rounded.outOfRange
    rw [hq]
    simp only [FVal.gt, FVal.lt, not_or, not_lt]
    exact ⟨hq2, hq1⟩
  have hno' : ∀ (x0 y0 : Int) (l : List Event),
      ¬ Rounded.outOfRange ({ arm with _x := x0, _y := y0, log := l } : ScaraArm) x y :=
    fun _ _ _ => hno
  have hq' : ∀ (x0 y0 : Int) (l : List Event),
      Rounded.q ({ arm with _x := x0, _y := y0, log := l } : ScaraArm) x y = FVal.fin qv :=
    fun _ _ _ => hq
  have ha' : ∀ (x0 y0 : Int) (l : List Event),
      Rounded.a1 ({ arm with _x := x0, _y := y0, log := l } : ScaraArm) x y
        = Rounded.a1 arm x y :=
    fun _ _ _ => rfl
  have he' : ∀ (x0 y0 : Int) (l : List Event) (sh : FVal),
      Rounded.elbowCos (Rounded.setShoulder
        ({ arm with _x := x0, _y := y0, log := l } : ScaraArm) sh) x y = FVal.fin r :=
    fun _ _ _ _ => he
  have hacos : FVal.acos (FVal.fin r) = FVal.nan := by
    have : ¬ (-1 ≤ r ∧ r ≤ 1) := fun h => absurd h.1 (not_le.2 hr)
    simp only [FVal.acos, if_neg this]
  have hqa : FVal.acos (FVal.fin qv) = FVal.fin (Real.arccos qv) := by
    simp only [FVal.acos, if_pos (And.intro hq1 hq2)]
  obtain ⟨av, hav⟩ : ∃ av : ℝ, Rounded.a1 arm x y = FVal.fin av := ⟨_, rfl⟩
  refine ⟨hno, roundTo 24 (av + -roundTo 24 (roundTo 53 (Real.arccos qv))), ?_⟩
  unfold Rounded.setPosition
  simp only []
  rw [if_neg (hno' _ _ _), hq', ha', hav, hqa]
  rw [he', hacos]
  have hs : FVal.toFloat (FVal.sub (FVal.fin av)
      (FVal.toFloat (FVal.toDouble (FVal.fin (Real.arccos qv)))))
      = FVal.fin (roundTo 24 (av + -roundTo 24 (roundTo 53 (Real.arccos qv)))) := rfl
  have hn : FVal.toFloat (FVal.sub
      (FVal.toFloat (FVal.sub Rounded.FULL_ROTATION (FVal.toFloat (FVal.toDouble FVal.nan))))
      Rounded.STRAIGHT_ANGLE) = FVal.nan := rfl
  rw [hs]
  refine ⟨rfl, ?_, ?_⟩
  · simp only [Rounded.setElbow, Rounded.Joint.setPosition, Joint.getPosition, hn]
  · simp only [Rounded.setElbow, Rounded.setShoulder, Rounded.Joint.setPosition, hn,
      Rounded.Joint.pulseWidth_nan, List.append_assoc, List.singleton_append, List.cons_append,
      List.nil_append]

theorem Rounded.Joint.pulseWidth_fin (j : Joint) (w s : ℝ) (hw : j._widthPerRadian = FVal.fin w) :
    ∃ pw : Int, Rounded.Joint.pulseWidth j (FVal.fin s) = some pw := by
  unfold Rounded.Joint.pulseWidth
  rw [hw]
  obtain ⟨n, hn⟩ := Rounded.fti_returns (roundTo 24 (w * s))
  exact ⟨j._center + n, by simp only [FVal.mul, FVal.toFloat, FVal.round, hn, Option.map_some']⟩

/-! ## Kinematics with rounding: a target just outside the reach -/

theorem armLongBones_s_w : armLongBones.s_w 1 4000 = 16000001 := by
  rfl

theorem armLongBones_s_w_sqrt :
    Rounded.s_w_sqrt armLongBones 1 4000 = FVal.fin (16384001 / 4096) := by
  have r1 : roundTo 53 (16000001 : ℝ) = 16000001 :=
    roundTo_exact_pos 53 _ 23 8589935128870912 (by norm_num) (by norm_num) (by norm_num)
  have r2 : roundTo 53 (Real.sqrt 16000001) = 8796093297085903 / 2199023255552 := by
    have hlo : (8796093297085903 - 1 / 2 : ℝ) / 2199023255552 < Real.sqrt 16000001 := by
      rw [Real.lt_sqrt (by norm_num)]
      norm_num
    have hhi : Real.sqrt 16000001 < (8796093297085903 + 1 / 2 : ℝ) / 2199023255552 := by
      rw [Real.sqrt_lt' (by norm_num)]
      norm_num
    rw [roundTo_near 53 _ 11 8796093297085903]
    · norm_num
    · rw [abs_of_nonneg (Real.sqrt_nonneg _)]
      refine le_trans ?_ hlo.le
      norm_num
    · rw [abs_of_nonneg (Real.sqrt_nonneg _)]
      refine lt_trans hhi ?_
      norm_num
    · rw [abs_lt]
      norm_num
      constructor
      · linarith
      · linarith
  have r3 : roundTo 24 (8796093297085903 / 2199023255552 : ℝ) = 16384001 / 4096 := by
    rw [roundTo_near 24 _ 11 16384001 (by rw [abs_of_pos (by norm_num)]; norm_num)
      (by rw [abs_of_pos (by norm_num)]; norm_num)
      (by rw [abs_lt]; constructor <;> norm_num)]
    norm_num
  have h0 : ¬ ((16000001 : ℝ) < 0) := by norm_num
  unfold Rounded.s_w_sqrt
  rw [armLongBones_s_w]
  simp only [FVal.ofInt, FVal.toDouble, FVal.toFloat, FVal.round, FVal.sqrt, Int.cast_ofNat,
    r1, if_neg h0, r2, r3]

theorem armLongBones_q : Rounded.q armLongBones 1 4000 = FVal.fin 1 := by
  have hn : armLongBones._humerusSq - armLongBones._ulnaSq + armLongBones.s_w 1 4000
      = 16000001 := by rfl
  have hh : armLongBones._humerus = 2000 := rfl
  have r1 : roundTo 24 (16000001 : ℝ) = 16000001 :=
    roundTo_exact_pos 24 _ 23 16000001 (by norm_num) (by norm_num) (by norm_num)
  have r2 : roundTo 53 (2000 : ℝ) = 2000 :=
    roundTo_exact_pos 53 _ 10 8796093022208000 (by norm_num) (by norm_num) (by norm_num)
  have r3 : roundTo 53 (2 * 2000 : ℝ) = 4000 := by
    rw [roundTo_exact_pos 53 _ 11 8796093022208000 (by norm_num) (by norm_num) (by norm_num)]
    norm_num
  have r4 : roundTo 53 (4000 * (16384001 / 4096) : ℝ) = 2048000125 / 128 := by
    rw [roundTo_exact_pos 53 _ 23 8589935116288000 (by norm_num) (by norm_num) (by norm_num)]
    norm_num
  have r5 : roundTo 53 (16000001 / (2048000125 / 128) : ℝ)
      = 4503599633967565 / 4503599627370496 := by
    rw [roundTo_near_pos 53 _ 0 4503599633967565 (by norm_num) (by norm_num) (by norm_num)
      (by norm_num)]
    norm_num
  have r6 : roundTo 24 (4503599633967565 / 4503599627370496 : ℝ) = 1 := by
    rw [roundTo_near_pos 24 _ 0 8388608 (by norm_num) (by norm_num) (by norm_num)
      (by norm_num)]
    norm_num
  have h0 : ¬ ((2048000125 / 128 : ℝ) = 0) := by norm_num
  unfold Rounded.q
  rw [hn, hh, armLongBones_s_w_sqrt]
  simp only [FVal.ofInt, FVal.toDouble, FVal.toFloat, FVal.round, FVal.mul, FVal.div,
    Int.cast_ofNat, r1, r2, r3, r4, if_neg h0, r5, r6]

theorem armLongBones_elbowCos :
    Rounded.elbowCos armLongBones 1 4000
      = FVal.fin (-4503600190320449 / 4503599627370496) := by
  have hn : armLongBones._humerusSq + armLongBones._ulnaSq - armLongBones.s_w 1 4000
      = -8000001 := by rfl
  have hh : armLongBones._humerus = 2000 := rfl
  have hu : armLongBones._ulna = 2000 := rfl
  have r1 : roundTo 24 (-8000001 : ℝ) = -8000001 :=
    roundTo_exact_neg 24 _ 22 (-16000002) (by norm_num) (by norm_num) (by norm_num)
  have r2 : roundTo 53 (2000 : ℝ) = 2000 :=
    roundTo_exact_pos 53 _ 10 8796093022208000 (by norm_num) (by norm_num) (by norm_num)
  have r3 : roundTo 53 (2 * 2000 : ℝ) = 4000 := by
    rw [roundTo_exact_pos 53 _ 11 8796093022208000 (by norm_num) (by norm_num) (by norm_num)]
    norm_num
  have r4 : roundTo 53 (4000 * 2000 : ℝ) = 8000000 := by
    rw [roundTo_exact_pos 53 _ 22 8589934592000000 (by norm_num) (by norm_num) (by norm_num)]
    norm_num
  have r5 : roundTo 53 (-8000001 / 8000000 : ℝ)
      = -4503600190320449 / 4503599627370496 := by
    rw [roundTo_near_neg 53 _ 0 (-4503600190320449) (by norm_num) (by norm_num) (by norm_num)
      (by norm_num)]
    norm_num
  have h0 : ¬ ((8000000 : ℝ) = 0) := by norm_num
  unfold Rounded.elbowCos
  rw [hn, hh, hu]
  simp only [FVal.ofInt, FVal.toDouble, FVal.toFloat, FVal.round, FVal.mul, FVal.div,
    Int.cast_ofNat, Int.cast_neg, r1, r2, r3, r4, if_neg h0, r5]

theorem armLongBones_out : armLongBones.outOfRange 1 4000 := by
  have hs : (4000 : ℝ) < Real.sqrt 16000001 := by
    rw [Real.lt_sqrt (by norm_num)]
    norm_num
  have hsq : Real.sqrt 16000001 * Real.sqrt 16000001 = 16000001 :=
    Real.mul_self_sqrt (by norm_num)
  have hq : armLongBones.q 1 4000
      = FVal.fin (16000001 / (2 * 2000 * Real.sqrt 16000001)) := by
    have hn : armLongBones._humerusSq - armLongBones._ulnaSq + armLongBones.s_w 1 4000
        = 16000001 := by rfl
    have hh : armLongBones._humerus = 2000 := rfl
    have h0 : ¬ ((16000001 : ℝ) < 0) := by norm_num
    have h1 : ¬ (2 * 2000 * Real.sqrt 16000001 = 0) := by positivity
    unfold ScaraArm.q ScaraArm.s_w_sqrt
    rw [hn, hh, armLongBones_s_w]
    simp only [FVal.ofInt, FVal.sqrt, FVal.mul, FVal.div, Int.cast_ofNat, if_neg h0, if_neg h1]
  left
  rw [hq]
  show (1 : ℝ) < 16000001 / (2 * 2000 * Real.sqrt 16000001)
  rw [lt_div_iff₀ (by positivity)]
  nlinarith

/-- C23, the failing input: bones 2000/2000, no offset, target (1, 4000).  The target is out of
reach (its squared distance is 16000001, above 4000 squared, and the exact quotient is above
1), but the quotient as the code computes it, rounded to `float`, is exactly 1: the check
passes and the shoulder joint is set.  The argument of the second `acos` is below -1, so
the elbow joint receives NaN and the pulse width written to its servo is not defined.  Every
`int` value of the computation is below 2^31. -/
theorem setPosition_accepts_target_outside_reach :
    0 < armLongBones._humerus ∧ 0 < armLongBones._ulna ∧
      armLongBones.s_w 1 4000 = 16000001 ∧
      armLongBones.outOfRange 1 4000 ∧
      Rounded.q armLongBones 1 4000 = FVal.fin 1 ∧
      ¬ Rounded.outOfRange armLongBones 1 4000 ∧
      (∃ r : ℝ, Rounded.elbowCos armLongBones 1 4000 = FVal.fin r ∧ r < -1) ∧
      (∃ s : ℝ, (Rounded.setPosition armLongBones 1 4000)._shoulder.getPosition = FVal.fin s) ∧
      (Rounded.setPosition armLongBones 1 4000)._elbow.getPosition = FVal.nan ∧
      ∃ pw : Int, (Rounded.setPosition armLongBones 1 4000).log =
        [Event.setPosition 1 4000, Event.writeMicroseconds 0 (some pw),
          Event.writeMicroseconds 1 none] := by
  have hr : (-4503600190320449 / 4503599627370496 : ℝ) < -1 := by norm_num
  obtain ⟨hno, s, h1, h2, h3⟩ := Rounded.setPosition_elbow_nan armLongBones 1 4000 1 _
    armLongBones_q (by norm_num) le_rfl armLongBones_elbowCos hr
  obtain ⟨pw, hpw⟩ := Rounded.Joint.pulseWidth_fin armLongBones._shoulder 600 s rfl
  refine ⟨by decide, by decide, armLongBones_s_w, armLongBones_out, armLongBones_q, hno,
    ⟨_, armLongBones_elbowCos, hr⟩, ⟨s, h1⟩, h2, pw, ?_⟩
  rw [h3, hpw]
  rfl

/-! ## Kinematics with rounding: a target on the outer boundary -/

theorem armUnequalBones_s_w : armUnequalBones.s_w 0 8196 = 67174416 := by
  rfl

theorem armUnequalBones_s_w_sqrt :
    Rounded.s_w_sqrt armUnequalBones 0 8196 = FVal.fin 8196 := by
  have r1 : roundTo 53 (67174416 : ℝ) = 67174416 :=
    roundTo_exact_pos 53 _ 26 4507998747623424 (by norm_num) (by norm_num) (by norm_num)
  have hs : Real.sqrt 67174416 = 8196 := by
    rw [show (67174416 : ℝ) = 8196 ^ 2 by norm_num]
    exact Real.sqrt_sq (by norm_num)
  have r2 : roundTo 53 (8196 : ℝ) = 8196 :=
    roundTo_exact_pos 53 _ 13 4505798650626048 (by norm_num) (by norm_num) (by norm_num)
  have r3 : roundTo 24 (8196 : ℝ) = 8196 :=
    roundTo_exact_pos 24 _ 13 8392704 (by norm_num) (by norm_num) (by norm_num)
  have h0 : ¬ ((67174416 : ℝ) < 0) := by norm_num
  unfold Rounded.s_w_sqrt
  rw [armUnequalBones_s_w]
  simp only [FVal.ofInt, FVal.toDouble, FVal.toFloat, FVal.round, FVal.sqrt, Int.cast_ofNat,
    r1, if_neg h0, hs, r2, r3]

theorem armUnequalBones_q : Rounded.q armUnequalBones 0 8196 = FVal.fin 1 := by
  have hn : armUnequalBones._humerusSq - armUnequalBones._ulnaSq + armUnequalBones.s_w 0 8196
      = 67158024 := by rfl
  have hh : armUnequalBones._humerus = 4097 := rfl
  have r1 : roundTo 24 (67158024 : ℝ) = 67158024 :=
    roundTo_exact_pos 24 _ 26 8394753 (by norm_num) (by norm_num) (by norm_num)
  have r2 : roundTo 53 (4097 : ℝ) = 4097 :=
    roundTo_exact_pos 53 _ 12 4504699138998272 (by norm_num) (by norm_num) (by norm_num)
  have r3 : roundTo 53 (2 * 4097 : ℝ) = 8194 := by
    rw [roundTo_exact_pos 53 _ 13 4504699138998272 (by norm_num) (by norm_num) (by norm_num)]
    norm_num
  have r4 : roundTo 53 (8194 * 8196 : ℝ) = 67158024 := by
    rw [roundTo_exact_pos 53 _ 26 4506898699124736 (by norm_num) (by norm_num) (by norm_num)]
    norm_num
  have r5 : roundTo 53 (67158024 / 67158024 : ℝ) = 1 := by
    rw [roundTo_exact_pos 53 _ 0 4503599627370496 (by norm_num) (by norm_num) (by norm_num)]
    norm_num
  have r6 : roundTo 24 (1 : ℝ) = 1 :=
    roundTo_exact_pos 24 _ 0 8388608 (by norm_num) (by norm_num) (by norm_num)
  have h0 : ¬ ((67158024 : ℝ) = 0) := by norm_num
  unfold Rounded.q
  rw [hn, hh, armUnequalBones_s_w_sqrt]
  simp only [FVal.ofInt, FVal.toDouble, FVal.toFloat, FVal.round, FVal.mul, FVal.div,
    Int.cast_ofNat, r1, r2, r3, r4, if_neg h0, r5, r6]

/-- The conversion `(float)(-33587206)`: the value is half way between two neighbours in
`float`, which are four apart there, and goes to the even one, `-33587208`. -/
theorem toFloat_numerator_tie :
    FVal.toFloat (FVal.ofInt (-33587206)) = FVal.fin (-33587208) := by
  have he : Even (-8396802 : Int) := ⟨-4198401, by norm_num⟩
  have r1 : roundTo 24 (-33587206 : ℝ) = -33587208 := by
    rw [roundTo_tie 24 _ 25 (-8396802) (by norm_num) (by norm_num) (by norm_num), if_pos he]
    norm_num
  simp only [FVal.ofInt, FVal.toFloat, FVal.round, Int.cast_ofNat, Int.cast_neg, r1]

theorem armUnequalBones_elbowCos :
    Rounded.elbowCos armUnequalBones 0 8196
      = FVal.fin (-4503599895544016 / 4503599627370496) := by
  have hn : armUnequalBones._humerusSq + armUnequalBones._ulnaSq - armUnequalBones.s_w 0 8196
      = -33587206 := by rfl
  have hh : armUnequalBones._humerus = 4097 := rfl
  have hu : armUnequalBones._ulna = 4099 := rfl
  have r2 : roundTo 53 (4097 : ℝ) = 4097 :=
    roundTo_exact_pos 53 _ 12 4504699138998272 (by norm_num) (by norm_num) (by norm_num)
  have r3 : roundTo 53 (2 * 4097 : ℝ) = 8194 := by
    rw [roundTo_exact_pos 53 _ 13 4504699138998272 (by norm_num) (by norm_num) (by norm_num)]
    norm_num
  have r4 : roundTo 53 (4099 : ℝ) = 4099 :=
    roundTo_exact_pos 53 _ 12 4506898162253824 (by norm_num) (by norm_num) (by norm_num)
  have r5 : roundTo 53 (8194 * 4099 : ℝ) = 33587206 := by
    rw [roundTo_exact_pos 53 _ 25 4507998479187968 (by norm_num) (by norm_num) (by norm_num)]
    norm_num
  have r6 : roundTo 53 (-33587208 / 33587206 : ℝ)
      = -4503599895544016 / 4503599627370496 := by
    rw [roundTo_near_neg 53 _ 0 (-4503599895544016) (by norm_num) (by norm_num) (by norm_num)
      (by norm_num)]
    norm_num
  have h0 : ¬ ((33587206 : ℝ) = 0) := by norm_num
  unfold Rounded.elbowCos
  rw [hn, hh, hu, toFloat_numerator_tie]
  simp only [FVal.ofInt, FVal.toDouble, FVal.round, FVal.mul, FVal.div,
    Int.cast_ofNat, r2, r3, r4, r5, if_neg h0, r6]

theorem armUnequalBones_in : ¬ armUnequalBones.outOfRange 0 8196 := by
  have hs : Real.sqrt 67174416 = 8196 := by
    rw [show (67174416 : ℝ) = 8196 ^ 2 by norm_num]
    exact Real.sqrt_sq (by norm_num)
  have hq : armUnequalBones.q 0 8196 = FVal.fin 1 := by
    have hn : armUnequalBones._humerusSq - armUnequalBones._ulnaSq
        + armUnequalBones.s_w 0 8196 = 67158024 := by rfl
    have hh : armUnequalBones._humerus = 4097 := rfl
    have h0 : ¬ ((67174416 : ℝ) < 0) := by norm_num
    have h1 : ¬ ((2 * 4097 * 8196 : ℝ) = 0) := by norm_num
    unfold ScaraArm.q ScaraArm.s_w_sqrt
    rw [hn, hh, armUnequalBones_s_w]
    simp only [FVal.ofInt, FVal.sqrt, FVal.mul, FVal.div, Int.cast_ofNat, if_neg h0, hs,
      if_neg h1]
    norm_num
  unfold ScaraArm.outOfRange
  rw [hq]
  simp only [FVal.gt, FVal.lt, not_or, not_lt]
  constructor <;> norm_num

/-- C4, the failing input: bones 4097/4099, no offset, target (0, 8196).  The target is on
the outer boundary of the annulus (its distance 8196 is the sum of the bones) and passes the
check, with and without rounding.  The conversion to `float` of the numerator -33587206 of
the second quotient gives -33587208, the denominator is 33587206, the argument of the second
`acos` is below -1 and the elbow joint receives NaN: no angle is there to give the target
back, within any tolerance.  Every `int` value of the computation is below 2^31. -/
theorem setPosition_boundary_target_elbow_nan :
    0 < armUnequalBones._humerus ∧ 0 < armUnequalBones._ulna ∧
      armUnequalBones.s_w 0 8196 = 8196 * 8196 ∧
      armUnequalBones._humerus + armUnequalBones._ulna = 8196 ∧
      |armUnequalBones._humerus - armUnequalBones._ulna| ≤ 8196 ∧
      ¬ armUnequalBones.outOfRange 0 8196 ∧
      ¬ Rounded.outOfRange armUnequalBones 0 8196 ∧
      FVal.toFloat (FVal.ofInt (armUnequalBones._humerusSq + armUnequalBones._ulnaSq
        - armUnequalBones.s_w 0 8196)) = FVal.fin (-33587208) ∧
      (∃ r : ℝ, Rounded.elbowCos armUnequalBones 0 8196 = FVal.fin r ∧ r < -1) ∧
      (∃ s : ℝ,
        (Rounded.setPosition armUnequalBones 0 8196)._shoulder.getPosition = FVal.fin s) ∧
      (Rounded.setPosition armUnequalBones 0 8196)._elbow.getPosition = FVal.nan ∧
      ∃ pw : Int, (Rounded.setPosition armUnequalBones 0 8196).log =
        [Event.setPosition 0 8196, Event.writeMicroseconds 0 (some pw),
          Event.writeMicroseconds 1 none] := by
  have hr : (-4503599895544016 / 4503599627370496 : ℝ) < -1 := by norm_num
  obtain ⟨hno, s, h1, h2, h3⟩ := Rounded.setPosition_elbow_nan armUnequalBones 0 8196 1 _
    armUnequalBones_q (by norm_num) le_rfl armUnequalBones_elbowCos hr
  obtain ⟨pw, hpw⟩ := Rounded.Joint.pulseWidth_fin armUnequalBones._shoulder 600 s rfl
  refine ⟨by decide, by decide, by rfl, by rfl, by decide, armUnequalBones_in, hno,
    toFloat_numerator_tie, ⟨_, armUnequalBones_elbowCos, hr⟩, ⟨s, h1⟩, h2, pw, ?_⟩
  rw [h3, hpw]
  rfl

end
